import Mathlib

/-! Graphics pipeline: `driver_state.cpp`

A shallow embedding of `initialize_render`, `render`, `clip_triangle` and
`rasterize_triangle`, followed by theorems about them.

Conventions of the embedding.

* A C++ `float` is a value of `Flt`: a rational, or one of the IEEE special
  values `+inf`, `-inf`, `NaN`.  The operations `+`, `-`, `*`, `/` of `Flt` are
  exact.  The rasterizer is embedded twice: with these exact operations
  (`rasterize_triangle` and its parts), and in IEEE single precision, where
  every operation is rounded to the nearest `float` and overflows to an
  infinity (`rasterize_triangle32` and its parts, in the section on
  single-precision arithmetic).  Statements that hold only of the exact
  operations say so.  The sign of zero is not modelled (a zero divisor counts
  as `+0`).  The floats the caller supplies (vertex stream, shader outputs) are
  finite, so they are kept as rationals; special values arise from the
  operations of the rasterizer.
* A C++ `int` is a mathematical integer; signed overflow is not modelled.
* A `float*` into the vertex stream is the list of floats from that position on.
* Undefined behaviour that the code can reach (conversion of a non-finite float
  to `int`, an access outside `image_depth` / `image_color`) is the result `none`.
-/

/-! ## Floating-point values -/

/-- A `float`: a finite value kept as an exact rational, or an IEEE special value. -/
inductive Flt where
  | fin (q : ℚ)
  | pinf
  | ninf
  | nan
  deriving DecidableEq

namespace Flt

/-- Infinity of the given sign (`true` is positive). -/
def signed (pos : Bool) : Flt := if pos then pinf else ninf

/-- Float addition. -/
def add : Flt → Flt → Flt
  | fin a, fin b => fin (a + b)
  | fin _, pinf => pinf
  | fin _, ninf => ninf
  | pinf, fin _ => pinf
  | ninf, fin _ => ninf
  | pinf, pinf => pinf
  | ninf, ninf => ninf
  | _, _ => nan

/-- Float subtraction. -/
def sub : Flt → Flt → Flt
  | fin a, fin b => fin (a - b)
  | fin _, pinf => ninf
  | fin _, ninf => pinf
  | pinf, fin _ => pinf
  | ninf, fin _ => ninf
  | pinf, ninf => pinf
  | ninf, pinf => ninf
  | _, _ => nan

/-- Float multiplication. -/
def mul : Flt → Flt → Flt
  | fin a, fin b => fin (a * b)
  | fin a, pinf => if a = 0 then nan else signed (decide (0 < a))
  | fin a, ninf => if a = 0 then nan else signed (decide (a < 0))
  | pinf, fin b => if b = 0 then nan else signed (decide (0 < b))
  | ninf, fin b => if b = 0 then nan else signed (decide (b < 0))
  | pinf, pinf => pinf
  | ninf, ninf => pinf
  | pinf, ninf => ninf
  | ninf, pinf => ninf
  | _, _ => nan

/-- Float division; a finite value divided by zero is an infinity of the sign of
the dividend, and `0/0` is `NaN`. -/
def div : Flt → Flt → Flt
  | fin a, fin b =>
    if b = 0 then (if a = 0 then nan else signed (decide (0 < a))) else fin (a / b)
  | fin _, pinf => fin 0
  | fin _, ninf => fin 0
  | pinf, fin b => signed (decide (0 ≤ b))
  | ninf, fin b => signed (decide (b < 0))
  | _, _ => nan

instance : Add Flt := ⟨add⟩
instance : Mul Flt := ⟨mul⟩
instance : Div Flt := ⟨div⟩
instance : Sub Flt := ⟨sub⟩

/-- Conversion of an `int` to `float`. -/
def ofInt (n : Int) : Flt := fin n

/-- The comparison `a < b` on floats (false whenever a `NaN` is involved). -/
def lt : Flt → Flt → Bool
  | fin a, fin b => decide (a < b)
  | fin _, pinf => true
  | ninf, fin _ => true
  | ninf, pinf => true
  | _, _ => false

/-- The comparison `a >= b` on floats (false whenever a `NaN` is involved). -/
def ge : Flt → Flt → Bool
  | fin a, fin b => decide (b ≤ a)
  | pinf, fin _ => true
  | fin _, ninf => true
  | pinf, ninf => true
  | pinf, pinf => true
  | ninf, ninf => true
  | _, _ => false

/-- Truncation toward zero of a rational, as `static_cast<int>` does on a finite float. -/
def trunc (q : ℚ) : Int := Int.tdiv q.num q.den

/-- The conversion `static_cast<int>(f)`: undefined for a non-finite float. -/
def to_int : Flt → Option Int
  | fin q => some (trunc q)
  | _ => none

end Flt

/-! ## Data model (`driver_state.h`, `common.h`) -/

/-- Modelled from the spec: the `pixel` type of the absent header, a packed
8-bit-per-channel RGB value, kept here as its three channel values. -/
structure pixel where
  r : Int
  g : Int
  b : Int
  deriving DecidableEq

/-- Modelled from the spec: `make_pixel` of the absent header packs three channel values. -/
def make_pixel (r g b : Int) : pixel := ⟨r, g, b⟩

/-- Modelled from the spec: the interpolation rules of the absent header. -/
inductive interp_type where
  | flat
  | smooth
  | noperspective
  deriving DecidableEq

/-- The render modes. -/
inductive render_type where
  | triangle
  | indexed
  | fan
  | strip
  deriving DecidableEq

/-- A four-component vector of floats; component `k` of the source is the field `ck`. -/
structure vec4 where
  c0 : ℚ
  c1 : ℚ
  c2 : ℚ
  c3 : ℚ
  deriving DecidableEq

/-- Input of the vertex shader: a pointer to one record of the vertex stream. -/
structure data_vertex where
  data : List ℚ
  deriving DecidableEq

/-- Output of the vertex shader: clip-space position and attribute pointer. -/
structure data_geometry where
  gl_Position : vec4
  data : List ℚ
  deriving DecidableEq

/-- Input of the fragment shader: the reconstructed attributes. -/
structure data_fragment where
  data : List Flt
  deriving DecidableEq

/-- Modelled from the spec: the output of the fragment shader in the absent
header, a colour with finite channels. -/
structure data_output where
  output_color : vec4
  deriving DecidableEq

/-- The three vertices `in[0]`, `in[1]`, `in[2]` of a triangle. -/
structure triangle where
  v0 : data_geometry
  v1 : data_geometry
  v2 : data_geometry
  deriving DecidableEq

/-- Modelled from the spec: the `driver_state` structure of the absent header.
The interpolation-rule table has length `floats_per_vertex`; the two callbacks
are pure functions of their input and the uniform data. -/
structure driver_state where
  vertex_data : List ℚ
  num_vertices : Int
  uniform_data : List ℚ
  interp_rules : List interp_type
  image_width : Int
  image_height : Int
  image_color : List pixel
  image_depth : List Flt
  vertex_shader : data_vertex → List ℚ → data_geometry
  fragment_shader : data_fragment → List ℚ → data_output

/-- The number of floats of one vertex record: the length of the rule table. -/
def driver_state.floats_per_vertex (state : driver_state) : Nat :=
  state.interp_rules.length

/-- The value `std::numeric_limits<float>::max()`. -/
def FLT_MAX : ℚ := (2 ^ 24 - 1) * 2 ^ 104

/-! ## `initialize_render` -/

/-- Allocation and initialisation of the colour and depth arrays; a negative
array size makes `new` fail. -/
def initialize_render (state : driver_state) (width height : Int) : Option driver_state :=
  if width * height < 0 then none
  else some { state with
    image_width := width
    image_height := height
    image_color := List.replicate (width * height).toNat (make_pixel 0 0 0)
    image_depth := List.replicate (width * height).toNat (Flt.fin FLT_MAX) }

/-! ## `rasterize_triangle` -/

/-- Lines 97-99: perspective divide and viewport transform of one coordinate,
`static_cast<int>(half * (c / w) + (half - 0.5f))`. -/
def to_screen (half : Flt) (c w : ℚ) : Option Int :=
  Flt.to_int (half * (Flt.fin c / Flt.fin w) + (half - Flt.fin (1 / 2)))

/-- The locals of `rasterize_triangle` that are fixed before the pixel loop:
the integer screen coordinates `x[l]`, `y[l]`, `z[l]`, the bounding box after
the off-grid checks, and `area_ABC`. -/
structure raster_locals where
  x0 : Int
  x1 : Int
  x2 : Int
  y0 : Int
  y1 : Int
  y2 : Int
  z0 : Int
  z1 : Int
  z2 : Int
  min_x : Int
  max_x : Int
  min_y : Int
  max_y : Int
  area_ABC : Flt
  deriving DecidableEq

/-- Lines 91-121 of `rasterize_triangle`: screen coordinates, bounding box, area. -/
def raster_setup (state : driver_state) (tri : triangle) : Option raster_locals := do
  let w_div_2 := Flt.ofInt state.image_width / Flt.fin 2
  let h_div_2 := Flt.ofInt state.image_height / Flt.fin 2
  let x0 ← to_screen w_div_2 tri.v0.gl_Position.c0 tri.v0.gl_Position.c3
  let y0 ← to_screen h_div_2 tri.v0.gl_Position.c1 tri.v0.gl_Position.c3
  let z0 ← to_screen w_div_2 tri.v0.gl_Position.c2 tri.v0.gl_Position.c3
  let x1 ← to_screen w_div_2 tri.v1.gl_Position.c0 tri.v1.gl_Position.c3
  let y1 ← to_screen h_div_2 tri.v1.gl_Position.c1 tri.v1.gl_Position.c3
  let z1 ← to_screen w_div_2 tri.v1.gl_Position.c2 tri.v1.gl_Position.c3
  let x2 ← to_screen w_div_2 tri.v2.gl_Position.c0 tri.v2.gl_Position.c3
  let y2 ← to_screen h_div_2 tri.v2.gl_Position.c1 tri.v2.gl_Position.c3
  let z2 ← to_screen w_div_2 tri.v2.gl_Position.c2 tri.v2.gl_Position.c3
  let min_x := min (min x0 x1) x2
  let max_x := max (max x0 x1) x2
  let min_y := min (min y0 y1) y2
  let max_y := max (max y0 y1) y2
  let min_x := if min_x < 0 then 0 else min_x
  let min_y := if min_y < 0 then 0 else min_y
  let max_x := if max_x > state.image_width then state.image_width - 1 else max_x
  let max_y := if max_y > state.image_height then state.image_height - 1 else max_y
  let area_ABC :=
    Flt.fin (1 / 2) * Flt.ofInt ((x1 * y2 - x2 * y1) - (x0 * y2 - x2 * y0) + (x0 * y1 - x1 * y0))
  some { x0 := x0, x1 := x1, x2 := x2, y0 := y0, y1 := y1, y2 := y2,
         z0 := z0, z1 := z1, z2 := z2,
         min_x := min_x, max_x := max_x, min_y := min_y, max_y := max_y,
         area_ABC := area_ABC }

/-- Line 131: the weight `alpha_prime` of pixel `(i, j)`. -/
def bary_alpha (L : raster_locals) (i j : Int) : Flt :=
  (Flt.fin (1 / 2) *
    Flt.ofInt ((L.x1 * L.y2 - L.x2 * L.y1) + (L.y1 - L.y2) * i + (L.x2 - L.x1) * j)) / L.area_ABC

/-- Line 132: the weight `beta_prime` of pixel `(i, j)`. -/
def bary_beta (L : raster_locals) (i j : Int) : Flt :=
  (Flt.fin (1 / 2) *
    Flt.ofInt ((L.x2 * L.y0 - L.x0 * L.y2) + (L.y2 - L.y0) * i + (L.x0 - L.x2) * j)) / L.area_ABC

/-- Line 133: the weight `gamma_prime` of pixel `(i, j)`. -/
def bary_gamma (L : raster_locals) (i j : Int) : Flt :=
  (Flt.fin (1 / 2) *
    Flt.ofInt ((L.x0 * L.y1 - L.x1 * L.y0) + (L.y0 - L.y1) * i + (L.x1 - L.x0) * j)) / L.area_ABC

/-- Line 135: the inside test of pixel `(i, j)`. -/
def inside_test (L : raster_locals) (i j : Int) : Bool :=
  (bary_alpha L i j).ge (Flt.fin 0) && (bary_beta L i j).ge (Flt.fin 0)
    && (bary_gamma L i j).ge (Flt.fin 0)

/-- Line 140: the interpolated depth `z_val` from the weights `alpha`, `beta`, `gamma`. -/
def z_val (L : raster_locals) (i j : Int) : Flt :=
  bary_alpha L i j * Flt.ofInt L.z0 + bary_beta L i j * Flt.ofInt L.z1
    + bary_gamma L i j * Flt.ofInt L.z2

/-- Lines 147-169: the loop over the attribute slots `k, k+1, ...` whose rules are
the given list.  `alpha`, `beta`, `gamma` are the copies taken at lines 136-138;
`alpha_prime`, `beta_prime`, `gamma_prime` are the pixel's variables of lines
131-133, which the `smooth` case overwrites and, having no `break`, then uses in
the statement of the `noperspective` case.  The result lists `frag_data.data[k]`
for the slots visited.  The `default` case is not reached by the three rules. -/
def interp_loop (tri : triangle) (alpha beta gamma : Flt) :
    List interp_type → Nat → Flt → Flt → Flt → List Flt
  | [], _, _, _, _ => []
  | rule :: rules, k, alpha_prime, beta_prime, gamma_prime =>
    match rule with
    | interp_type.flat =>
      Flt.fin (tri.v0.data.getD k 0)
        :: interp_loop tri alpha beta gamma rules (k + 1) alpha_prime beta_prime gamma_prime
    | interp_type.smooth =>
      let k_gour := (alpha / Flt.fin tri.v0.gl_Position.c3)
        + (beta / Flt.fin tri.v1.gl_Position.c3)
        + (gamma / Flt.fin tri.v2.gl_Position.c3)
      let alpha_prime := alpha / (k_gour * Flt.fin tri.v0.gl_Position.c3)
      let beta_prime := beta / (k_gour * Flt.fin tri.v1.gl_Position.c3)
      let gamma_prime := gamma / (k_gour * Flt.fin tri.v2.gl_Position.c3)
      (alpha_prime * Flt.fin (tri.v0.data.getD k 0)
          + beta_prime * Flt.fin (tri.v1.data.getD k 0)
          + gamma_prime * Flt.fin (tri.v2.data.getD k 0))
        :: interp_loop tri alpha beta gamma rules (k + 1) alpha_prime beta_prime gamma_prime
    | interp_type.noperspective =>
      (alpha_prime * Flt.fin (tri.v0.data.getD k 0)
          + beta_prime * Flt.fin (tri.v1.data.getD k 0)
          + gamma_prime * Flt.fin (tri.v2.data.getD k 0))
        :: interp_loop tri alpha beta gamma rules (k + 1) alpha_prime beta_prime gamma_prime

/-- The fragment handed to the fragment shader at pixel `(i, j)` (lines 136-169). -/
def fragment_at (state : driver_state) (tri : triangle) (L : raster_locals) (i j : Int) :
    data_fragment :=
  { data := interp_loop tri (bary_alpha L i j) (bary_beta L i j) (bary_gamma L i j)
      state.interp_rules 0 (bary_alpha L i j) (bary_beta L i j) (bary_gamma L i j) }

/-- Lines 173-176: conversion of the shader's colour to a pixel. -/
def to_pixel (output_data : data_output) : pixel :=
  make_pixel (Flt.trunc (output_data.output_color.c0 * 255))
    (Flt.trunc (output_data.output_color.c1 * 255))
    (Flt.trunc (output_data.output_color.c2 * 255))

/-- Read of `a[idx]`; outside the array it is undefined. -/
def read_at {α : Type} (a : List α) (idx : Int) : Option α :=
  if idx < 0 then none else a[idx.toNat]?

/-- Write `a[idx] = v`; outside the array it is undefined. -/
def write_at {α : Type} (a : List α) (idx : Int) (v : α) : Option (List α) :=
  if 0 ≤ idx ∧ idx < a.length then some (a.set idx.toNat v) else none

/-- Lines 145 and 173: the two stores of a passing pixel, `image_depth[idx] = z`
and `image_color[idx] = ` the pixel of the shader's colour. -/
def store_fragment (state : driver_state) (idx : Int) (z : Flt) (output_data : data_output) :
    Option driver_state :=
  match write_at state.image_depth idx z, write_at state.image_color idx (to_pixel output_data) with
  | some depth, some color => some { state with image_depth := depth, image_color := color }
  | _, _ => none

/-- Lines 131-178: the body of the pixel loop at pixel `p = (i, j)`. -/
def pixel_step (tri : triangle) (L : raster_locals) (state : driver_state) (p : Int × Int) :
    Option driver_state :=
  if inside_test L p.1 p.2 then
    match read_at state.image_depth (p.1 + p.2 * state.image_width) with
    | none => none
    | some d =>
      if (z_val L p.1 p.2).lt d then
        store_fragment state (p.1 + p.2 * state.image_width) (z_val L p.1 p.2)
          (state.fragment_shader (fragment_at state tri L p.1 p.2) state.uniform_data)
      else some state
  else some state

/-- The integers `lo, lo+1, ..., hi-1`. -/
def int_range (lo hi : Int) : List Int :=
  (List.range (hi - lo).toNat).map fun n => lo + (n : Int)

/-- Lines 129-130: the pixels `(i, j)` of the two nested loops, in the order visited. -/
def raster_pixels (L : raster_locals) : List (Int × Int) :=
  (int_range L.min_y (L.max_y + 1)).flatMap fun j =>
    (int_range L.min_x (L.max_x + 1)).map fun i => (i, j)

/-- The function `rasterize_triangle`. -/
def rasterize_triangle (state : driver_state) (tri : triangle) : Option driver_state :=
  match raster_setup state tri with
  | none => none
  | some L => (raster_pixels L).foldlM (pixel_step tri L) state

/-! ## `clip_triangle` -/

/-- The function `clip_triangle`, with the callee `rasterize_triangle` abstracted
as `rast`; `fuel` bounds the number of nested calls.  The diagnostic line
written to `std::cout` is not part of the state. -/
def clip_triangle_with {σ : Type} (rast : σ → triangle → σ) :
    Nat → σ → triangle → Int → Option σ
  | 0, _, _, _ => none
  | fuel + 1, s, tri, face =>
    if face = 6 then some (rast s tri)
    else clip_triangle_with rast fuel s tri (face + 1)

/-- The function `clip_triangle` acting on the driver state. -/
def clip_triangle (fuel : Nat) (state : driver_state) (tri : triangle) (face : Int) :
    Option driver_state :=
  (clip_triangle_with (fun s t => s.bind fun st => rasterize_triangle st t)
    fuel (some state) tri face).join

/-- The triangles that `clip_triangle` hands to `rasterize_triangle`, in order. -/
def clip_triangle_handed (fuel : Nat) (tri : triangle) (face : Int) : Option (List triangle) :=
  clip_triangle_with (fun l t => l ++ [t]) fuel [] tri face

/-! ## `render` -/

/-- The loop variables of the `triangle` case of `render`: the array `tri`, the
slot index `j`, the read pointer `ptr`, and the effect so far of the calls of
`rasterize_triangle`. -/
structure render_vars (σ : Type) where
  tri : triangle
  j : Int
  ptr : List ℚ
  acc : σ

/-- Assignment `tri[j] = g`. -/
def triangle.set (t : triangle) (j : Int) (g : data_geometry) : triangle :=
  if j = 0 then { t with v0 := g }
  else if j = 1 then { t with v1 := g }
  else if j = 2 then { t with v2 := g }
  else t

/-- Lines 47-54: one iteration of the loop of the `triangle` case, including the
`j++` of the loop header.  The vertex shader fills `tri[j]` from the record at `ptr`. -/
def render_step {σ : Type} (rast : σ → triangle → σ) (state : driver_state)
    (v : render_vars σ) : render_vars σ :=
  let tri := v.tri.set v.j (state.vertex_shader { data := v.ptr } state.uniform_data)
  let ptr := v.ptr.drop state.floats_per_vertex
  if v.j = 2 then { tri := tri, j := -1 + 1, ptr := ptr, acc := rast v.acc tri }
  else { tri := tri, j := v.j + 1, ptr := ptr, acc := v.acc }

/-- The function `render`, with the callee `rasterize_triangle` abstracted as
`rast` and `tri0` the initial content of the array `tri`. -/
def render_with {σ : Type} (rast : σ → triangle → σ) (state : driver_state) (tri0 : triangle)
    (acc : σ) (type : render_type) : σ :=
  match type with
  | render_type.triangle =>
    ((List.range state.num_vertices.toNat).foldl (fun v _ => render_step rast state v)
      { tri := tri0, j := 0, ptr := state.vertex_data, acc := acc }).acc
  | render_type.indexed => acc
  | render_type.fan => acc
  | render_type.strip => acc

/-- The default-constructed `data_geometry`. -/
def data_geometry.init : data_geometry := { gl_Position := ⟨0, 0, 0, 0⟩, data := [] }

/-- The array `new data_geometry[3]`. -/
def triangle.init : triangle :=
  { v0 := data_geometry.init, v1 := data_geometry.init, v2 := data_geometry.init }

/-- The function `render` acting on the driver state. -/
def render (state : driver_state) (type : render_type) : Option driver_state :=
  render_with (fun s t => s.bind fun st => rasterize_triangle st t) state triangle.init
    (some state) type

/-- The triangles that `render` hands to `rasterize_triangle`, in order. -/
def render_handed (state : driver_state) (type : render_type) : List triangle :=
  render_with (fun l t => l ++ [t]) state triangle.init [] type

/-! ## Primitive assembly -/

/-- The pointer to record `i` of the vertex stream: `vertex_data + i * floats_per_vertex`. -/
def driver_state.record (state : driver_state) (i : Nat) : List ℚ :=
  state.vertex_data.drop (i * state.floats_per_vertex)

/-- The vertex-shader output of record `i`. -/
def driver_state.transformed (state : driver_state) (i : Nat) : data_geometry :=
  state.vertex_shader { data := state.record i } state.uniform_data

/-- The triangle made of the vertex-shader outputs of records `3k`, `3k+1`, `3k+2`. -/
def driver_state.group (state : driver_state) (k : Nat) : triangle :=
  { v0 := state.transformed (3 * k)
    v1 := state.transformed (3 * k + 1)
    v2 := state.transformed (3 * k + 2) }


/-! ## The pixel loop as a function of the two buffers -/

/-- The state with its depth and colour arrays replaced. -/
def driver_state.with_buffers (state : driver_state) (buf : List Flt × List pixel) :
    driver_state :=
  { state with image_depth := buf.1, image_color := buf.2 }

/-- The effect on the pair (depth array, colour array) of a pixel that is
`active` (inside), addresses cell `idx`, has depth `z` and would be coloured `c`. -/
def cell_update (active : Bool) (idx : Int) (z : Flt) (c : pixel)
    (buf : List Flt × List pixel) : Option (List Flt × List pixel) :=
  if active then
    match read_at buf.1 idx with
    | none => none
    | some d =>
      if z.lt d then
        match write_at buf.1 idx z, write_at buf.2 idx c with
        | some depth, some color => some (depth, color)
        | _, _ => none
      else some buf
  else some buf

/-- The colour that pixel `p` of the triangle receives when it passes. -/
def shade_at (state : driver_state) (tri : triangle) (L : raster_locals) (p : Int × Int) :
    pixel :=
  to_pixel (state.fragment_shader (fragment_at state tri L p.1 p.2) state.uniform_data)

/-- The body of the pixel loop acting on the two buffers. -/
def cell_step (state : driver_state) (tri : triangle) (L : raster_locals)
    (buf : List Flt × List pixel) (p : Int × Int) : Option (List Flt × List pixel) :=
  cell_update (inside_test L p.1 p.2) (p.1 + p.2 * state.image_width) (z_val L p.1 p.2)
    (shade_at state tri L p) buf

/-- Depth `a` is equal to depth `b` or strictly less. -/
def Flt.below_or_eq (a b : Flt) : Prop := a = b ∨ a.lt b = true

/-- Every cell of the depth array `after` holds a depth equal to or less than
the depth of the same cell of `before`. -/
def depth_nonincreasing (before after : List Flt) : Prop :=
  ∀ (n : Nat) (d : Flt), before[n]? = some d → ∃ d', after[n]? = some d' ∧ d'.below_or_eq d

/-- The state `s'` differs from `s` at most in its two buffers, and no depth
cell has increased. -/
def evolves (s s' : driver_state) : Prop :=
  (∃ buf, s' = s.with_buffers buf) ∧ depth_nonincreasing s.image_depth s'.image_depth

/-- The vertex satisfies all six clip-plane inequalities
`-w ≤ x ≤ w`, `-w ≤ y ≤ w`, `-w ≤ z ≤ w`. -/
def inside_all_planes (g : data_geometry) : Prop :=
  -g.gl_Position.c3 ≤ g.gl_Position.c0 ∧ g.gl_Position.c0 ≤ g.gl_Position.c3
    ∧ -g.gl_Position.c3 ≤ g.gl_Position.c1 ∧ g.gl_Position.c1 ≤ g.gl_Position.c3
    ∧ -g.gl_Position.c3 ≤ g.gl_Position.c2 ∧ g.gl_Position.c2 ≤ g.gl_Position.c3

/-- The vertex violates clip plane `p` (planes in the order
`x ≤ w`, `-w ≤ x`, `y ≤ w`, `-w ≤ y`, `z ≤ w`, `-w ≤ z`). -/
def outside_plane (p : Fin 6) (g : data_geometry) : Prop :=
  match p with
  | 0 => g.gl_Position.c3 < g.gl_Position.c0
  | 1 => g.gl_Position.c0 < -g.gl_Position.c3
  | 2 => g.gl_Position.c3 < g.gl_Position.c1
  | 3 => g.gl_Position.c1 < -g.gl_Position.c3
  | 4 => g.gl_Position.c3 < g.gl_Position.c2
  | 5 => g.gl_Position.c2 < -g.gl_Position.c3

/-! ## Sample scenes -/

/-- A fragment shader that outputs attribute slot `slot` as a grey level. -/
def gray_shader (slot : Nat) (frag : data_fragment) (_uniform : List ℚ) : data_output :=
  match frag.data[slot]? with
  | some (Flt.fin q) => { output_color := ⟨q, q, q, 1⟩ }
  | _ => { output_color := ⟨0, 0, 0, 1⟩ }

/-- A vertex shader that takes the position from the first four floats of the record. -/
def position_shader (v : data_vertex) (_uniform : List ℚ) : data_geometry :=
  { gl_Position := ⟨v.data.getD 0 0, v.data.getD 1 0, v.data.getD 2 0, v.data.getD 3 0⟩
    data := v.data }

/-- A freshly initialised `width × height` frame buffer with the given rule
table and a grey fragment shader on slot `slot`. -/
def sample_state (rules : List interp_type) (slot : Nat) (width height : Int) : driver_state :=
  { vertex_data := []
    num_vertices := 0
    uniform_data := []
    interp_rules := rules
    image_width := width
    image_height := height
    image_color := List.replicate (width * height).toNat (make_pixel 0 0 0)
    image_depth := List.replicate (width * height).toNat (Flt.fin FLT_MAX)
    vertex_shader := position_shader
    fragment_shader := gray_shader slot }

/-- A vertex with the given clip-space position and attributes. -/
def vertex (x y z w : ℚ) (attrs : List ℚ) : data_geometry :=
  { gl_Position := ⟨x, y, z, w⟩, data := attrs }

/-- A triangle whose second vertex has `w = 2`; on a 4×4 image its screen
vertices are `(0,0)`, `(2,0)`, `(0,2)`. -/
def persp_triangle : triangle :=
  { v0 := vertex (-1 / 2) (-1 / 2) 0 1 [0, 0]
    v1 := vertex 1 (-1) 0 2 [1, 1]
    v2 := vertex (-1 / 2) (1 / 2) 0 1 [0, 0] }

/-- The locals of `rasterize_triangle` for `persp_triangle` on a 4×4 image. -/
def persp_locals : raster_locals :=
  { x0 := 0, x1 := 2, x2 := 0, y0 := 0, y1 := 0, y2 := 2, z0 := 1, z1 := 1, z2 := 1,
    min_x := 0, max_x := 2, min_y := 0, max_y := 2, area_ABC := Flt.fin 2 }

/-- A triangle at clip-space depth `z = 0` (with `w = 1`) whose attribute slot 0 is `1`. -/
def near_triangle : triangle :=
  { v0 := vertex 0 0 0 1 [1]
    v1 := vertex (1 / 2) 0 0 1 [1]
    v2 := vertex 0 (1 / 2) 0 1 [1] }

/-- The same triangle at clip-space depth `z = 1/8`, with attribute slot 0 equal to `1/2`. -/
def far_triangle : triangle :=
  { v0 := vertex 0 0 (1 / 8) 1 [1 / 2]
    v1 := vertex (1 / 2) 0 (1 / 8) 1 [1 / 2]
    v2 := vertex 0 (1 / 2) (1 / 8) 1 [1 / 2] }

/-- The locals of `rasterize_triangle` for `near_triangle` and for `far_triangle`
on a 2×2 image: screen vertices `(0,0)`, `(1,0)`, `(0,1)`, integer depth 0. -/
def tie_locals : raster_locals :=
  { x0 := 0, x1 := 1, x2 := 0, y0 := 0, y1 := 0, y2 := 1, z0 := 0, z1 := 0, z2 := 0,
    min_x := 0, max_x := 1, min_y := 0, max_y := 1, area_ABC := Flt.fin (1 / 2) }

/-- A triangle whose second and third vertices have `x/w = 2`; on an image of
width 2 and height 3 its screen vertices are `(1,0)`, `(2,0)`, `(2,1)`, so that
`max_x` equals the image width. -/
def offgrid_triangle : triangle :=
  { v0 := vertex (1 / 2) (-1 / 2) 0 1 [1]
    v1 := vertex 2 (-1 / 2) 0 1 [1]
    v2 := vertex 2 0 0 1 [1] }

/-- The locals of `rasterize_triangle` for `offgrid_triangle` on a 2×3 image. -/
def offgrid_locals : raster_locals :=
  { x0 := 1, x1 := 2, x2 := 2, y0 := 0, y1 := 0, y2 := 1, z0 := 0, z1 := 0, z2 := 0,
    min_x := 1, max_x := 2, min_y := 0, max_y := 1, area_ABC := Flt.fin (1 / 2) }

/-- A triangle all of whose vertices have `x > w`: it lies fully outside the
clip plane `x ≤ w`.  On a 2×2 image its screen vertices are `(1,0)`, `(3,0)`, `(1,1)`. -/
def outside_triangle : triangle :=
  { v0 := vertex (5 / 4) (-1) 0 1 [1]
    v1 := vertex (5 / 2) (-1) 0 1 [1]
    v2 := vertex (5 / 4) (1 / 2) 0 1 [1] }

/-- A stream of five vertex records of four floats each (the clip-space
position), to be rendered into a fresh 2×2 buffer. -/
def five_vertex_state : driver_state :=
  { sample_state [interp_type.flat, interp_type.flat, interp_type.flat, interp_type.flat] 0 2 2 with
    vertex_data := [0, 0, 0, 1, 1 / 2, 0, 0, 1, 1 / 2, 1 / 2, 0, 1, 0, 1 / 2, 0, 1,
      -1 / 2, 0, 0, 1]
    num_vertices := 5 }

/-- A triangle whose second and third vertices have `x/w = 2`; on a 2×2 image its
screen vertices are `(1,0)`, `(2,0)`, `(2,1)`, so that `max_x` equals the image width. -/
def corner_triangle : triangle :=
  { v0 := vertex (1 / 2) (-1 / 2) 0 1 [1]
    v1 := vertex 2 (-1 / 2) 0 1 [1]
    v2 := vertex 2 (1 / 2) 0 1 [1] }

/-- A triangle whose three vertices lie on one line; on a 2×2 image its screen
vertices are `(0,0)`, `(1,1)`, `(0,0)` and its area is zero. -/
def flat_triangle : triangle :=
  { v0 := vertex 0 0 0 1 [1]
    v1 := vertex (1 / 2) (1 / 2) 0 1 [1]
    v2 := vertex 0 0 0 1 [1] }

/-- The locals of `rasterize_triangle` for `flat_triangle` on a 2×2 image. -/
def flat_locals : raster_locals :=
  { x0 := 0, x1 := 1, x2 := 0, y0 := 0, y1 := 1, y2 := 0, z0 := 0, z1 := 0, z2 := 0,
    min_x := 0, max_x := 1, min_y := 0, max_y := 1, area_ABC := Flt.fin 0 }

/-- The screen coordinate of the clip-space coordinate `c` of a vertex with
homogeneous `w`, on an axis of `size` pixels: truncation toward zero of
`(size/2)*(c/w) + (size/2 - 0.5)`. -/
def screen_coord (size : Int) (c w : ℚ) : Int :=
  Flt.trunc ((size : ℚ) / 2 * (c / w) + ((size : ℚ) / 2 - 1 / 2))

/-- The vertex has `w > 0`, `-w ≤ x ≤ w` and `-w ≤ y ≤ w`. -/
def in_view_xy (g : data_geometry) : Prop :=
  0 < g.gl_Position.c3
    ∧ -g.gl_Position.c3 ≤ g.gl_Position.c0 ∧ g.gl_Position.c0 ≤ g.gl_Position.c3
    ∧ -g.gl_Position.c3 ≤ g.gl_Position.c1 ∧ g.gl_Position.c1 ≤ g.gl_Position.c3

/-! ## Reordering the vertices of a triangle -/

/-- The triangle with its vertices 0 and 1 exchanged. -/
def triangle.swap01 (t : triangle) : triangle := { v0 := t.v1, v1 := t.v0, v2 := t.v2 }

/-- The triangle with its vertices 1 and 2 exchanged. -/
def triangle.swap12 (t : triangle) : triangle := { v0 := t.v0, v1 := t.v2, v2 := t.v1 }

/-- The triangle `t'` has the three vertices of `t` in one of the six orders. -/
def triangle.reordering (t t' : triangle) : Prop :=
  t' = { v0 := t.v0, v1 := t.v1, v2 := t.v2 } ∨ t' = { v0 := t.v0, v1 := t.v2, v2 := t.v1 }
    ∨ t' = { v0 := t.v1, v1 := t.v0, v2 := t.v2 } ∨ t' = { v0 := t.v1, v1 := t.v2, v2 := t.v0 }
    ∨ t' = { v0 := t.v2, v1 := t.v0, v2 := t.v1 } ∨ t' = { v0 := t.v2, v1 := t.v1, v2 := t.v0 }

/-- The locals `L'` visit the same pixels as `L`, classify the same pixels as
inside, and give the same `z_val` at each inside pixel. -/
def same_coverage (L L' : raster_locals) : Prop :=
  raster_pixels L' = raster_pixels L
    ∧ ∀ i j : Int, inside_test L' i j = inside_test L i j
        ∧ (inside_test L i j = true → z_val L' i j = z_val L i j)

/-- Rasterizing `tri'` covers the same pixels with the same depths as
rasterizing `tri`, and leaves the same depth buffer. -/
def same_raster (state : driver_state) (tri tri' : triangle) : Prop :=
  (∀ L, raster_setup state tri = some L →
      ∃ L', raster_setup state tri' = some L' ∧ same_coverage L L')
    ∧ (raster_setup state tri = none → raster_setup state tri' = none)
    ∧ (rasterize_triangle state tri').map (fun s => s.image_depth)
        = (rasterize_triangle state tri).map (fun s => s.image_depth)

/-! ## Single-precision arithmetic

The definitions above evaluate the arithmetic of the rasterizer exactly.  The
definitions below evaluate the same code in IEEE single precision: every
floating-point operation and every conversion of an `int` to `float` is
followed by rounding to the nearest `float` (ties to even, 24-bit significand,
gradual underflow to multiples of `2^-149`, overflow to an infinity from
`2^128` on).  Each operation is rounded on its own: no operation is fused and
no intermediate value is kept in a wider format.  The floats the caller
supplies are taken as they are; the sign of zero is not modelled. -/

/-- The binary logarithm of `n`, rounded down, by at most `fuel` halvings. -/
def log2_fuel : Nat → Nat → Nat
  | 0, _ => 0
  | fuel + 1, n => if n < 2 then 0 else log2_fuel fuel (n / 2) + 1

/-- The binary logarithm of a positive natural number, rounded down. -/
def nat_log2 (n : Nat) : Nat := log2_fuel n n

/-- Floor of the binary logarithm of a positive rational. -/
def ilog2 (q : ℚ) : Int :=
  if q < (2 : ℚ) ^ ((nat_log2 q.num.natAbs : Int) - (nat_log2 q.den : Int)) then
    (nat_log2 q.num.natAbs : Int) - (nat_log2 q.den : Int) - 1
  else (nat_log2 q.num.natAbs : Int) - (nat_log2 q.den : Int)

/-- Rounding of a rational to the nearest integer, ties to the even one. -/
def rne (s : ℚ) : Int :=
  if s - ⌊s⌋ < 1 / 2 then ⌊s⌋
  else if 1 / 2 < s - ⌊s⌋ then ⌊s⌋ + 1
  else if ⌊s⌋ % 2 = 0 then ⌊s⌋ else ⌊s⌋ + 1

/-- The exponent of the unit in the last place of a `float` near `q`: 23 below
the binary exponent of `q`, and `-149` in the subnormal range. -/
def ulp_exp (q : ℚ) : Int := max (ilog2 |q| - 23) (-149)

/-- The multiple of the unit in the last place nearest to `q`, ties to even:
the `float` nearest to `q` when the exponent range is unbounded above. -/
def round32q (q : ℚ) : ℚ :=
  if q = 0 then 0 else (rne (q / (2 : ℚ) ^ ulp_exp q) : ℚ) * (2 : ℚ) ^ ulp_exp q

/-- The rational `q` is a finite `float`. -/
def is_float32 (q : ℚ) : Prop := round32q q = q ∧ |q| < (2 : ℚ) ^ 128

instance (q : ℚ) : Decidable (is_float32 q) := by
  unfold is_float32
  exact inferInstance

namespace Flt

/-- Rounding of the exact result of an operation to a `float`. -/
def round32 : Flt → Flt
  | fin q => if (2 : ℚ) ^ 128 ≤ |round32q q| then signed (decide (0 < q)) else fin (round32q q)
  | x => x

/-- Single-precision addition. -/
def add32 (a b : Flt) : Flt := round32 (a + b)

/-- Single-precision subtraction. -/
def sub32 (a b : Flt) : Flt := round32 (a - b)

/-- Single-precision multiplication. -/
def mul32 (a b : Flt) : Flt := round32 (a * b)

/-- Single-precision division. -/
def div32 (a b : Flt) : Flt := round32 (a / b)

/-- Conversion of an `int` to a single-precision `float`. -/
def ofInt32 (n : Int) : Flt := round32 (ofInt n)

end Flt

/-- Lines 92-93 in single precision: `size / 2.0f`. -/
def half32 (size : Int) : Flt := Flt.div32 (Flt.ofInt32 size) (Flt.fin 2)

/-- Lines 97-99 in single precision:
`static_cast<int>(half * (c / w) + (half - 0.5f))`. -/
def to_screen32 (half : Flt) (c w : ℚ) : Option Int :=
  Flt.to_int (Flt.add32 (Flt.mul32 half (Flt.div32 (Flt.fin c) (Flt.fin w)))
    (Flt.sub32 half (Flt.fin (1 / 2))))

/-- Lines 96-103 in single precision: the screen coordinates `(x[l], y[l], z[l])`
of one vertex. -/
def screen_vertex32 (state : driver_state) (g : data_geometry) : Option (Int × Int × Int) :=
  match to_screen32 (half32 state.image_width) g.gl_Position.c0 g.gl_Position.c3,
    to_screen32 (half32 state.image_height) g.gl_Position.c1 g.gl_Position.c3,
    to_screen32 (half32 state.image_width) g.gl_Position.c2 g.gl_Position.c3 with
  | some i, some j, some k => some (i, j, k)
  | _, _, _ => none

/-- Lines 106-121 in single precision: bounding box, off-grid checks and area
from the screen coordinates of the three vertices. -/
def raster_box32 (state : driver_state) (p0 p1 p2 : Int × Int × Int) : raster_locals :=
  { x0 := p0.1, x1 := p1.1, x2 := p2.1, y0 := p0.2.1, y1 := p1.2.1, y2 := p2.2.1,
    z0 := p0.2.2, z1 := p1.2.2, z2 := p2.2.2,
    min_x := if min (min p0.1 p1.1) p2.1 < 0 then 0 else min (min p0.1 p1.1) p2.1,
    max_x := if max (max p0.1 p1.1) p2.1 > state.image_width then state.image_width - 1
      else max (max p0.1 p1.1) p2.1,
    min_y := if min (min p0.2.1 p1.2.1) p2.2.1 < 0 then 0 else min (min p0.2.1 p1.2.1) p2.2.1,
    max_y := if max (max p0.2.1 p1.2.1) p2.2.1 > state.image_height then state.image_height - 1
      else max (max p0.2.1 p1.2.1) p2.2.1,
    area_ABC := Flt.mul32 (Flt.fin (1 / 2))
      (Flt.ofInt32 ((p1.1 * p2.2.1 - p2.1 * p1.2.1) - (p0.1 * p2.2.1 - p2.1 * p0.2.1)
        + (p0.1 * p1.2.1 - p1.1 * p0.2.1))) }

/-- Lines 91-121 of `rasterize_triangle` in single precision. -/
def raster_setup32 (state : driver_state) (tri : triangle) : Option raster_locals :=
  match screen_vertex32 state tri.v0, screen_vertex32 state tri.v1,
    screen_vertex32 state tri.v2 with
  | some p0, some p1, some p2 => some (raster_box32 state p0 p1 p2)
  | _, _, _ => none

/-- Line 131 in single precision: the weight `alpha_prime` of pixel `(i, j)`. -/
def bary_alpha32 (L : raster_locals) (i j : Int) : Flt :=
  Flt.div32 (Flt.mul32 (Flt.fin (1 / 2))
    (Flt.ofInt32 ((L.x1 * L.y2 - L.x2 * L.y1) + (L.y1 - L.y2) * i + (L.x2 - L.x1) * j)))
    L.area_ABC

/-- Line 132 in single precision: the weight `beta_prime` of pixel `(i, j)`. -/
def bary_beta32 (L : raster_locals) (i j : Int) : Flt :=
  Flt.div32 (Flt.mul32 (Flt.fin (1 / 2))
    (Flt.ofInt32 ((L.x2 * L.y0 - L.x0 * L.y2) + (L.y2 - L.y0) * i + (L.x0 - L.x2) * j)))
    L.area_ABC

/-- Line 133 in single precision: the weight `gamma_prime` of pixel `(i, j)`. -/
def bary_gamma32 (L : raster_locals) (i j : Int) : Flt :=
  Flt.div32 (Flt.mul32 (Flt.fin (1 / 2))
    (Flt.ofInt32 ((L.x0 * L.y1 - L.x1 * L.y0) + (L.y0 - L.y1) * i + (L.x1 - L.x0) * j)))
    L.area_ABC

/-- Line 135 in single precision: the inside test of pixel `(i, j)`. -/
def inside_test32 (L : raster_locals) (i j : Int) : Bool :=
  (bary_alpha32 L i j).ge (Flt.fin 0) && (bary_beta32 L i j).ge (Flt.fin 0)
    && (bary_gamma32 L i j).ge (Flt.fin 0)

/-- Line 140 in single precision: the interpolated depth `z_val`. -/
def z_val32 (L : raster_locals) (i j : Int) : Flt :=
  Flt.add32
    (Flt.add32 (Flt.mul32 (bary_alpha32 L i j) (Flt.ofInt32 L.z0))
      (Flt.mul32 (bary_beta32 L i j) (Flt.ofInt32 L.z1)))
    (Flt.mul32 (bary_gamma32 L i j) (Flt.ofInt32 L.z2))

/-- Lines 154-156 in single precision: the factor `k_gour` of a `smooth` slot. -/
def k_gour32 (tri : triangle) (alpha beta gamma : Flt) : Flt :=
  Flt.add32
    (Flt.add32 (Flt.div32 alpha (Flt.fin tri.v0.gl_Position.c3))
      (Flt.div32 beta (Flt.fin tri.v1.gl_Position.c3)))
    (Flt.div32 gamma (Flt.fin tri.v2.gl_Position.c3))

/-- Lines 162-164 in single precision: the combination
`alpha_prime * in[0].data[k] + beta_prime * in[1].data[k] + gamma_prime * in[2].data[k]`. -/
def combine32 (tri : triangle) (k : Nat) (alpha_prime beta_prime gamma_prime : Flt) : Flt :=
  Flt.add32
    (Flt.add32 (Flt.mul32 alpha_prime (Flt.fin (tri.v0.data.getD k 0)))
      (Flt.mul32 beta_prime (Flt.fin (tri.v1.data.getD k 0))))
    (Flt.mul32 gamma_prime (Flt.fin (tri.v2.data.getD k 0)))

/-- Lines 147-169 in single precision: the loop over the attribute slots, as
`interp_loop`. -/
def interp_loop32 (tri : triangle) (alpha beta gamma : Flt) :
    List interp_type → Nat → Flt → Flt → Flt → List Flt
  | [], _, _, _, _ => []
  | rule :: rules, k, alpha_prime, beta_prime, gamma_prime =>
    match rule with
    | interp_type.flat =>
      Flt.fin (tri.v0.data.getD k 0)
        :: interp_loop32 tri alpha beta gamma rules (k + 1) alpha_prime beta_prime gamma_prime
    | interp_type.smooth =>
      let k_gour := k_gour32 tri alpha beta gamma
      let alpha_prime := Flt.div32 alpha (Flt.mul32 k_gour (Flt.fin tri.v0.gl_Position.c3))
      let beta_prime := Flt.div32 beta (Flt.mul32 k_gour (Flt.fin tri.v1.gl_Position.c3))
      let gamma_prime := Flt.div32 gamma (Flt.mul32 k_gour (Flt.fin tri.v2.gl_Position.c3))
      combine32 tri k alpha_prime beta_prime gamma_prime
        :: interp_loop32 tri alpha beta gamma rules (k + 1) alpha_prime beta_prime gamma_prime
    | interp_type.noperspective =>
      combine32 tri k alpha_prime beta_prime gamma_prime
        :: interp_loop32 tri alpha beta gamma rules (k + 1) alpha_prime beta_prime gamma_prime

/-- The fragment handed to the fragment shader at pixel `(i, j)`, in single precision. -/
def fragment_at32 (state : driver_state) (tri : triangle) (L : raster_locals) (i j : Int) :
    data_fragment :=
  { data := interp_loop32 tri (bary_alpha32 L i j) (bary_beta32 L i j) (bary_gamma32 L i j)
      state.interp_rules 0 (bary_alpha32 L i j) (bary_beta32 L i j) (bary_gamma32 L i j) }

/-- Lines 173-176 in single precision: conversion of the shader's colour to a
pixel; a product that overflows has no defined conversion to `int`. -/
def to_pixel32 (output_data : data_output) : Option pixel := do
  let r ← Flt.to_int (Flt.mul32 (Flt.fin output_data.output_color.c0) (Flt.ofInt32 255))
  let g ← Flt.to_int (Flt.mul32 (Flt.fin output_data.output_color.c1) (Flt.ofInt32 255))
  let b ← Flt.to_int (Flt.mul32 (Flt.fin output_data.output_color.c2) (Flt.ofInt32 255))
  some (make_pixel r g b)

/-- Lines 131-178 in single precision: the body of the pixel loop at pixel `p = (i, j)`. -/
def pixel_step32 (tri : triangle) (L : raster_locals) (state : driver_state) (p : Int × Int) :
    Option driver_state :=
  if inside_test32 L p.1 p.2 then
    match read_at state.image_depth (p.1 + p.2 * state.image_width) with
    | none => none
    | some d =>
      if (z_val32 L p.1 p.2).lt d then
        match write_at state.image_depth (p.1 + p.2 * state.image_width) (z_val32 L p.1 p.2),
          to_pixel32 (state.fragment_shader (fragment_at32 state tri L p.1 p.2)
            state.uniform_data) with
        | some depth, some c =>
          match write_at state.image_color (p.1 + p.2 * state.image_width) c with
          | some color => some { state with image_depth := depth, image_color := color }
          | none => none
        | _, _ => none
      else some state
  else some state

/-- The function `rasterize_triangle` in single precision. -/
def rasterize_triangle32 (state : driver_state) (tri : triangle) : Option driver_state :=
  match raster_setup32 state tri with
  | none => none
  | some L => (raster_pixels L).foldlM (pixel_step32 tri L) state

/-- Negation of a float. -/
def Flt.neg : Flt → Flt
  | Flt.fin q => Flt.fin (-q)
  | Flt.pinf => Flt.ninf
  | Flt.ninf => Flt.pinf
  | Flt.nan => Flt.nan

/-- In single precision, rasterizing `tri'` visits the same pixels as rasterizing
`tri` and classifies the same pixels as inside, or both setups are undefined. -/
def same_cover32 (state : driver_state) (tri tri' : triangle) : Prop :=
  (∀ L, raster_setup32 state tri = some L →
      ∃ L', raster_setup32 state tri' = some L' ∧ raster_pixels L' = raster_pixels L
        ∧ ∀ i j : Int, inside_test32 L' i j = inside_test32 L i j)
    ∧ (raster_setup32 state tri = none → raster_setup32 state tri' = none)

/-- A triangle whose three vertices have `w = 3`, with attribute slot 0 equal
to `1`; on a 4×4 image its screen vertices are `(0,0)`, `(1,3)`, `(2,1)` and
its integer depths are 1, 1, 2.  All coordinates are single-precision values. -/
def skew_triangle : triangle :=
  { v0 := vertex (-15 / 8) (-15 / 8) (-3 / 8) 3 [1]
    v1 := vertex (-3 / 8) (21 / 8) (-3 / 8) 3 [1]
    v2 := vertex (9 / 8) (-3 / 8) (9 / 8) 3 [1] }

/-- The locals of `rasterize_triangle` for `skew_triangle` on a 4×4 image. -/
def skew_locals : raster_locals :=
  { x0 := 0, x1 := 1, x2 := 2, y0 := 0, y1 := 3, y2 := 1, z0 := 1, z1 := 1, z2 := 2,
    min_x := 0, max_x := 2, min_y := 0, max_y := 3, area_ABC := Flt.fin (-5 / 2) }

/-- The triangle `skew_triangle` with its vertices in the order 1, 2, 0. -/
def skew_rotated : triangle :=
  { v0 := skew_triangle.v1, v1 := skew_triangle.v2, v2 := skew_triangle.v0 }

/-- The locals of `rasterize_triangle` for `skew_rotated` on a 4×4 image. -/
def skew_rotated_locals : raster_locals :=
  { x0 := 1, x1 := 2, x2 := 0, y0 := 3, y1 := 1, y2 := 0, z0 := 1, z1 := 2, z2 := 1,
    min_x := 0, max_x := 2, min_y := 0, max_y := 3, area_ABC := Flt.fin (-5 / 2) }

/-- A triangle with `w0 = 2^-100`, `w1 = 2^100`, `w2 = 1`, all positive
single-precision values; on a 4×4 image its screen vertices are `(0,0)`,
`(2,0)`, `(0,2)`, as for `persp_triangle`. -/
def underflow_triangle : triangle :=
  { v0 := vertex (-1 / 2 ^ 101) (-1 / 2 ^ 101) 0 (1 / 2 ^ 100) [0]
    v1 := vertex (2 ^ 99) (-(2 ^ 99)) 0 (2 ^ 100) [1]
    v2 := vertex (-1 / 2) (1 / 2) 0 1 [0] }

/-- The float is `+inf` or a finite value of at least `b`. -/
def Flt.at_least (b : ℚ) (x : Flt) : Prop := x = Flt.pinf ∨ ∃ q : ℚ, x = Flt.fin q ∧ b ≤ q

/-- The value `n` is in the range of a 32-bit `int`. -/
def in_int_range (n : Int) : Prop := -2 ^ 31 ≤ n ∧ n < 2 ^ 31

/-- The `int` expressions of lines 121 and 131-133 at pixel `(i, j)`, the
shoelace value and the three edge functions, are in the range of `int`. -/
def int_exprs_in_range (L : raster_locals) (i j : Int) : Prop :=
  in_int_range ((L.x1 * L.y2 - L.x2 * L.y1) - (L.x0 * L.y2 - L.x2 * L.y0)
      + (L.x0 * L.y1 - L.x1 * L.y0))
    ∧ in_int_range ((L.x1 * L.y2 - L.x2 * L.y1) + (L.y1 - L.y2) * i + (L.x2 - L.x1) * j)
    ∧ in_int_range ((L.x2 * L.y0 - L.x0 * L.y2) + (L.y2 - L.y0) * i + (L.x0 - L.x2) * j)
    ∧ in_int_range ((L.x0 * L.y1 - L.x1 * L.y0) + (L.y0 - L.y1) * i + (L.x1 - L.x0) * j)

/-! # Theorems -/

/-! ## Primitive assembly: the loop of `render` -/

theorem foldl_range_ignore {β : Type} (g : β → β) (m : Nat) (a : β) :
    (List.range m).foldl (fun v _ => g v) a = g^[m] a := by
  induction m with
  | zero => rfl
  | succ m ih => rw [List.range_succ, List.foldl_append, ih, Function.iterate_succ_apply']; rfl

theorem record_succ (state : driver_state) (i : Nat) :
    (state.record i).drop state.floats_per_vertex = state.record (i + 1) := by
  simp [driver_state.record, List.drop_drop, Nat.succ_mul, Nat.add_comm]

/-- Three iterations of the loop starting at slot 0 hand over one triangle. -/
theorem render_step_three {σ : Type} (rast : σ → triangle → σ) (state : driver_state)
    (v : render_vars σ) (q : Nat) (hj : v.j = 0) (hp : v.ptr = state.record (3 * q)) :
    render_step rast state (render_step rast state (render_step rast state v))
      = { tri := state.group q, j := 0, ptr := state.record (3 * (q + 1)),
          acc := rast v.acc (state.group q) } := by
  simp [render_step, hj, hp, triangle.set, record_succ, driver_state.group,
    driver_state.transformed, Nat.mul_add]

theorem render_loop_groups {σ : Type} (rast : σ → triangle → σ) (state : driver_state)
    (v : render_vars σ) (hj : v.j = 0) (hp : v.ptr = state.record 0) (q : Nat) :
    ((render_step rast state)^[3 * q] v).j = 0
      ∧ ((render_step rast state)^[3 * q] v).ptr = state.record (3 * q)
      ∧ ((render_step rast state)^[3 * q] v).acc
          = ((List.range q).map state.group).foldl rast v.acc := by
  induction q with
  | zero => simp [hj, hp]
  | succ q ih =>
    obtain ⟨h1, h2, h3⟩ := ih
    have e : 3 * (q + 1) = 3 * q + 1 + 1 + 1 := by ring
    rw [e, Function.iterate_succ_apply', Function.iterate_succ_apply',
      Function.iterate_succ_apply', render_step_three rast state _ q h1 h2]
    simp [List.range_succ, List.foldl_append, h3, Nat.mul_add]

theorem render_step_acc {σ : Type} (rast : σ → triangle → σ) (state : driver_state)
    (v : render_vars σ) (hj : v.j ≠ 2) :
    (render_step rast state v).acc = v.acc ∧ (render_step rast state v).j = v.j + 1 := by
  simp [render_step, hj]

theorem render_loop_acc {σ : Type} (rast : σ → triangle → σ) (state : driver_state)
    (v : render_vars σ) (hj : v.j = 0) (hp : v.ptr = state.record 0) (n : Nat) :
    ((render_step rast state)^[n] v).acc
      = ((List.range (n / 3)).map state.group).foldl rast v.acc := by
  obtain ⟨h1, _, h3⟩ := render_loop_groups rast state v hj hp (n / 3)
  have hn : n = 3 * (n / 3) + n % 3 := (Nat.div_add_mod n 3).symm
  have hr : n % 3 < 3 := Nat.mod_lt _ (by decide)
  generalize n % 3 = r at hn hr
  generalize n / 3 = q at hn h1 h3
  subst hn
  have s1 := render_step_acc rast state ((render_step rast state)^[3 * q] v) (by rw [h1]; decide)
  interval_cases r
  · simpa using h3
  · rw [Function.iterate_succ_apply', s1.1, h3]
  · have s2 := render_step_acc rast state
      ((render_step rast state)^[3 * q + 1] v)
      (by rw [Function.iterate_succ_apply', s1.2, h1]; decide)
    rw [Function.iterate_succ_apply', s2.1, Function.iterate_succ_apply', s1.1, h3]

/-- The effect of `render` in `triangle` mode, for any callee: the callee is
applied in order to the groups `0, 1, ..., n/3 - 1`. -/
theorem render_with_triangle {σ : Type} (rast : σ → triangle → σ) (state : driver_state)
    (tri0 : triangle) (acc : σ) :
    render_with rast state tri0 acc render_type.triangle
      = ((List.range (state.num_vertices.toNat / 3)).map state.group).foldl rast acc := by
  simp only [render_with]
  rw [foldl_range_ignore]
  exact render_loop_acc rast state _ rfl (by simp [driver_state.record]) _

/-- C1: in `triangle` mode the triangles handed to the rasterizer are exactly, in
stream order, the `n/3` groups made of the vertex-shader outputs of records
`3k`, `3k+1`, `3k+2` (first, second, third vertex); trailing `n mod 3` records
produce no triangle. -/
theorem render_triangle_handed (state : driver_state) :
    render_handed state render_type.triangle
      = (List.range (state.num_vertices.toNat / 3)).map fun k =>
          ({ v0 := state.vertex_shader { data := state.record (3 * k) } state.uniform_data
             v1 := state.vertex_shader { data := state.record (3 * k + 1) } state.uniform_data
             v2 := state.vertex_shader { data := state.record (3 * k + 2) } state.uniform_data }
            : triangle) := by
  rw [render_handed, render_with_triangle]
  have h : ∀ (l : List triangle) (a : List triangle),
      l.foldl (fun l t => l ++ [t]) a = a ++ l := by
    intro l
    induction l with
    | nil => simp
    | cons x xs ih => intro a; simp [ih]
  rw [h]
  rfl

/-! ## Attribute reconstruction: the slot loop -/

/-- The value the `smooth` case stores in slot `k`: perspective-corrected weights
computed from the pixel's original weights `alpha`, `beta`, `gamma`. -/
theorem interp_loop_smooth (tri : triangle) (alpha beta gamma : Flt) :
    ∀ (rules : List interp_type) (k0 : Nat) (ap bp gp : Flt) (m : Nat),
      rules[m]? = some interp_type.smooth →
      (interp_loop tri alpha beta gamma rules k0 ap bp gp)[m]? = some
        (alpha / ((alpha / Flt.fin tri.v0.gl_Position.c3 + beta / Flt.fin tri.v1.gl_Position.c3
              + gamma / Flt.fin tri.v2.gl_Position.c3) * Flt.fin tri.v0.gl_Position.c3)
            * Flt.fin (tri.v0.data.getD (k0 + m) 0)
          + beta / ((alpha / Flt.fin tri.v0.gl_Position.c3 + beta / Flt.fin tri.v1.gl_Position.c3
              + gamma / Flt.fin tri.v2.gl_Position.c3) * Flt.fin tri.v1.gl_Position.c3)
            * Flt.fin (tri.v1.data.getD (k0 + m) 0)
          + gamma / ((alpha / Flt.fin tri.v0.gl_Position.c3 + beta / Flt.fin tri.v1.gl_Position.c3
              + gamma / Flt.fin tri.v2.gl_Position.c3) * Flt.fin tri.v2.gl_Position.c3)
            * Flt.fin (tri.v2.data.getD (k0 + m) 0)) := by
  intro rules
  induction rules with
  | nil => intro k0 ap bp gp m h; simp at h
  | cons r rs ih =>
    intro k0 ap bp gp m h
    cases m with
    | zero =>
      simp only [List.getElem?_cons_zero, Option.some.injEq] at h
      subst h
      simp [interp_loop]
    | succ m =>
      simp only [List.getElem?_cons_succ] at h
      have e : k0 + (m + 1) = (k0 + 1) + m := by omega
      cases r <;> simp only [interp_loop, List.getElem?_cons_succ, e] <;> exact ih _ _ _ _ _ h

/-- The value the `flat` case stores in slot `k`: vertex 0's attribute. -/
theorem interp_loop_flat (tri : triangle) (alpha beta gamma : Flt) :
    ∀ (rules : List interp_type) (k0 : Nat) (ap bp gp : Flt) (m : Nat),
      rules[m]? = some interp_type.flat →
      (interp_loop tri alpha beta gamma rules k0 ap bp gp)[m]?
        = some (Flt.fin (tri.v0.data.getD (k0 + m) 0)) := by
  intro rules
  induction rules with
  | nil => intro k0 ap bp gp m h; simp at h
  | cons r rs ih =>
    intro k0 ap bp gp m h
    cases m with
    | zero =>
      simp only [List.getElem?_cons_zero, Option.some.injEq] at h
      subst h
      simp [interp_loop]
    | succ m =>
      simp only [List.getElem?_cons_succ] at h
      have e : k0 + (m + 1) = (k0 + 1) + m := by omega
      cases r <;> simp only [interp_loop, List.getElem?_cons_succ, e] <;> exact ih _ _ _ _ _ h

/-- A pixel that passes the inside test and the depth test hands `fragment_at`
to the fragment shader and stores the result. -/
theorem pixel_step_pass (state : driver_state) (tri : triangle) (L : raster_locals)
    (i j : Int) (d : Flt) (hin : inside_test L i j = true)
    (hd : read_at state.image_depth (i + j * state.image_width) = some d)
    (hlt : (z_val L i j).lt d = true) :
    pixel_step tri L state (i, j)
      = store_fragment state (i + j * state.image_width) (z_val L i j)
          (state.fragment_shader (fragment_at state tri L i j) state.uniform_data) := by
  simp [pixel_step, hin, hd, hlt]

/-- C3: for a `smooth` slot `k` of any rule table and a pixel `(i, j)` that passes
the inside test and the depth test, the fragment shader is called on the
fragment `fragment_at`, whose slot `k` is
`alpha'*attr0[k] + beta'*attr1[k] + gamma'*attr2[k]` with
`kc = alpha/w0 + beta/w1 + gamma/w2`, `alpha' = alpha/(kc*w0)`, `beta' = beta/(kc*w1)`,
`gamma' = gamma/(kc*w2)` and `alpha`, `beta`, `gamma` the pixel's original weights. -/
theorem smooth_slot_perspective_correct (state : driver_state) (tri : triangle)
    (L : raster_locals) (i j : Int) (k : Nat) (d : Flt)
    (hk : state.interp_rules[k]? = some interp_type.smooth)
    (hin : inside_test L i j = true)
    (hd : read_at state.image_depth (i + j * state.image_width) = some d)
    (hlt : (z_val L i j).lt d = true) :
    pixel_step tri L state (i, j)
        = store_fragment state (i + j * state.image_width) (z_val L i j)
            (state.fragment_shader (fragment_at state tri L i j) state.uniform_data)
      ∧ (fragment_at state tri L i j).data[k]? = some
        (bary_alpha L i j
            / ((bary_alpha L i j / Flt.fin tri.v0.gl_Position.c3
                + bary_beta L i j / Flt.fin tri.v1.gl_Position.c3
                + bary_gamma L i j / Flt.fin tri.v2.gl_Position.c3)
              * Flt.fin tri.v0.gl_Position.c3)
            * Flt.fin (tri.v0.data.getD k 0)
          + bary_beta L i j
            / ((bary_alpha L i j / Flt.fin tri.v0.gl_Position.c3
                + bary_beta L i j / Flt.fin tri.v1.gl_Position.c3
                + bary_gamma L i j / Flt.fin tri.v2.gl_Position.c3)
              * Flt.fin tri.v1.gl_Position.c3)
            * Flt.fin (tri.v1.data.getD k 0)
          + bary_gamma L i j
            / ((bary_alpha L i j / Flt.fin tri.v0.gl_Position.c3
                + bary_beta L i j / Flt.fin tri.v1.gl_Position.c3
                + bary_gamma L i j / Flt.fin tri.v2.gl_Position.c3)
              * Flt.fin tri.v2.gl_Position.c3)
            * Flt.fin (tri.v2.data.getD k 0)) := by
  refine ⟨pixel_step_pass state tri L i j d hin hd hlt, ?_⟩
  have h := interp_loop_smooth tri (bary_alpha L i j) (bary_beta L i j) (bary_gamma L i j)
    state.interp_rules 0 (bary_alpha L i j) (bary_beta L i j) (bary_gamma L i j) k hk
  simpa [fragment_at] using h

/-- Witness of `smooth_slot_perspective_correct`: slot 0 of the table
`[smooth, noperspective]` at pixel `(1, 0)` of `persp_triangle` on a 4×4 buffer;
the corrected weights are `(2/3, 1/3, 0)` and the slot holds `1/3`. -/
theorem smooth_slot_perspective_correct_witness :
    pixel_step persp_triangle persp_locals
        (sample_state [interp_type.smooth, interp_type.noperspective] 1 4 4) (1, 0)
      = store_fragment (sample_state [interp_type.smooth, interp_type.noperspective] 1 4 4)
          1 (Flt.fin 1)
          (gray_shader 1 (fragment_at
            (sample_state [interp_type.smooth, interp_type.noperspective] 1 4 4)
            persp_triangle persp_locals 1 0) [])
      ∧ (fragment_at (sample_state [interp_type.smooth, interp_type.noperspective] 1 4 4)
          persp_triangle persp_locals 1 0).data[0]? = some (Flt.fin (1 / 3)) := by
  obtain ⟨h1, h2⟩ := smooth_slot_perspective_correct
    (sample_state [interp_type.smooth, interp_type.noperspective] 1 4 4)
    persp_triangle persp_locals 1 0 0 (Flt.fin FLT_MAX) (by decide!) (by decide!) (by decide!)
    (by decide!)
  refine ⟨?_, ?_⟩
  · rw [h1]
    have e : z_val persp_locals 1 0 = Flt.fin 1 := by decide!
    rw [e]
    rfl
  · rw [h2]
    decide!

/-- C4: for a `flat` slot `k` and a pixel `(i, j)` that passes the inside test and
the depth test, the fragment shader is called on the fragment `fragment_at`,
whose slot `k` is vertex 0's attribute `data[k]`, whatever the pixel position
and the weights. -/
theorem flat_slot_is_vertex0 (state : driver_state) (tri : triangle)
    (L : raster_locals) (i j : Int) (k : Nat) (d : Flt)
    (hk : state.interp_rules[k]? = some interp_type.flat)
    (hin : inside_test L i j = true)
    (hd : read_at state.image_depth (i + j * state.image_width) = some d)
    (hlt : (z_val L i j).lt d = true) :
    pixel_step tri L state (i, j)
        = store_fragment state (i + j * state.image_width) (z_val L i j)
            (state.fragment_shader (fragment_at state tri L i j) state.uniform_data)
      ∧ (fragment_at state tri L i j).data[k]? = some (Flt.fin (tri.v0.data.getD k 0)) := by
  refine ⟨pixel_step_pass state tri L i j d hin hd hlt, ?_⟩
  have h := interp_loop_flat tri (bary_alpha L i j) (bary_beta L i j) (bary_gamma L i j)
    state.interp_rules 0 (bary_alpha L i j) (bary_beta L i j) (bary_gamma L i j) k hk
  simpa [fragment_at] using h

/-- Witness of `flat_slot_is_vertex0`: slot 0 of the table `[flat]` at pixel
`(1, 0)` of `far_triangle` on a 2×2 buffer holds vertex 0's value `1/2`. -/
theorem flat_slot_is_vertex0_witness :
    pixel_step far_triangle tie_locals (sample_state [interp_type.flat] 0 2 2) (1, 0)
      = store_fragment (sample_state [interp_type.flat] 0 2 2) 1 (Flt.fin 0)
          (gray_shader 0 (fragment_at (sample_state [interp_type.flat] 0 2 2)
            far_triangle tie_locals 1 0) [])
      ∧ (fragment_at (sample_state [interp_type.flat] 0 2 2)
          far_triangle tie_locals 1 0).data[0]? = some (Flt.fin (1 / 2)) := by
  obtain ⟨h1, h2⟩ := flat_slot_is_vertex0 (sample_state [interp_type.flat] 0 2 2)
    far_triangle tie_locals 1 0 0 (Flt.fin FLT_MAX) (by decide!) (by decide!) (by decide!)
    (by decide!)
  refine ⟨?_, ?_⟩
  · rw [h1]
    have e : z_val tie_locals 1 0 = Flt.fin 0 := by decide!
    rw [e]
    rfl
  · rw [h2]
    decide!

/-- C2, evaluated: with the rule table `[smooth, noperspective]` on a 4×4 buffer,
pixel `(1, 0)` of `persp_triangle` passes the inside and depth tests with weights
`(1/2, 1/2, 0)`; the affine value of slot 1 is `1/2`, but the fragment holds
`1/3`, the combination with the weights corrected by the `smooth` slot 0, and
the grey level written from slot 1 is 85 instead of 127. -/
theorem noperspective_after_smooth_evaluated :
    raster_setup (sample_state [interp_type.smooth, interp_type.noperspective] 1 4 4)
        persp_triangle = some persp_locals
      ∧ inside_test persp_locals 1 0 = true
      ∧ read_at (sample_state [interp_type.smooth, interp_type.noperspective] 1 4 4).image_depth
          (1 + 0 * 4) = some (Flt.fin FLT_MAX)
      ∧ (z_val persp_locals 1 0).lt (Flt.fin FLT_MAX) = true
      ∧ (fragment_at (sample_state [interp_type.smooth, interp_type.noperspective] 1 4 4)
          persp_triangle persp_locals 1 0).data[1]? = some (Flt.fin (1 / 3))
      ∧ bary_alpha persp_locals 1 0 * Flt.fin (persp_triangle.v0.data.getD 1 0)
          + bary_beta persp_locals 1 0 * Flt.fin (persp_triangle.v1.data.getD 1 0)
          + bary_gamma persp_locals 1 0 * Flt.fin (persp_triangle.v2.data.getD 1 0)
          = Flt.fin (1 / 2)
      ∧ (rasterize_triangle (sample_state [interp_type.smooth, interp_type.noperspective] 1 4 4)
          persp_triangle).map (fun s => s.image_color[1]?)
        = some (some (make_pixel 85 85 85)) := by
  decide!

/-! ## Float arithmetic on finite values -/

@[simp] theorem Flt.fin_add_fin (a b : ℚ) : Flt.fin a + Flt.fin b = Flt.fin (a + b) := rfl

@[simp] theorem Flt.fin_mul_fin (a b : ℚ) : Flt.fin a * Flt.fin b = Flt.fin (a * b) := rfl

@[simp] theorem Flt.fin_sub_fin (a b : ℚ) : Flt.fin a - Flt.fin b = Flt.fin (a - b) := rfl

theorem Flt.fin_div_fin (a b : ℚ) (hb : b ≠ 0) : Flt.fin a / Flt.fin b = Flt.fin (a / b) := by
  show Flt.div (Flt.fin a) (Flt.fin b) = _
  simp [Flt.div, hb]

@[simp] theorem Flt.ofInt_eq (n : Int) : Flt.ofInt n = Flt.fin n := rfl

/-- The area computed by `raster_setup` is half the shoelace value of the screen vertices. -/
theorem raster_setup_area (state : driver_state) (tri : triangle) (L : raster_locals)
    (hL : raster_setup state tri = some L) :
    L.area_ABC = Flt.fin (1 / 2 * (((L.x1 * L.y2 - L.x2 * L.y1) - (L.x0 * L.y2 - L.x2 * L.y0)
      + (L.x0 * L.y1 - L.x1 * L.y0) : Int) : ℚ)) := by
  unfold raster_setup at hL
  simp only [Option.bind_eq_bind, Option.bind_eq_some] at hL
  obtain ⟨x0, -, y0, -, z0, -, x1, -, y1, -, z1, -, x2, -, y2, -, z2, -, h⟩ := hL
  simp only [Option.some.injEq] at h
  subst h
  simp

/-- C8: for a triangle of non-zero screen-space area, the three weights computed
by the edge-function formulas at any pixel (in particular at every pixel
classified inside) sum to exactly 1. -/
theorem barycentric_partition (state : driver_state) (tri : triangle) (L : raster_locals)
    (hL : raster_setup state tri = some L) (harea : L.area_ABC ≠ Flt.fin 0) (i j : Int) :
    bary_alpha L i j + bary_beta L i j + bary_gamma L i j = Flt.fin 1 := by
  have ha := raster_setup_area state tri L hL
  rw [ha] at harea
  have hne : (1 / 2 * (((L.x1 * L.y2 - L.x2 * L.y1) - (L.x0 * L.y2 - L.x2 * L.y0)
      + (L.x0 * L.y1 - L.x1 * L.y0) : Int) : ℚ)) ≠ 0 := fun h => harea (by rw [h])
  simp only [bary_alpha, bary_beta, bary_gamma, ha, Flt.ofInt_eq, Flt.fin_mul_fin,
    Flt.fin_div_fin _ _ hne, Flt.fin_add_fin]
  congr 1
  rw [← add_div, ← add_div, div_eq_one_iff_eq hne]
  push_cast
  ring

/-- Witness of `barycentric_partition`: `persp_triangle` on a 4×4 image at pixel `(1, 0)`. -/
theorem barycentric_partition_witness :
    bary_alpha persp_locals 1 0 + bary_beta persp_locals 1 0 + bary_gamma persp_locals 1 0
      = Flt.fin 1 :=
  barycentric_partition (sample_state [interp_type.smooth, interp_type.noperspective] 1 4 4)
    persp_triangle persp_locals (by decide!) (by decide!) 1 0

/-! ## The pixel loop acts on the two buffers only -/

theorem pixel_step_eq_cell_step (state : driver_state) (tri : triangle) (L : raster_locals)
    (buf : List Flt × List pixel) (p : Int × Int) :
    pixel_step tri L (state.with_buffers buf) p
      = (cell_step state tri L buf p).map state.with_buffers := by
  unfold pixel_step cell_step cell_update store_fragment
  simp only [driver_state.with_buffers, shade_at, fragment_at]
  split
  · split
    · rfl
    · split
      · split <;> simp_all [driver_state.with_buffers]
      · rfl
  · rfl

theorem foldlM_pixel_step (state : driver_state) (tri : triangle) (L : raster_locals)
    (ps : List (Int × Int)) :
    ∀ buf : List Flt × List pixel,
      ps.foldlM (pixel_step tri L) (state.with_buffers buf)
        = (ps.foldlM (cell_step state tri L) buf).map state.with_buffers := by
  induction ps with
  | nil => intro buf; rfl
  | cons p ps ih =>
    intro buf
    simp only [List.foldlM_cons, Option.bind_eq_bind, pixel_step_eq_cell_step]
    cases cell_step state tri L buf p with
    | none => rfl
    | some b => simpa using ih b

theorem with_buffers_self (state : driver_state) :
    state.with_buffers (state.image_depth, state.image_color) = state := rfl

/-- A call of `rasterize_triangle` is the fold of `cell_step` over the visited pixels. -/
theorem rasterize_triangle_eq (state : driver_state) (tri : triangle)
    (buf : List Flt × List pixel) :
    rasterize_triangle (state.with_buffers buf) tri
      = match raster_setup state tri with
        | none => none
        | some L => ((raster_pixels L).foldlM (cell_step state tri L) buf).map
            state.with_buffers := by
  unfold rasterize_triangle
  have h : raster_setup (state.with_buffers buf) tri = raster_setup state tri := rfl
  rw [h]
  cases raster_setup state tri with
  | none => rfl
  | some L => exact foldlM_pixel_step state tri L _ buf

/-! ## The order of depths -/

theorem Flt.lt_transitive {a b c : Flt} (h1 : a.lt b = true) (h2 : b.lt c = true) :
    a.lt c = true := by
  cases a <;> cases b <;> cases c <;> simp_all [Flt.lt]
  exact h1.trans h2

theorem Flt.lt_irreflexive (a : Flt) : a.lt a = false := by
  cases a <;> simp [Flt.lt]

theorem Flt.below_or_eq_refl (a : Flt) : a.below_or_eq a := Or.inl rfl

theorem Flt.below_or_eq_trans {a b c : Flt} (h1 : a.below_or_eq b) (h2 : b.below_or_eq c) :
    a.below_or_eq c := by
  rcases h1 with rfl | h1
  · exact h2
  · rcases h2 with rfl | h2
    · exact Or.inr h1
    · exact Or.inr (Flt.lt_transitive h1 h2)

theorem depth_nonincreasing_refl (l : List Flt) : depth_nonincreasing l l :=
  fun _ d h => ⟨d, h, Flt.below_or_eq_refl d⟩

theorem depth_nonincreasing_trans {l1 l2 l3 : List Flt} (h1 : depth_nonincreasing l1 l2)
    (h2 : depth_nonincreasing l2 l3) : depth_nonincreasing l1 l3 := by
  intro n d hd
  obtain ⟨d2, hd2, r2⟩ := h1 n d hd
  obtain ⟨d3, hd3, r3⟩ := h2 n d2 hd2
  exact ⟨d3, hd3, Flt.below_or_eq_trans r3 r2⟩

/-! ## One pixel on the two buffers -/

theorem read_at_eq_some {α : Type} (a : List α) (idx : Int) (v : α) :
    read_at a idx = some v ↔ 0 ≤ idx ∧ a[idx.toNat]? = some v := by
  unfold read_at
  split
  · constructor
    · intro h; cases h
    · rintro ⟨h, -⟩; omega
  · constructor
    · intro h; exact ⟨by omega, h⟩
    · rintro ⟨-, h⟩; exact h

theorem read_at_lt_length {α : Type} (a : List α) (idx : Int) (v : α)
    (h : read_at a idx = some v) : 0 ≤ idx ∧ idx < a.length := by
  rw [read_at_eq_some] at h
  obtain ⟨h0, h1⟩ := h
  have := (List.getElem?_eq_some_iff.mp h1).1
  exact ⟨h0, by omega⟩

/-- What a successful `cell_update` does: nothing, or one store into each
buffer at an index inside both, with a depth strictly below the stored one. -/
theorem cell_update_some (active : Bool) (idx : Int) (z : Flt) (c : pixel)
    (buf buf' : List Flt × List pixel) (h : cell_update active idx z c buf = some buf') :
    buf' = buf
      ∨ (active = true ∧ 0 ≤ idx ∧ idx < buf.1.length ∧ idx < buf.2.length
          ∧ (∃ d, buf.1[idx.toNat]? = some d ∧ z.lt d = true)
          ∧ buf' = (buf.1.set idx.toNat z, buf.2.set idx.toNat c)) := by
  unfold cell_update at h
  split at h
  · rename_i hact
    split at h
    · cases h
    · rename_i d hd
      split at h
      · rename_i hlt
        have hr := (read_at_eq_some _ _ _).mp hd
        unfold write_at at h
        split at h
        · rename_i depth color h1 h2
          split at h1
          · split at h2
            · rename_i hb1 hb2
              simp only [Option.some.injEq] at h1 h2 h
              subst h1 h2
              exact Or.inr ⟨hact, hb1.1, hb1.2, hb2.2, ⟨d, hr.2, hlt⟩, h.symm⟩
            · cases h2
          · cases h1
        · cases h
      · simp only [Option.some.injEq] at h
        exact Or.inl h.symm
  · simp only [Option.some.injEq] at h
    exact Or.inl h.symm

theorem cell_update_depth (active : Bool) (idx : Int) (z : Flt) (c : pixel)
    (buf buf' : List Flt × List pixel) (h : cell_update active idx z c buf = some buf') :
    depth_nonincreasing buf.1 buf'.1 := by
  rcases cell_update_some active idx z c buf buf' h with rfl | ⟨-, -, hl, -, ⟨d, hd, hlt⟩, rfl⟩
  · exact depth_nonincreasing_refl _
  · intro n e he
    by_cases hn : idx.toNat = n
    · subst hn
      rw [hd] at he
      cases he
      refine ⟨z, ?_, Or.inr hlt⟩
      simp [List.getElem?_set_self', hd]
    · refine ⟨e, ?_, Flt.below_or_eq_refl e⟩
      simp only [List.getElem?_set_ne hn, he]

/-! ## Depth never increases -/

theorem evolves_refl (s : driver_state) : evolves s s :=
  ⟨⟨(s.image_depth, s.image_color), rfl⟩, depth_nonincreasing_refl _⟩

theorem evolves_trans {s1 s2 s3 : driver_state} (h1 : evolves s1 s2) (h2 : evolves s2 s3) :
    evolves s1 s3 := by
  obtain ⟨⟨b1, rfl⟩, m1⟩ := h1
  obtain ⟨⟨b2, rfl⟩, m2⟩ := h2
  exact ⟨⟨b2, rfl⟩, depth_nonincreasing_trans m1 m2⟩

theorem evolves_width {s s' : driver_state} (h : evolves s s') :
    s'.image_width = s.image_width := by
  obtain ⟨⟨b, rfl⟩, -⟩ := h
  rfl

/-- A relation that every step preserves holds between the ends of a fold. -/
theorem foldlM_rel {β α : Type} (f : β → α → Option β) (R : β → β → Prop)
    (hrefl : ∀ b, R b b) (htrans : ∀ a b c, R a b → R b c → R a c)
    (hstep : ∀ b a b', f b a = some b' → R b b') :
    ∀ (l : List α) (b b' : β), l.foldlM f b = some b' → R b b' := by
  intro l
  induction l with
  | nil =>
    intro b b' h
    simp only [List.foldlM_nil, Option.pure_def, Option.some.injEq] at h
    subst h
    exact hrefl b
  | cons a l ih =>
    intro b b' h
    simp only [List.foldlM_cons, Option.bind_eq_bind, Option.bind_eq_some] at h
    obtain ⟨b1, h1, h2⟩ := h
    exact htrans _ _ _ (hstep _ _ _ h1) (ih _ _ h2)

theorem pixel_step_evolves (tri : triangle) (L : raster_locals) (s : driver_state)
    (p : Int × Int) (s' : driver_state) (h : pixel_step tri L s p = some s') : evolves s s' := by
  have e := pixel_step_eq_cell_step s tri L (s.image_depth, s.image_color) p
  rw [with_buffers_self, h] at e
  cases hc : cell_step s tri L (s.image_depth, s.image_color) p with
  | none => rw [hc] at e; cases e
  | some b =>
    rw [hc] at e
    simp only [Option.map_some', Option.some.injEq] at e
    subst e
    exact ⟨⟨b, rfl⟩, cell_update_depth _ _ _ _ _ _ hc⟩

theorem pixel_fold_evolves (tri : triangle) (L : raster_locals) (ps : List (Int × Int))
    (s s' : driver_state) (h : ps.foldlM (pixel_step tri L) s = some s') : evolves s s' :=
  foldlM_rel (pixel_step tri L) evolves evolves_refl (fun _ _ _ => evolves_trans)
    (fun s p s' => pixel_step_evolves tri L s p s') ps s s' h

theorem rasterize_triangle_evolves (s : driver_state) (tri : triangle) (s' : driver_state)
    (h : rasterize_triangle s tri = some s') : evolves s s' := by
  unfold rasterize_triangle at h
  split at h
  · cases h
  · exact pixel_fold_evolves tri _ _ s s' h

theorem rasterize_all_evolves (tris : List triangle) (s s' : driver_state)
    (h : tris.foldlM rasterize_triangle s = some s') : evolves s s' :=
  foldlM_rel rasterize_triangle evolves evolves_refl (fun _ _ _ => evolves_trans)
    rasterize_triangle_evolves tris s s' h

/-- A call of `render` is a sequence of calls of `rasterize_triangle`. -/
theorem render_eq_foldlM (state : driver_state) :
    render state render_type.triangle
      = ((List.range (state.num_vertices.toNat / 3)).map state.group).foldlM
          rasterize_triangle state := by
  rw [render, render_with_triangle]
  generalize (List.range (state.num_vertices.toNat / 3)).map state.group = l
  have h : ∀ (l : List triangle) (o : Option driver_state),
      l.foldl (fun s t => s.bind fun st => rasterize_triangle st t) o
        = o.bind fun st => l.foldlM rasterize_triangle st := by
    intro l
    induction l with
    | nil => intro o; cases o <;> rfl
    | cons t l ih =>
      intro o
      rw [List.foldl_cons, ih]
      cases o with
      | none => rfl
      | some st => simp [List.foldlM_cons]
  rw [h]
  rfl

theorem store_fragment_some (s : driver_state) (idx : Int) (z : Flt) (o : data_output)
    (s' : driver_state) (h : store_fragment s idx z o = some s') :
    0 ≤ idx ∧ idx < s.image_depth.length ∧ idx < s.image_color.length
      ∧ s' = s.with_buffers (s.image_depth.set idx.toNat z,
          s.image_color.set idx.toNat (to_pixel o)) := by
  unfold store_fragment write_at at h
  by_cases h1 : 0 ≤ idx ∧ idx < s.image_depth.length
  · by_cases h2 : 0 ≤ idx ∧ idx < s.image_color.length
    · simp only [h1, h2, and_self, if_true, Option.some.injEq] at h
      exact ⟨h1.1, h1.2, h2.2, h.symm⟩
    · rw [if_pos h1, if_neg h2] at h
      cases h
  · rw [if_neg h1] at h
    cases h

/-- C5: along a call of `rasterize_triangle` followed by any further sequence of
calls (each call of `render` being such a sequence), no depth cell ever holds
more than before; and when a pixel `p` passes the inside and depth tests, the
cell holds exactly `z_val` right after that write and a depth equal to or
below that `z_val` at the end of the sequence. -/
theorem depth_never_increases (state : driver_state) (tri : triangle) (rest : List triangle)
    (sfin : driver_state) (L : raster_locals) (before : List (Int × Int)) (p : Int × Int)
    (after : List (Int × Int)) (s1 : driver_state)
    (hrun : (tri :: rest).foldlM rasterize_triangle state = some sfin)
    (hL : raster_setup state tri = some L)
    (hpix : raster_pixels L = before ++ p :: after)
    (h1 : before.foldlM (pixel_step tri L) state = some s1) :
    depth_nonincreasing state.image_depth sfin.image_depth
      ∧ ∀ d : Flt, inside_test L p.1 p.2 = true →
          read_at s1.image_depth (p.1 + p.2 * state.image_width) = some d →
          (z_val L p.1 p.2).lt d = true →
          ∃ (s2 : driver_state) (dfin : Flt),
            pixel_step tri L s1 p = some s2
            ∧ read_at s2.image_depth (p.1 + p.2 * state.image_width) = some (z_val L p.1 p.2)
            ∧ read_at sfin.image_depth (p.1 + p.2 * state.image_width) = some dfin
            ∧ dfin.below_or_eq (z_val L p.1 p.2) := by
  refine ⟨(rasterize_all_evolves _ _ _ hrun).2, ?_⟩
  intro d hin hd hlt
  simp only [List.foldlM_cons, Option.bind_eq_bind, Option.bind_eq_some] at hrun
  obtain ⟨s3, hr, hrest⟩ := hrun
  unfold rasterize_triangle at hr
  rw [hL] at hr
  simp only [hpix, List.foldlM_append, h1, List.foldlM_cons, Option.bind_eq_bind,
    Option.some_bind, Option.bind_eq_some] at hr
  obtain ⟨s2, hs2, hafter⟩ := hr
  have hw : s1.image_width = state.image_width := evolves_width (pixel_fold_evolves _ _ _ _ _ h1)
  have hpass := pixel_step_pass s1 tri L p.1 p.2 d hin (by rw [hw]; exact hd) hlt
  rw [hw] at hpass
  have hs2' : store_fragment s1 (p.1 + p.2 * state.image_width) (z_val L p.1 p.2)
      (s1.fragment_shader (fragment_at s1 tri L p.1 p.2) s1.uniform_data) = some s2 := by
    rw [← hpass]; exact hs2
  have hb := read_at_lt_length _ _ _ hd
  have hz : read_at s2.image_depth (p.1 + p.2 * state.image_width)
      = some (z_val L p.1 p.2) := by
    obtain ⟨-, -, -, rfl⟩ := store_fragment_some _ _ _ _ _ hs2'
    rw [read_at_eq_some]
    refine ⟨hb.1, ?_⟩
    have : (p.1 + p.2 * state.image_width).toNat < s1.image_depth.length := by omega
    simp [driver_state.with_buffers, this]
  have hev : evolves s2 sfin :=
    evolves_trans (pixel_fold_evolves _ _ _ _ _ hafter) (rasterize_all_evolves _ _ _ hrest)
  obtain ⟨dfin, hdfin, hle⟩ := hev.2 _ _ ((read_at_eq_some _ _ _).mp hz).2
  exact ⟨s2, dfin, hs2, hz, (read_at_eq_some _ _ _).mpr ⟨hb.1, hdfin⟩, hle⟩

theorem eq_some_getD {α : Type} (x : Option α) (d : α) (h : x.isSome = true) :
    x = some (x.getD d) := by
  cases x with
  | none => cases h
  | some v => rfl

/-- Witness of `depth_never_increases`: `near_triangle` then `far_triangle` on a
fresh 2×2 buffer, at pixel `(1, 0)` of the first call. -/
theorem depth_never_increases_witness :
    ∃ (sfin s1 : driver_state),
      [near_triangle, far_triangle].foldlM rasterize_triangle
          (sample_state [interp_type.flat] 0 2 2) = some sfin
      ∧ raster_pixels tie_locals = [(0, 0)] ++ (1, 0) :: [(0, 1), (1, 1)]
      ∧ [((0 : Int), (0 : Int))].foldlM (pixel_step near_triangle tie_locals)
          (sample_state [interp_type.flat] 0 2 2) = some s1
      ∧ depth_nonincreasing (sample_state [interp_type.flat] 0 2 2).image_depth
          sfin.image_depth
      ∧ ∃ (s2 : driver_state) (dfin : Flt),
          pixel_step near_triangle tie_locals s1 (1, 0) = some s2
          ∧ read_at s2.image_depth (1 + 0 * 2) = some (Flt.fin 0)
          ∧ read_at sfin.image_depth (1 + 0 * 2) = some dfin
          ∧ dfin.below_or_eq (Flt.fin 0) := by
  have hrun := eq_some_getD ([near_triangle, far_triangle].foldlM rasterize_triangle
      (sample_state [interp_type.flat] 0 2 2)) (sample_state [interp_type.flat] 0 2 2)
      (by decide!)
  have h1 := eq_some_getD ([((0 : Int), (0 : Int))].foldlM
      (pixel_step near_triangle tie_locals) (sample_state [interp_type.flat] 0 2 2))
      (sample_state [interp_type.flat] 0 2 2) (by decide!)
  have hpix : raster_pixels tie_locals = [(0, 0)] ++ (1, 0) :: [(0, 1), (1, 1)] := by decide!
  have hz : z_val tie_locals 1 0 = Flt.fin 0 := by decide!
  have h := depth_never_increases (sample_state [interp_type.flat] 0 2 2) near_triangle
    [far_triangle] _ tie_locals [(0, 0)] (1, 0) [(0, 1), (1, 1)] _ hrun (by decide!) hpix h1
  refine ⟨_, _, hrun, hpix, h1, h.1, ?_⟩
  have h2 := h.2 (Flt.fin FLT_MAX) (by decide!) (by decide!) (by decide!)
  rw [hz] at h2
  exact h2

/-! ## Two pixels commute -/

theorem cell_update_inactive (idx : Int) (z : Flt) (c : pixel) (buf : List Flt × List pixel) :
    cell_update false idx z c buf = some buf := by
  simp [cell_update]

/-- The sample state is what `initialize_render` makes of the state without buffers. -/
theorem sample_state_initialised (rules : List interp_type) (slot : Nat) (width height : Int)
    (h : 0 ≤ width * height) :
    initialize_render (sample_state rules slot 0 0) width height
      = some (sample_state rules slot width height) := by
  unfold initialize_render
  rw [if_neg (by omega)]
  rfl

/-! ## Order of two triangles -/

/-- Two calls of `rasterize_triangle` in a row, on the two buffers. -/
theorem rasterize_then (state : driver_state) (A B : triangle) (buf : List Flt × List pixel) :
    (rasterize_triangle (state.with_buffers buf) A).bind (fun s => rasterize_triangle s B)
      = match raster_setup state A, raster_setup state B with
        | some LA, some LB =>
          (((raster_pixels LA).foldlM (cell_step state A LA) buf).bind
            fun b => (raster_pixels LB).foldlM (cell_step state B LB) b).map state.with_buffers
        | _, _ => none := by
  rw [rasterize_triangle_eq]
  cases hA : raster_setup state A with
  | none => rfl
  | some LA =>
    dsimp only
    cases hf : (raster_pixels LA).foldlM (cell_step state A LA) buf with
    | none => cases raster_setup state B <;> simp [hf]
    | some b1 =>
      simp only [Option.map_some', Option.some_bind]
      rw [rasterize_triangle_eq]
      cases raster_setup state B <;> simp [hf]

/-- C6, evaluated: on a fresh buffer of width 2 and height 3, `offgrid_triangle`
has `max_x = 2 = image_width`, which the check `max_x > image_width` leaves
unclamped.  Pixel `(2, 0)` is visited and its index `2 + 0*2` is the cell of
pixel `(0, 1)`, pixel `(2, 1)` hits the cell of pixel `(0, 2)`: the cells 2 and 4
change although pixels `(0, 1)` and `(0, 2)` lie left of `min_x = 1` and fail the
inside test. -/
theorem offgrid_pixel_wraps :
    raster_setup (sample_state [interp_type.flat] 0 2 3) offgrid_triangle = some offgrid_locals
      ∧ raster_pixels offgrid_locals = [(1, 0), (2, 0), (1, 1), (2, 1)]
      ∧ inside_test offgrid_locals 0 1 = false
      ∧ inside_test offgrid_locals 0 2 = false
      ∧ (sample_state [interp_type.flat] 0 2 3).image_depth
          = [Flt.fin FLT_MAX, Flt.fin FLT_MAX, Flt.fin FLT_MAX, Flt.fin FLT_MAX,
              Flt.fin FLT_MAX, Flt.fin FLT_MAX]
      ∧ (rasterize_triangle (sample_state [interp_type.flat] 0 2 3) offgrid_triangle).map
          (fun s => s.image_depth)
        = some [Flt.fin FLT_MAX, Flt.fin 0, Flt.fin 0, Flt.fin FLT_MAX, Flt.fin 0,
            Flt.fin FLT_MAX]
      ∧ (rasterize_triangle (sample_state [interp_type.flat] 0 2 3) offgrid_triangle).map
          (fun s => s.image_color)
        = some [make_pixel 0 0 0, make_pixel 255 255 255, make_pixel 255 255 255,
            make_pixel 0 0 0, make_pixel 255 255 255, make_pixel 0 0 0] := by
  decide!

/-! ## `clip_triangle` -/

/-- With enough fuel, `clip_triangle` started at a plane index `face ≤ 6` calls
the rasterizer once, on its input. -/
theorem clip_triangle_with_eq {σ : Type} (rast : σ → triangle → σ) (s : σ) (tri : triangle) :
    ∀ (fuel : Nat) (face : Int), face ≤ 6 → (7 - face).toNat ≤ fuel →
      clip_triangle_with rast fuel s tri face = some (rast s tri) := by
  intro fuel
  induction fuel with
  | zero => intro face h6 hf; omega
  | succ fuel ih =>
    intro face h6 hf
    unfold clip_triangle_with
    by_cases h : face = 6
    · rw [if_pos h]
    · rw [if_neg h]
      exact ih (face + 1) (by omega) (by omega)

/-- C10: for a triangle inside all six clip planes and a starting plane index
`face` in `0..6`, `clip_triangle` terminates (any fuel of at least `7 - face`
nested calls suffices), hands exactly one triangle to `rasterize_triangle`, its
input, and has the effect of `rasterize_triangle` on the input. -/
theorem clip_inside_is_rasterize (state : driver_state) (tri : triangle) (face : Int)
    (fuel : Nat)
    (_hin : inside_all_planes tri.v0 ∧ inside_all_planes tri.v1 ∧ inside_all_planes tri.v2)
    (_h0 : 0 ≤ face) (h6 : face ≤ 6) (hfuel : (7 - face).toNat ≤ fuel) :
    clip_triangle_handed fuel tri face = some [tri]
      ∧ clip_triangle fuel state tri face = rasterize_triangle state tri := by
  constructor
  · exact clip_triangle_with_eq _ _ tri fuel face h6 hfuel
  · unfold clip_triangle
    rw [clip_triangle_with_eq _ _ tri fuel face h6 hfuel]
    rfl

/-- Witness of `clip_inside_is_rasterize`: `near_triangle`, started at plane 3
with fuel 4, on a fresh 2×2 buffer. -/
theorem clip_inside_is_rasterize_witness :
    (inside_all_planes near_triangle.v0 ∧ inside_all_planes near_triangle.v1
        ∧ inside_all_planes near_triangle.v2)
      ∧ clip_triangle_handed 4 near_triangle 3 = some [near_triangle]
      ∧ clip_triangle 4 (sample_state [interp_type.flat] 0 2 2) near_triangle 3
        = rasterize_triangle (sample_state [interp_type.flat] 0 2 2) near_triangle := by
  have hin : inside_all_planes near_triangle.v0 ∧ inside_all_planes near_triangle.v1
      ∧ inside_all_planes near_triangle.v2 := by
    simp only [inside_all_planes, near_triangle, vertex]
    norm_num
  exact ⟨hin, clip_inside_is_rasterize (sample_state [interp_type.flat] 0 2 2) near_triangle 3 4
    hin (by decide) (by decide) (by decide)⟩

/-- C9, evaluated: `outside_triangle` has all three vertices outside the clip
plane `x ≤ w`, yet `clip_triangle` started at plane 0 hands it unchanged to
`rasterize_triangle`, which writes cells 1 and 3 of a fresh 2×2 buffer. -/
theorem clip_outside_still_forwarded :
    (outside_plane 0 outside_triangle.v0 ∧ outside_plane 0 outside_triangle.v1
        ∧ outside_plane 0 outside_triangle.v2)
      ∧ clip_triangle_handed 7 outside_triangle 0 = some [outside_triangle]
      ∧ (sample_state [interp_type.flat] 0 2 2).image_depth
          = [Flt.fin FLT_MAX, Flt.fin FLT_MAX, Flt.fin FLT_MAX, Flt.fin FLT_MAX]
      ∧ (clip_triangle 7 (sample_state [interp_type.flat] 0 2 2) outside_triangle 0).map
          (fun s => s.image_depth)
        = some [Flt.fin FLT_MAX, Flt.fin 0, Flt.fin FLT_MAX, Flt.fin 0]
      ∧ (clip_triangle 7 (sample_state [interp_type.flat] 0 2 2) outside_triangle 0).map
          (fun s => s.image_color)
        = some [make_pixel 0 0 0, make_pixel 255 255 255, make_pixel 0 0 0,
            make_pixel 255 255 255] := by
  refine ⟨?_, by decide!, by decide!, by decide!, by decide!⟩
  simp only [outside_plane, outside_triangle, vertex]
  norm_num

/-! ## The other render modes -/

/-- C11, evaluated: in `fan` mode a stream of five vertices hands no triangle to
the rasterizer (where the claim expects three) and leaves the buffers as they
were; the same stream in `triangle` mode hands over one triangle. -/
theorem render_fan_hands_nothing :
    five_vertex_state.num_vertices = 5
      ∧ render_handed five_vertex_state render_type.fan = []
      ∧ (render five_vertex_state render_type.fan).map (fun s => s.image_depth)
          = some five_vertex_state.image_depth
      ∧ (render five_vertex_state render_type.fan).map (fun s => s.image_color)
          = some five_vertex_state.image_color
      ∧ (render_handed five_vertex_state render_type.triangle).length = 1 := by
  decide!

/-- C12, evaluated: in `strip` mode a stream of five vertices hands no triangle to
the rasterizer (where the claim expects three) and leaves the buffers as they were. -/
theorem render_strip_hands_nothing :
    five_vertex_state.num_vertices = 5
      ∧ render_handed five_vertex_state render_type.strip = []
      ∧ (render five_vertex_state render_type.strip).map (fun s => s.image_depth)
          = some five_vertex_state.image_depth
      ∧ (render five_vertex_state render_type.strip).map (fun s => s.image_color)
          = some five_vertex_state.image_color := by
  decide!

/-! ## `initialize_render` -/

/-- C13, counterexample: after `initialize_render` with width 1 and height 1 the
single depth cell holds the largest finite float, which is not positive infinity. -/
theorem initialize_render_depth_not_infinity :
    (initialize_render (sample_state [] 0 0 0) 1 1).map (fun s => s.image_depth)
        = some [Flt.fin FLT_MAX]
      ∧ (initialize_render (sample_state [] 0 0 0) 1 1).map (fun s => s.image_depth)
        ≠ some [Flt.pinf]
      ∧ Flt.lt (Flt.fin FLT_MAX) Flt.pinf = true := by
  decide!

/-- C13, amended: for positive `width` and `height`, `initialize_render` returns a
state with `image_width = width`, `image_height = height`, a colour array and a
depth array of exactly `width*height` cells, every depth cell equal to the
largest finite float `FLT_MAX` and every colour cell black. -/
theorem initialize_render_spec (state : driver_state) (width height : Int)
    (hw : 0 < width) (hh : 0 < height) :
    ∃ s : driver_state, initialize_render state width height = some s
      ∧ s.image_width = width ∧ s.image_height = height
      ∧ (s.image_color.length : Int) = width * height
      ∧ (s.image_depth.length : Int) = width * height
      ∧ (∀ d ∈ s.image_depth, d = Flt.fin FLT_MAX)
      ∧ (∀ c ∈ s.image_color, c = make_pixel 0 0 0) := by
  have hpos : 0 < width * height := mul_pos hw hh
  refine ⟨_, by unfold initialize_render; rw [if_neg (by omega)], rfl, rfl, ?_, ?_, ?_, ?_⟩
  · simp only [List.length_replicate]; omega
  · simp only [List.length_replicate]; omega
  · intro d hd; exact List.eq_of_mem_replicate hd
  · intro c hc; exact List.eq_of_mem_replicate hc

/-- Witness of `initialize_render_spec`: width 2 and height 3. -/
theorem initialize_render_spec_witness :
    ∃ s : driver_state, initialize_render (sample_state [] 0 0 0) 2 3 = some s
      ∧ s.image_width = 2 ∧ s.image_height = 3
      ∧ (s.image_color.length : Int) = 2 * 3
      ∧ (s.image_depth.length : Int) = 2 * 3
      ∧ (∀ d ∈ s.image_depth, d = Flt.fin FLT_MAX)
      ∧ (∀ c ∈ s.image_color, c = make_pixel 0 0 0) :=
  initialize_render_spec (sample_state [] 0 0 0) 2 3 (by decide) (by decide)

/-! ## The pixel loop and the pixel grid -/

/-- C14, evaluated: on a fresh 2×2 buffer `corner_triangle` has `max_x = 2`, equal
to the image width, which the check `max_x > image_width` does not clamp.  The
loop visits pixels `(2, 0)` and `(2, 1)` with `i = 2 > width - 1`; pixel `(2, 1)`
passes the inside test and its index `2 + 1*2 = 4` lies outside the arrays of 4
cells, so the depth read is out of bounds and the call has no defined result. -/
theorem offgrid_index_out_of_bounds :
    (raster_setup (sample_state [interp_type.flat] 0 2 2) corner_triangle).map
        (fun L => (L.min_x, L.max_x, L.min_y, L.max_y)) = some (1, 2, 0, 1)
      ∧ (raster_setup (sample_state [interp_type.flat] 0 2 2) corner_triangle).map raster_pixels
        = some [(1, 0), (2, 0), (1, 1), (2, 1)]
      ∧ (raster_setup (sample_state [interp_type.flat] 0 2 2) corner_triangle).map
        (fun L => inside_test L 2 1) = some true
      ∧ (sample_state [interp_type.flat] 0 2 2).image_depth.length = 4
      ∧ read_at (sample_state [interp_type.flat] 0 2 2).image_depth (2 + 1 * 2) = none
      ∧ (rasterize_triangle (sample_state [interp_type.flat] 0 2 2) corner_triangle).isSome
        = false := by
  decide!

/-! ## Triangles of zero area -/

/-- A finite value divided by zero is `>= 0` only when it is positive. -/
theorem Flt.div_zero_ge (x : ℚ) :
    (Flt.fin x / Flt.fin 0).ge (Flt.fin 0) = true ↔ 0 < x := by
  show (Flt.div (Flt.fin x) (Flt.fin 0)).ge (Flt.fin 0) = true ↔ 0 < x
  unfold Flt.div
  by_cases h0 : x = 0
  · subst h0
    simp [Flt.ge]
  · by_cases hp : 0 < x
    · simp [h0, hp, Flt.signed, Flt.ge]
    · simp [h0, hp, Flt.signed, Flt.ge]

/-- With a zero area no pixel passes the inside test: the three numerators sum to
twice the area, so they are not all positive. -/
theorem inside_test_zero_area (state : driver_state) (tri : triangle) (L : raster_locals)
    (hL : raster_setup state tri = some L) (h0 : L.area_ABC = Flt.fin 0) (i j : Int) :
    inside_test L i j = false := by
  have ha := raster_setup_area state tri L hL
  rw [h0] at ha
  have hz : (1 / 2 * (((L.x1 * L.y2 - L.x2 * L.y1) - (L.x0 * L.y2 - L.x2 * L.y0)
      + (L.x0 * L.y1 - L.x1 * L.y0) : Int) : ℚ)) = 0 := by
    injection ha with h; exact h.symm
  by_contra hin
  rw [Bool.not_eq_false] at hin
  simp only [inside_test, Bool.and_eq_true, bary_alpha, bary_beta, bary_gamma, h0,
    Flt.ofInt_eq, Flt.fin_mul_fin, Flt.div_zero_ge] at hin
  obtain ⟨⟨h1, h2⟩, h3⟩ := hin
  push_cast at hz h1 h2 h3
  linarith

/-- A fold of steps that all leave the state as it is. -/
theorem foldlM_id {β α : Type} (f : β → α → Option β) (b : β) (l : List α)
    (h : ∀ a ∈ l, f b a = some b) : l.foldlM f b = some b := by
  induction l with
  | nil => rfl
  | cons a l ih =>
    rw [List.foldlM_cons, h a (List.mem_cons_self _ _)]
    exact ih fun a' ha' => h a' (List.mem_cons_of_mem _ ha')

/-- C15, amended: for a triangle whose screen-space area `area_ABC` is exactly
zero, `rasterize_triangle` has no guard and still computes the weights of every
pixel of the bounding box by dividing by the zero area; the weights are then
`NaN` or include a negative infinity, so no pixel passes the inside test: zero
pixels are written and the colour and depth buffers are unchanged. -/
theorem zero_area_writes_nothing (state : driver_state) (tri : triangle) (L : raster_locals)
    (hL : raster_setup state tri = some L) (h0 : L.area_ABC = Flt.fin 0) :
    (∀ i j : Int, inside_test L i j = false)
      ∧ rasterize_triangle state tri = some state := by
  refine ⟨inside_test_zero_area state tri L hL h0, ?_⟩
  unfold rasterize_triangle
  rw [hL]
  refine foldlM_id _ _ _ ?_
  intro p _
  unfold pixel_step
  rw [inside_test_zero_area state tri L hL h0]
  rfl

/-- Witness of `zero_area_writes_nothing`: `flat_triangle` on a fresh 2×2 buffer. -/
theorem zero_area_writes_nothing_witness :
    (∀ i j : Int, inside_test flat_locals i j = false)
      ∧ rasterize_triangle (sample_state [interp_type.flat] 0 2 2) flat_triangle
        = some (sample_state [interp_type.flat] 0 2 2) :=
  zero_area_writes_nothing (sample_state [interp_type.flat] 0 2 2) flat_triangle flat_locals
    (by decide!) (by decide!)

/-- C15, counterexample: `flat_triangle` has `area_ABC = 0` on a 2×2 image, its
bounding box holds four pixels, and at pixel `(1, 0)` the weights are the
quotients by that zero area: `alpha_prime = (1/2)/0 = +inf`, `beta_prime = 0/0 = NaN`,
`gamma_prime = (-1/2)/0 = -inf`.  The division by the zero area is performed. -/
theorem zero_area_is_divided_by :
    raster_setup (sample_state [interp_type.flat] 0 2 2) flat_triangle = some flat_locals
      ∧ flat_locals.area_ABC = Flt.fin 0
      ∧ raster_pixels flat_locals = [(0, 0), (1, 0), (0, 1), (1, 1)]
      ∧ bary_alpha flat_locals 1 0 = Flt.fin (1 / 2) / Flt.fin 0
      ∧ bary_alpha flat_locals 1 0 = Flt.pinf
      ∧ bary_beta flat_locals 1 0 = Flt.fin 0 / Flt.fin 0
      ∧ bary_beta flat_locals 1 0 = Flt.nan
      ∧ bary_gamma flat_locals 1 0 = Flt.fin (-1 / 2) / Flt.fin 0
      ∧ bary_gamma flat_locals 1 0 = Flt.ninf := by
  decide!

/-! ## Screen coordinates -/

/-- Truncation toward zero is the floor of a non-negative value. -/
theorem Flt.trunc_of_nonneg (q : ℚ) (h : 0 ≤ q) : Flt.trunc q = ⌊q⌋ := by
  unfold Flt.trunc
  rw [Int.tdiv_eq_ediv (Rat.num_nonneg.mpr h) (Int.ofNat_nonneg _), Rat.floor_def]

/-- Truncation toward zero of a value in `(-1, 0)` is zero. -/
theorem Flt.trunc_of_small_neg (q : ℚ) (h1 : -1 < q) (h2 : q < 0) : Flt.trunc q = 0 := by
  unfold Flt.trunc
  have hn : q.num < 0 := Rat.num_neg.mpr h2
  have hd : (0 : ℚ) < q.den := by exact_mod_cast q.den_pos
  have hq : (q.num : ℚ) / q.den = q := Rat.num_div_den q
  have h3 : -(q.den : ℚ) < q.num := by
    have : -1 < (q.num : ℚ) / q.den := by rw [hq]; exact h1
    rw [lt_div_iff₀ hd] at this
    linarith
  have h4 : -q.num < (q.den : Int) := by
    have : (-(q.num : ℚ)) < q.den := by linarith
    exact_mod_cast this
  have e : q.num = -(-q.num) := by ring
  rw [e, Int.neg_tdiv, Int.tdiv_eq_zero_of_lt (by omega) h4]
  rfl

/-- A value in `[-1/2, size - 1/2]` truncates into `[0, size - 1]`. -/
theorem Flt.trunc_bounds (q : ℚ) (size : Int) (hs : 0 < size) (h1 : -1 / 2 ≤ q)
    (h2 : q ≤ (size : ℚ) - 1 / 2) :
    0 ≤ Flt.trunc q ∧ Flt.trunc q ≤ size - 1 := by
  by_cases h : 0 ≤ q
  · rw [Flt.trunc_of_nonneg q h]
    refine ⟨Int.floor_nonneg.mpr h, ?_⟩
    have hf : (⌊q⌋ : ℚ) ≤ q := Int.floor_le q
    have : ((⌊q⌋ : Int) : ℚ) < (size : ℚ) := by linarith
    have : ⌊q⌋ < size := by exact_mod_cast this
    omega
  · rw [Flt.trunc_of_small_neg q (by linarith) (by linarith)]
    omega

/-- The viewport transform of a coordinate of a vertex with `w ≠ 0`. -/
theorem to_screen_of_ne_zero (size : Int) (c w : ℚ) (hw : w ≠ 0) :
    to_screen (Flt.ofInt size / Flt.fin 2) c w = some (screen_coord size c w) := by
  unfold to_screen screen_coord
  rw [Flt.ofInt_eq, Flt.fin_div_fin _ _ (by norm_num), Flt.fin_div_fin _ _ hw]
  rfl

/-- For `w > 0` and `-w ≤ c ≤ w` the screen coordinate lies on the grid. -/
theorem screen_coord_bounds (size : Int) (c w : ℚ) (hs : 0 < size) (hw : 0 < w)
    (h1 : -w ≤ c) (h2 : c ≤ w) :
    0 ≤ screen_coord size c w ∧ screen_coord size c w ≤ size - 1 := by
  have hs' : (0 : ℚ) < size := by exact_mod_cast hs
  have hn1 : -1 ≤ c / w := by rw [le_div_iff₀ hw]; linarith
  have hn2 : c / w ≤ 1 := by rw [div_le_iff₀ hw]; linarith
  apply Flt.trunc_bounds _ _ hs
  · nlinarith
  · nlinarith

/-- The locals of `rasterize_triangle` for a triangle whose three `w` are non-zero. -/
theorem raster_setup_of_ne_zero (state : driver_state) (tri : triangle)
    (h0 : tri.v0.gl_Position.c3 ≠ 0) (h1 : tri.v1.gl_Position.c3 ≠ 0)
    (h2 : tri.v2.gl_Position.c3 ≠ 0) :
    ∃ L : raster_locals, raster_setup state tri = some L
      ∧ L.x0 = screen_coord state.image_width tri.v0.gl_Position.c0 tri.v0.gl_Position.c3
      ∧ L.x1 = screen_coord state.image_width tri.v1.gl_Position.c0 tri.v1.gl_Position.c3
      ∧ L.x2 = screen_coord state.image_width tri.v2.gl_Position.c0 tri.v2.gl_Position.c3
      ∧ L.y0 = screen_coord state.image_height tri.v0.gl_Position.c1 tri.v0.gl_Position.c3
      ∧ L.y1 = screen_coord state.image_height tri.v1.gl_Position.c1 tri.v1.gl_Position.c3
      ∧ L.y2 = screen_coord state.image_height tri.v2.gl_Position.c1 tri.v2.gl_Position.c3
      ∧ L.min_x = (if min (min L.x0 L.x1) L.x2 < 0 then 0 else min (min L.x0 L.x1) L.x2)
      ∧ L.min_y = (if min (min L.y0 L.y1) L.y2 < 0 then 0 else min (min L.y0 L.y1) L.y2)
      ∧ L.max_x = (if max (max L.x0 L.x1) L.x2 > state.image_width
          then state.image_width - 1 else max (max L.x0 L.x1) L.x2)
      ∧ L.max_y = (if max (max L.y0 L.y1) L.y2 > state.image_height
          then state.image_height - 1 else max (max L.y0 L.y1) L.y2) := by
  have h : ∃ L : raster_locals, raster_setup state tri = some L := by
    unfold raster_setup
    simp only [to_screen_of_ne_zero _ _ _ h0, to_screen_of_ne_zero _ _ _ h1,
      to_screen_of_ne_zero _ _ _ h2, Option.bind_eq_bind, Option.some_bind]
    exact ⟨_, rfl⟩
  obtain ⟨L, hL⟩ := h
  refine ⟨L, hL, ?_⟩
  unfold raster_setup at hL
  simp only [to_screen_of_ne_zero _ _ _ h0, to_screen_of_ne_zero _ _ _ h1,
    to_screen_of_ne_zero _ _ _ h2, Option.bind_eq_bind, Option.some_bind,
    Option.some.injEq] at hL
  subst hL
  exact ⟨rfl, rfl, rfl, rfl, rfl, rfl, rfl, rfl, rfl, rfl⟩

/-- In exact arithmetic, for every positive width and height and a triangle
whose vertices have `w > 0`, `-w ≤ x ≤ w` and `-w ≤ y ≤ w`, the perspective
divide and viewport transform succeed, every screen coordinate satisfies
`0 ≤ screen_x ≤ width - 1` and `0 ≤ screen_y ≤ height - 1`, and the bounding box
is the plain minimum and maximum of the screen coordinates.  In single
precision this holds up to width and height `2^23` and fails at width `2^24`
(both shown further down). -/
theorem view_volume_on_grid (state : driver_state) (tri : triangle)
    (hW : 0 < state.image_width) (hH : 0 < state.image_height)
    (hv0 : in_view_xy tri.v0) (hv1 : in_view_xy tri.v1) (hv2 : in_view_xy tri.v2) :
    ∃ L : raster_locals, raster_setup state tri = some L
      ∧ L.x0 = screen_coord state.image_width tri.v0.gl_Position.c0 tri.v0.gl_Position.c3
      ∧ L.x1 = screen_coord state.image_width tri.v1.gl_Position.c0 tri.v1.gl_Position.c3
      ∧ L.x2 = screen_coord state.image_width tri.v2.gl_Position.c0 tri.v2.gl_Position.c3
      ∧ L.y0 = screen_coord state.image_height tri.v0.gl_Position.c1 tri.v0.gl_Position.c3
      ∧ L.y1 = screen_coord state.image_height tri.v1.gl_Position.c1 tri.v1.gl_Position.c3
      ∧ L.y2 = screen_coord state.image_height tri.v2.gl_Position.c1 tri.v2.gl_Position.c3
      ∧ (0 ≤ L.x0 ∧ L.x0 ≤ state.image_width - 1)
      ∧ (0 ≤ L.x1 ∧ L.x1 ≤ state.image_width - 1)
      ∧ (0 ≤ L.x2 ∧ L.x2 ≤ state.image_width - 1)
      ∧ (0 ≤ L.y0 ∧ L.y0 ≤ state.image_height - 1)
      ∧ (0 ≤ L.y1 ∧ L.y1 ≤ state.image_height - 1)
      ∧ (0 ≤ L.y2 ∧ L.y2 ≤ state.image_height - 1)
      ∧ L.min_x = min (min L.x0 L.x1) L.x2 ∧ L.max_x = max (max L.x0 L.x1) L.x2
      ∧ L.min_y = min (min L.y0 L.y1) L.y2 ∧ L.max_y = max (max L.y0 L.y1) L.y2 := by
  obtain ⟨w0, a0, b0, c0, d0⟩ := hv0
  obtain ⟨w1, a1, b1, c1, d1⟩ := hv1
  obtain ⟨w2, a2, b2, c2, d2⟩ := hv2
  obtain ⟨L, hL, ex0, ex1, ex2, ey0, ey1, ey2, emx, emy, eMx, eMy⟩ :=
    raster_setup_of_ne_zero state tri (ne_of_gt w0) (ne_of_gt w1) (ne_of_gt w2)
  have bx0 := screen_coord_bounds _ _ _ hW w0 a0 b0
  have bx1 := screen_coord_bounds _ _ _ hW w1 a1 b1
  have bx2 := screen_coord_bounds _ _ _ hW w2 a2 b2
  have by0 := screen_coord_bounds _ _ _ hH w0 c0 d0
  have by1 := screen_coord_bounds _ _ _ hH w1 c1 d1
  have by2 := screen_coord_bounds _ _ _ hH w2 c2 d2
  rw [← ex0] at bx0
  rw [← ex1] at bx1
  rw [← ex2] at bx2
  rw [← ey0] at by0
  rw [← ey1] at by1
  rw [← ey2] at by2
  refine ⟨L, hL, ex0, ex1, ex2, ey0, ey1, ey2, bx0, bx1, bx2, by0, by1, by2, ?_, ?_, ?_, ?_⟩
  · rw [emx, if_neg]
    have := le_min (le_min bx0.1 bx1.1) bx2.1
    omega
  · rw [eMx, if_neg]
    have := max_le (max_le bx0.2 bx1.2) bx2.2
    omega
  · rw [emy, if_neg]
    have := le_min (le_min by0.1 by1.1) by2.1
    omega
  · rw [eMy, if_neg]
    have := max_le (max_le by0.2 by1.2) by2.2
    omega

/-- The exact-arithmetic statement at `near_triangle` on a fresh 2×2 buffer. -/
theorem view_volume_on_grid_witness :
    ∃ L : raster_locals,
      raster_setup (sample_state [interp_type.flat] 0 2 2) near_triangle = some L
      ∧ L.x0 = 0 ∧ L.x1 = 1 ∧ L.x2 = 0 ∧ L.y0 = 0 ∧ L.y1 = 0 ∧ L.y2 = 1
      ∧ L.min_x = min (min L.x0 L.x1) L.x2 ∧ L.max_x = max (max L.x0 L.x1) L.x2
      ∧ L.min_y = min (min L.y0 L.y1) L.y2 ∧ L.max_y = max (max L.y0 L.y1) L.y2 := by
  have hv : in_view_xy near_triangle.v0 ∧ in_view_xy near_triangle.v1
      ∧ in_view_xy near_triangle.v2 := by
    simp only [in_view_xy, near_triangle, vertex]
    norm_num
  obtain ⟨L, hL, ex0, ex1, ex2, ey0, ey1, ey2, -, -, -, -, -, -, m1, m2, m3, m4⟩ :=
    view_volume_on_grid (sample_state [interp_type.flat] 0 2 2) near_triangle
      (by decide) (by decide) hv.1 hv.2.1 hv.2.2
  refine ⟨L, hL, ?_, ?_, ?_, ?_, ?_, ?_, m1, m2, m3, m4⟩
  · rw [ex0]; decide!
  · rw [ex1]; decide!
  · rw [ex2]; decide!
  · rw [ey0]; decide!
  · rw [ey1]; decide!
  · rw [ey2]; decide!

/-! ## Weights of a triangle of non-zero area -/

/-- With a non-zero area the three weights are finite and sum to 1. -/
theorem bary_finite_sum (state : driver_state) (tri : triangle) (L : raster_locals)
    (hL : raster_setup state tri = some L) (harea : L.area_ABC ≠ Flt.fin 0) (i j : Int) :
    ∃ a b c : ℚ, bary_alpha L i j = Flt.fin a ∧ bary_beta L i j = Flt.fin b
      ∧ bary_gamma L i j = Flt.fin c ∧ a + b + c = 1 := by
  have ha := raster_setup_area state tri L hL
  rw [ha] at harea
  have hne : (1 / 2 * (((L.x1 * L.y2 - L.x2 * L.y1) - (L.x0 * L.y2 - L.x2 * L.y0)
      + (L.x0 * L.y1 - L.x1 * L.y0) : Int) : ℚ)) ≠ 0 := fun h => harea (by rw [h])
  refine ⟨1 / 2 * (((L.x1 * L.y2 - L.x2 * L.y1) + (L.y1 - L.y2) * i + (L.x2 - L.x1) * j : Int) : ℚ)
      / (1 / 2 * (((L.x1 * L.y2 - L.x2 * L.y1) - (L.x0 * L.y2 - L.x2 * L.y0)
        + (L.x0 * L.y1 - L.x1 * L.y0) : Int) : ℚ)),
    1 / 2 * (((L.x2 * L.y0 - L.x0 * L.y2) + (L.y2 - L.y0) * i + (L.x0 - L.x2) * j : Int) : ℚ)
      / (1 / 2 * (((L.x1 * L.y2 - L.x2 * L.y1) - (L.x0 * L.y2 - L.x2 * L.y0)
        + (L.x0 * L.y1 - L.x1 * L.y0) : Int) : ℚ)),
    1 / 2 * (((L.x0 * L.y1 - L.x1 * L.y0) + (L.y0 - L.y1) * i + (L.x1 - L.x0) * j : Int) : ℚ)
      / (1 / 2 * (((L.x1 * L.y2 - L.x2 * L.y1) - (L.x0 * L.y2 - L.x2 * L.y0)
        + (L.x0 * L.y1 - L.x1 * L.y0) : Int) : ℚ)), ?_, ?_, ?_, ?_⟩
  · simp only [bary_alpha, ha, Flt.ofInt_eq, Flt.fin_mul_fin, Flt.fin_div_fin _ _ hne]
  · simp only [bary_beta, ha, Flt.ofInt_eq, Flt.fin_mul_fin, Flt.fin_div_fin _ _ hne]
  · simp only [bary_gamma, ha, Flt.ofInt_eq, Flt.fin_mul_fin, Flt.fin_div_fin _ _ hne]
  · rw [← add_div, ← add_div, div_eq_one_iff_eq hne]
    push_cast
    ring

/-- The inside test on finite weights. -/
theorem inside_test_finite (L : raster_locals) (i j : Int) (a b c : ℚ)
    (ha : bary_alpha L i j = Flt.fin a) (hb : bary_beta L i j = Flt.fin b)
    (hc : bary_gamma L i j = Flt.fin c) (hin : inside_test L i j = true) :
    0 ≤ a ∧ 0 ≤ b ∧ 0 ≤ c := by
  simpa [inside_test, ha, hb, hc, Flt.ge, and_assoc] using hin

/-- In exact arithmetic standing in for floating point, for a triangle of
non-zero area whose three `w` are positive, at every pixel that passes the
inside test the factor `k_gour = alpha/w0 + beta/w1 + gamma/w2` is a finite,
strictly positive number `k`; the divisors `w_l`, `area_ABC` and `k_gour * w_l`
are all non-zero, and the corrected weights `alpha/(k_gour*w0)`,
`beta/(k_gour*w1)`, `gamma/(k_gour*w2)` are finite, non-negative and sum to 1.
In single precision the sum can differ from 1 and `k_gour * w_l` can underflow
to zero. -/
theorem perspective_factor_exact (state : driver_state) (tri : triangle)
    (L : raster_locals) (i j : Int)
    (hL : raster_setup state tri = some L) (harea : L.area_ABC ≠ Flt.fin 0)
    (hw0 : 0 < tri.v0.gl_Position.c3) (hw1 : 0 < tri.v1.gl_Position.c3)
    (hw2 : 0 < tri.v2.gl_Position.c3) (hin : inside_test L i j = true) :
    ∃ k a' b' c' : ℚ,
      bary_alpha L i j / Flt.fin tri.v0.gl_Position.c3
          + bary_beta L i j / Flt.fin tri.v1.gl_Position.c3
          + bary_gamma L i j / Flt.fin tri.v2.gl_Position.c3 = Flt.fin k
      ∧ 0 < k
      ∧ tri.v0.gl_Position.c3 ≠ 0 ∧ tri.v1.gl_Position.c3 ≠ 0 ∧ tri.v2.gl_Position.c3 ≠ 0
      ∧ k * tri.v0.gl_Position.c3 ≠ 0 ∧ k * tri.v1.gl_Position.c3 ≠ 0
      ∧ k * tri.v2.gl_Position.c3 ≠ 0
      ∧ bary_alpha L i j / (Flt.fin k * Flt.fin tri.v0.gl_Position.c3) = Flt.fin a'
      ∧ bary_beta L i j / (Flt.fin k * Flt.fin tri.v1.gl_Position.c3) = Flt.fin b'
      ∧ bary_gamma L i j / (Flt.fin k * Flt.fin tri.v2.gl_Position.c3) = Flt.fin c'
      ∧ 0 ≤ a' ∧ 0 ≤ b' ∧ 0 ≤ c' ∧ a' + b' + c' = 1 := by
  obtain ⟨a, b, c, ea, eb, ec, hsum⟩ := bary_finite_sum state tri L hL harea i j
  obtain ⟨ha, hb, hc⟩ := inside_test_finite L i j a b c ea eb ec hin
  have n0 := ne_of_gt hw0
  have n1 := ne_of_gt hw1
  have n2 := ne_of_gt hw2
  have hk : 0 < a / tri.v0.gl_Position.c3 + b / tri.v1.gl_Position.c3
      + c / tri.v2.gl_Position.c3 := by
    have p0 := div_nonneg ha hw0.le
    have p1 := div_nonneg hb hw1.le
    have p2 := div_nonneg hc hw2.le
    by_contra hneg
    have z0 : a / tri.v0.gl_Position.c3 = 0 := by linarith
    have z1 : b / tri.v1.gl_Position.c3 = 0 := by linarith
    have z2 : c / tri.v2.gl_Position.c3 = 0 := by linarith
    rw [div_eq_zero_iff] at z0 z1 z2
    have a0 : a = 0 := z0.resolve_right n0
    have b0 : b = 0 := z1.resolve_right n1
    have c0 : c = 0 := z2.resolve_right n2
    rw [a0, b0, c0] at hsum
    norm_num at hsum
  have m0 := mul_pos hk hw0
  have m1 := mul_pos hk hw1
  have m2 := mul_pos hk hw2
  refine ⟨a / tri.v0.gl_Position.c3 + b / tri.v1.gl_Position.c3 + c / tri.v2.gl_Position.c3,
    a / ((a / tri.v0.gl_Position.c3 + b / tri.v1.gl_Position.c3 + c / tri.v2.gl_Position.c3)
      * tri.v0.gl_Position.c3),
    b / ((a / tri.v0.gl_Position.c3 + b / tri.v1.gl_Position.c3 + c / tri.v2.gl_Position.c3)
      * tri.v1.gl_Position.c3),
    c / ((a / tri.v0.gl_Position.c3 + b / tri.v1.gl_Position.c3 + c / tri.v2.gl_Position.c3)
      * tri.v2.gl_Position.c3),
    ?_, hk, n0, n1, n2, ne_of_gt m0, ne_of_gt m1, ne_of_gt m2,
    ?_, ?_, ?_, div_nonneg ha m0.le, div_nonneg hb m1.le, div_nonneg hc m2.le, ?_⟩
  · rw [ea, eb, ec, Flt.fin_div_fin _ _ n0, Flt.fin_div_fin _ _ n1, Flt.fin_div_fin _ _ n2]
    rfl
  · rw [ea, Flt.fin_mul_fin, Flt.fin_div_fin _ _ (ne_of_gt m0)]
  · rw [eb, Flt.fin_mul_fin, Flt.fin_div_fin _ _ (ne_of_gt m1)]
  · rw [ec, Flt.fin_mul_fin, Flt.fin_div_fin _ _ (ne_of_gt m2)]
  · have hkne := ne_of_gt hk
    have e : ∀ x K w : ℚ, K ≠ 0 → w ≠ 0 → x / (K * w) = x / w / K := by
      intro x K w hK hw
      rw [div_div, mul_comm]
    rw [e _ _ _ hkne n0, e _ _ _ hkne n1, e _ _ _ hkne n2, ← add_div, ← add_div,
      div_self hkne]

theorem cell_fold_depth (state : driver_state) (tri : triangle) (L : raster_locals)
    (l : List (Int × Int)) (b b' : List Flt × List pixel)
    (h : l.foldlM (cell_step state tri L) b = some b') : depth_nonincreasing b.1 b'.1 :=
  foldlM_rel (cell_step state tri L) (fun x y => depth_nonincreasing x.1 y.1)
    (fun x => depth_nonincreasing_refl x.1) (fun _ _ _ => depth_nonincreasing_trans)
    (fun x _ y hs => cell_update_depth _ _ _ _ x y hs) l b b' h

theorem write_both_some (dl : List Flt) (cl : List pixel) (idx : Int) (z : Flt) (c : pixel)
    (b1 : List Flt × List pixel)
    (h : (match write_at dl idx z, write_at cl idx c with
      | some depth, some color => some (depth, color)
      | _, _ => none) = some b1) :
    0 ≤ idx ∧ idx < dl.length ∧ b1.1 = dl.set idx.toNat z := by
  unfold write_at at h
  by_cases h1 : 0 ≤ idx ∧ idx < dl.length
  · by_cases h2 : 0 ≤ idx ∧ idx < cl.length
    · simp only [h1, h2, and_self, if_true, Option.some.injEq] at h
      exact ⟨h1.1, h1.2, by rw [← h]⟩
    · rw [if_pos h1, if_neg h2] at h
      cases h
  · rw [if_neg h1] at h
    cases h

/-- After its own step an inside pixel no longer passes the depth test. -/
theorem cell_update_settles (idx : Int) (z : Flt) (c : pixel) (b b1 : List Flt × List pixel)
    (h : cell_update true idx z c b = some b1) :
    ∃ d, read_at b1.1 idx = some d ∧ z.lt d = false := by
  unfold cell_update at h
  rw [if_pos rfl] at h
  cases hr : read_at b.1 idx with
  | none => rw [hr] at h; cases h
  | some d =>
    rw [hr] at h
    dsimp only at h
    by_cases hlt : z.lt d = true
    · rw [if_pos hlt] at h
      obtain ⟨h0, hl, e⟩ := write_both_some _ _ _ _ _ _ h
      refine ⟨z, ?_, Flt.lt_irreflexive z⟩
      rw [read_at_eq_some, e]
      refine ⟨h0, ?_⟩
      have hn : idx.toNat < b.1.length := by omega
      simp [List.getElem?_set_self hn]
    · rw [if_neg hlt] at h
      simp only [Option.some.injEq] at h
      subst h
      exact ⟨d, hr, by simpa using hlt⟩

/-- A pixel that is outside, or whose depth is not below the stored one, changes nothing. -/
theorem cell_update_settled (active : Bool) (idx : Int) (z : Flt) (c : pixel)
    (b : List Flt × List pixel)
    (h : active = true → ∃ d, read_at b.1 idx = some d ∧ z.lt d = false) :
    cell_update active idx z c b = some b := by
  unfold cell_update
  cases active with
  | false => rfl
  | true =>
    obtain ⟨d, hd, hlt⟩ := h rfl
    simp [hd, hlt]

/-- At the end of the pixel loop no inside pixel of the loop passes the depth test. -/
theorem cell_fold_settles (state : driver_state) (tri : triangle) (L : raster_locals) :
    ∀ (l : List (Int × Int)) (b bend : List Flt × List pixel),
      l.foldlM (cell_step state tri L) b = some bend →
      ∀ p ∈ l, inside_test L p.1 p.2 = true →
        ∃ d, read_at bend.1 (p.1 + p.2 * state.image_width) = some d
          ∧ (z_val L p.1 p.2).lt d = false := by
  intro l
  induction l with
  | nil => intro b bend _ p hp; cases hp
  | cons q l ih =>
    intro b bend h p hp hin
    simp only [List.foldlM_cons, Option.bind_eq_bind, Option.bind_eq_some] at h
    obtain ⟨b1, hq, hrest⟩ := h
    rcases List.mem_cons.mp hp with rfl | hmem
    · unfold cell_step at hq
      rw [hin] at hq
      obtain ⟨d1, hd1, hlt1⟩ := cell_update_settles _ _ _ _ _ hq
      obtain ⟨d2, hd2, hle⟩ := cell_fold_depth state tri L l b1 bend hrest _ _
        ((read_at_eq_some _ _ _).mp hd1).2
      refine ⟨d2, (read_at_eq_some _ _ _).mpr ⟨((read_at_eq_some _ _ _).mp hd1).1, hd2⟩, ?_⟩
      rcases hle with rfl | hlt
      · exact hlt1
      · by_contra hc
        rw [Bool.not_eq_false] at hc
        rw [Flt.lt_transitive hc hlt] at hlt1
        cases hlt1
    · exact ih b1 bend hrest p hmem hin

/-- C20: rasterizing the same triangle twice in a row gives the result of
rasterizing it once (the same colour and depth buffers, or the same failure),
for every frame-buffer state and every triangle; the fragment shader is a pure
function.  After the first pass every cell addressed by an inside pixel holds a
depth that the pixel's `z_val` is not strictly below. -/
theorem rasterize_twice (state : driver_state) (tri : triangle) :
    (rasterize_triangle state tri).bind (fun s => rasterize_triangle s tri)
      = rasterize_triangle state tri := by
  have h2 := rasterize_then state tri tri (state.image_depth, state.image_color)
  have h1 := rasterize_triangle_eq state tri (state.image_depth, state.image_color)
  rw [with_buffers_self] at h1 h2
  rw [h2, h1]
  cases hL : raster_setup state tri with
  | none => rfl
  | some L =>
    dsimp only
    cases hf : (raster_pixels L).foldlM (cell_step state tri L)
        (state.image_depth, state.image_color) with
    | none => rfl
    | some b1 =>
      have hagain : (raster_pixels L).foldlM (cell_step state tri L) b1 = some b1 := by
        refine foldlM_id _ _ _ ?_
        intro p hp
        exact cell_update_settled _ _ _ _ _
          (fun hin => cell_fold_settles state tri L _ _ _ hf p hp hin)
      simp only [Option.some_bind, hagain]

/-! ## Reordering the vertices -/

/-- With a non-zero area the weights are the quotients of the edge functions by
the shoelace value. -/
theorem bary_values (state : driver_state) (tri : triangle) (L : raster_locals)
    (hL : raster_setup state tri = some L)
    (hA : (L.x1 * L.y2 - L.x2 * L.y1) - (L.x0 * L.y2 - L.x2 * L.y0)
      + (L.x0 * L.y1 - L.x1 * L.y0) ≠ 0) (i j : Int) :
    bary_alpha L i j = Flt.fin
        ((((L.x1 * L.y2 - L.x2 * L.y1) + (L.y1 - L.y2) * i + (L.x2 - L.x1) * j : Int) : ℚ)
          / (((L.x1 * L.y2 - L.x2 * L.y1) - (L.x0 * L.y2 - L.x2 * L.y0)
            + (L.x0 * L.y1 - L.x1 * L.y0) : Int) : ℚ))
      ∧ bary_beta L i j = Flt.fin
        ((((L.x2 * L.y0 - L.x0 * L.y2) + (L.y2 - L.y0) * i + (L.x0 - L.x2) * j : Int) : ℚ)
          / (((L.x1 * L.y2 - L.x2 * L.y1) - (L.x0 * L.y2 - L.x2 * L.y0)
            + (L.x0 * L.y1 - L.x1 * L.y0) : Int) : ℚ))
      ∧ bary_gamma L i j = Flt.fin
        ((((L.x0 * L.y1 - L.x1 * L.y0) + (L.y0 - L.y1) * i + (L.x1 - L.x0) * j : Int) : ℚ)
          / (((L.x1 * L.y2 - L.x2 * L.y1) - (L.x0 * L.y2 - L.x2 * L.y0)
            + (L.x0 * L.y1 - L.x1 * L.y0) : Int) : ℚ)) := by
  have ha := raster_setup_area state tri L hL
  have hA' : (((L.x1 * L.y2 - L.x2 * L.y1) - (L.x0 * L.y2 - L.x2 * L.y0)
      + (L.x0 * L.y1 - L.x1 * L.y0) : Int) : ℚ) ≠ 0 := by exact_mod_cast hA
  have hne : (1 / 2 * (((L.x1 * L.y2 - L.x2 * L.y1) - (L.x0 * L.y2 - L.x2 * L.y0)
      + (L.x0 * L.y1 - L.x1 * L.y0) : Int) : ℚ)) ≠ 0 := mul_ne_zero (by norm_num) hA'
  refine ⟨?_, ?_, ?_⟩
  · simp only [bary_alpha, ha, Flt.ofInt_eq, Flt.fin_mul_fin, Flt.fin_div_fin _ _ hne]
    rw [mul_div_mul_left _ _ (by norm_num : (1 / 2 : ℚ) ≠ 0)]
  · simp only [bary_beta, ha, Flt.ofInt_eq, Flt.fin_mul_fin, Flt.fin_div_fin _ _ hne]
    rw [mul_div_mul_left _ _ (by norm_num : (1 / 2 : ℚ) ≠ 0)]
  · simp only [bary_gamma, ha, Flt.ofInt_eq, Flt.fin_mul_fin, Flt.fin_div_fin _ _ hne]
    rw [mul_div_mul_left _ _ (by norm_num : (1 / 2 : ℚ) ≠ 0)]

/-- The area computed by `raster_setup` is zero exactly when the shoelace value is. -/
theorem area_zero_iff (state : driver_state) (tri : triangle) (L : raster_locals)
    (hL : raster_setup state tri = some L) :
    L.area_ABC = Flt.fin 0 ↔ (L.x1 * L.y2 - L.x2 * L.y1) - (L.x0 * L.y2 - L.x2 * L.y0)
      + (L.x0 * L.y1 - L.x1 * L.y0) = 0 := by
  rw [raster_setup_area state tri L hL]
  constructor
  · intro h
    injection h with h
    have : (((L.x1 * L.y2 - L.x2 * L.y1) - (L.x0 * L.y2 - L.x2 * L.y0)
      + (L.x0 * L.y1 - L.x1 * L.y0) : Int) : ℚ) = 0 := by linarith
    exact_mod_cast this
  · intro h
    rw [h]
    norm_num

theorem same_coverage_refl (L : raster_locals) : same_coverage L L :=
  ⟨rfl, fun _ _ => ⟨rfl, fun _ => rfl⟩⟩

theorem same_coverage_trans {L1 L2 L3 : raster_locals} (h12 : same_coverage L1 L2)
    (h23 : same_coverage L2 L3) : same_coverage L1 L3 := by
  refine ⟨h23.1.trans h12.1, fun i j => ⟨((h23.2 i j).1).trans (h12.2 i j).1, fun hin => ?_⟩⟩
  have h2 : inside_test L2 i j = true := by rw [(h12.2 i j).1]; exact hin
  exact ((h23.2 i j).2 h2).trans ((h12.2 i j).2 hin)

/-- Exchanging vertices 0 and 1 exchanges `alpha` and `beta`: same coverage. -/
theorem same_coverage_swap01 (state : driver_state) (tri tri' : triangle)
    (L L' : raster_locals) (hL : raster_setup state tri = some L)
    (hL' : raster_setup state tri' = some L')
    (ex0 : L'.x0 = L.x1) (ex1 : L'.x1 = L.x0) (ex2 : L'.x2 = L.x2)
    (ey0 : L'.y0 = L.y1) (ey1 : L'.y1 = L.y0) (ey2 : L'.y2 = L.y2)
    (ez0 : L'.z0 = L.z1) (ez1 : L'.z1 = L.z0) (ez2 : L'.z2 = L.z2)
    (b1 : L'.min_x = L.min_x) (b2 : L'.max_x = L.max_x)
    (b3 : L'.min_y = L.min_y) (b4 : L'.max_y = L.max_y) : same_coverage L L' := by
  refine ⟨by unfold raster_pixels; rw [b1, b2, b3, b4], fun i j => ?_⟩
  by_cases hA : (L.x1 * L.y2 - L.x2 * L.y1) - (L.x0 * L.y2 - L.x2 * L.y0)
      + (L.x0 * L.y1 - L.x1 * L.y0) = 0
  · have hA' : (L'.x1 * L'.y2 - L'.x2 * L'.y1) - (L'.x0 * L'.y2 - L'.x2 * L'.y0)
        + (L'.x0 * L'.y1 - L'.x1 * L'.y0) = 0 := by
      rw [ex0, ex1, ex2, ey0, ey1, ey2]
      linear_combination -hA
    rw [inside_test_zero_area _ _ _ hL ((area_zero_iff _ _ _ hL).mpr hA),
      inside_test_zero_area _ _ _ hL' ((area_zero_iff _ _ _ hL').mpr hA')]
    exact ⟨rfl, fun h => by cases h⟩
  · have hA' : (L'.x1 * L'.y2 - L'.x2 * L'.y1) - (L'.x0 * L'.y2 - L'.x2 * L'.y0)
        + (L'.x0 * L'.y1 - L'.x1 * L'.y0) ≠ 0 := by
      rw [ex0, ex1, ex2, ey0, ey1, ey2]
      intro h
      exact hA (by linear_combination -h)
    obtain ⟨va, vb, vc⟩ := bary_values state tri L hL hA i j
    obtain ⟨va', vb', vc'⟩ := bary_values state tri' L' hL' hA' i j
    have qA : (((L.x1 * L.y2 - L.x2 * L.y1) - (L.x0 * L.y2 - L.x2 * L.y0)
        + (L.x0 * L.y1 - L.x1 * L.y0) : Int) : ℚ) ≠ 0 := by exact_mod_cast hA
    rw [ex0, ex1, ex2, ey0, ey1, ey2] at va' vb' vc' hA'
    have qA' : (((L.x0 * L.y2 - L.x2 * L.y0) - (L.x1 * L.y2 - L.x2 * L.y1)
        + (L.x1 * L.y0 - L.x0 * L.y1) : Int) : ℚ) ≠ 0 := by exact_mod_cast hA'
    have e1 : bary_alpha L' i j = bary_beta L i j := by
      rw [va', vb]; congr 1; rw [div_eq_div_iff qA' qA]; push_cast; ring
    have e2 : bary_beta L' i j = bary_alpha L i j := by
      rw [vb', va]; congr 1; rw [div_eq_div_iff qA' qA]; push_cast; ring
    have e3 : bary_gamma L' i j = bary_gamma L i j := by
      rw [vc', vc]; congr 1; rw [div_eq_div_iff qA' qA]; push_cast; ring
    refine ⟨?_, fun _ => ?_⟩
    · unfold inside_test
      rw [e1, e2, e3, Bool.and_comm ((bary_beta L i j).ge (Flt.fin 0))]
    · unfold z_val
      rw [e1, e2, e3, ez0, ez1, ez2, va, vb, vc]
      simp only [Flt.ofInt_eq, Flt.fin_mul_fin, Flt.fin_add_fin]
      congr 1
      ring

/-- Exchanging vertices 1 and 2 exchanges `beta` and `gamma`: same coverage. -/
theorem same_coverage_swap12 (state : driver_state) (tri tri' : triangle)
    (L L' : raster_locals) (hL : raster_setup state tri = some L)
    (hL' : raster_setup state tri' = some L')
    (ex0 : L'.x0 = L.x0) (ex1 : L'.x1 = L.x2) (ex2 : L'.x2 = L.x1)
    (ey0 : L'.y0 = L.y0) (ey1 : L'.y1 = L.y2) (ey2 : L'.y2 = L.y1)
    (ez0 : L'.z0 = L.z0) (ez1 : L'.z1 = L.z2) (ez2 : L'.z2 = L.z1)
    (b1 : L'.min_x = L.min_x) (b2 : L'.max_x = L.max_x)
    (b3 : L'.min_y = L.min_y) (b4 : L'.max_y = L.max_y) : same_coverage L L' := by
  refine ⟨by unfold raster_pixels; rw [b1, b2, b3, b4], fun i j => ?_⟩
  by_cases hA : (L.x1 * L.y2 - L.x2 * L.y1) - (L.x0 * L.y2 - L.x2 * L.y0)
      + (L.x0 * L.y1 - L.x1 * L.y0) = 0
  · have hA' : (L'.x1 * L'.y2 - L'.x2 * L'.y1) - (L'.x0 * L'.y2 - L'.x2 * L'.y0)
        + (L'.x0 * L'.y1 - L'.x1 * L'.y0) = 0 := by
      rw [ex0, ex1, ex2, ey0, ey1, ey2]
      linear_combination -hA
    rw [inside_test_zero_area _ _ _ hL ((area_zero_iff _ _ _ hL).mpr hA),
      inside_test_zero_area _ _ _ hL' ((area_zero_iff _ _ _ hL').mpr hA')]
    exact ⟨rfl, fun h => by cases h⟩
  · have hA' : (L'.x1 * L'.y2 - L'.x2 * L'.y1) - (L'.x0 * L'.y2 - L'.x2 * L'.y0)
        + (L'.x0 * L'.y1 - L'.x1 * L'.y0) ≠ 0 := by
      rw [ex0, ex1, ex2, ey0, ey1, ey2]
      intro h
      exact hA (by linear_combination -h)
    obtain ⟨va, vb, vc⟩ := bary_values state tri L hL hA i j
    obtain ⟨va', vb', vc'⟩ := bary_values state tri' L' hL' hA' i j
    have qA : (((L.x1 * L.y2 - L.x2 * L.y1) - (L.x0 * L.y2 - L.x2 * L.y0)
        + (L.x0 * L.y1 - L.x1 * L.y0) : Int) : ℚ) ≠ 0 := by exact_mod_cast hA
    rw [ex0, ex1, ex2, ey0, ey1, ey2] at va' vb' vc' hA'
    have qA' : (((L.x2 * L.y1 - L.x1 * L.y2) - (L.x0 * L.y1 - L.x1 * L.y0)
        + (L.x0 * L.y2 - L.x2 * L.y0) : Int) : ℚ) ≠ 0 := by exact_mod_cast hA'
    have e1 : bary_alpha L' i j = bary_alpha L i j := by
      rw [va', va]; congr 1; rw [div_eq_div_iff qA' qA]; push_cast; ring
    have e2 : bary_beta L' i j = bary_gamma L i j := by
      rw [vb', vc]; congr 1; rw [div_eq_div_iff qA' qA]; push_cast; ring
    have e3 : bary_gamma L' i j = bary_beta L i j := by
      rw [vc', vb]; congr 1; rw [div_eq_div_iff qA' qA]; push_cast; ring
    refine ⟨?_, fun _ => ?_⟩
    · unfold inside_test
      rw [e1, e2, e3, Bool.and_assoc, Bool.and_assoc,
        Bool.and_comm ((bary_gamma L i j).ge (Flt.fin 0))]
    · unfold z_val
      rw [e1, e2, e3, ez0, ez1, ez2, va, vb, vc]
      simp only [Flt.ofInt_eq, Flt.fin_mul_fin, Flt.fin_add_fin]
      congr 1
      ring

/-- The locals of the triangle with vertices 0 and 1 exchanged. -/
theorem raster_setup_swap01 (state : driver_state) (tri : triangle) (L : raster_locals)
    (hL : raster_setup state tri = some L) :
    ∃ L', raster_setup state tri.swap01 = some L' ∧ same_coverage L L' := by
  have hL0 := hL
  unfold raster_setup at hL
  simp only [Option.bind_eq_bind, Option.bind_eq_some] at hL
  obtain ⟨x0, hx0, y0, hy0, z0, hz0, x1, hx1, y1, hy1, z1, hz1, x2, hx2, y2, hy2, z2, hz2, h⟩ :=
    hL
  simp only [Option.some.injEq] at h
  subst h
  have h' : ∃ L', raster_setup state tri.swap01 = some L' := by
    unfold raster_setup
    simp only [triangle.swap01, hx0, hy0, hz0, hx1, hy1, hz1, hx2, hy2, hz2,
      Option.bind_eq_bind, Option.some_bind]
    exact ⟨_, rfl⟩
  obtain ⟨L', hL'⟩ := h'
  have hL1 := hL'
  unfold raster_setup at hL'
  simp only [triangle.swap01, hx0, hy0, hz0, hx1, hy1, hz1, hx2, hy2, hz2,
    Option.bind_eq_bind, Option.some_bind, Option.some.injEq] at hL'
  subst hL'
  refine ⟨_, hL1, same_coverage_swap01 state tri tri.swap01 _ _ hL0 hL1
    rfl rfl rfl rfl rfl rfl rfl rfl rfl ?_ ?_ ?_ ?_⟩
  · dsimp only; rw [min_comm x1 x0]
  · dsimp only; rw [max_comm x1 x0]
  · dsimp only; rw [min_comm y1 y0]
  · dsimp only; rw [max_comm y1 y0]

/-- The locals of the triangle with vertices 1 and 2 exchanged. -/
theorem raster_setup_swap12 (state : driver_state) (tri : triangle) (L : raster_locals)
    (hL : raster_setup state tri = some L) :
    ∃ L', raster_setup state tri.swap12 = some L' ∧ same_coverage L L' := by
  have hL0 := hL
  unfold raster_setup at hL
  simp only [Option.bind_eq_bind, Option.bind_eq_some] at hL
  obtain ⟨x0, hx0, y0, hy0, z0, hz0, x1, hx1, y1, hy1, z1, hz1, x2, hx2, y2, hy2, z2, hz2, h⟩ :=
    hL
  simp only [Option.some.injEq] at h
  subst h
  have h' : ∃ L', raster_setup state tri.swap12 = some L' := by
    unfold raster_setup
    simp only [triangle.swap12, hx0, hy0, hz0, hx1, hy1, hz1, hx2, hy2, hz2,
      Option.bind_eq_bind, Option.some_bind]
    exact ⟨_, rfl⟩
  obtain ⟨L', hL'⟩ := h'
  have hL1 := hL'
  unfold raster_setup at hL'
  simp only [triangle.swap12, hx0, hy0, hz0, hx1, hy1, hz1, hx2, hy2, hz2,
    Option.bind_eq_bind, Option.some_bind, Option.some.injEq] at hL'
  subst hL'
  refine ⟨_, hL1, same_coverage_swap12 state tri tri.swap12 _ _ hL0 hL1
    rfl rfl rfl rfl rfl rfl rfl rfl rfl ?_ ?_ ?_ ?_⟩
  · dsimp only; rw [min_right_comm x0 x2 x1]
  · dsimp only; rw [max_assoc, max_comm x2 x1, ← max_assoc]
  · dsimp only; rw [min_right_comm y0 y2 y1]
  · dsimp only; rw [max_assoc, max_comm y2 y1, ← max_assoc]

/-! ## The depth buffer does not depend on the colours -/

/-- Two buffers with the same depth array and colour arrays of the same length
stay so under the same pixel, whatever the two colours written. -/
theorem cell_update_depth_congr (active : Bool) (idx : Int) (z : Flt) (c1 c2 : pixel)
    (b1 b2 : List Flt × List pixel) (h1 : b1.1 = b2.1) (h2 : b1.2.length = b2.2.length) :
    (cell_update active idx z c1 b1).map (fun x => (x.1, x.2.length))
      = (cell_update active idx z c2 b2).map (fun x => (x.1, x.2.length)) := by
  unfold cell_update
  cases active with
  | false => simp [h1, h2]
  | true =>
    rw [if_pos rfl, if_pos rfl, h1]
    cases read_at b2.1 idx with
    | none => rfl
    | some d =>
      dsimp only
      by_cases hlt : z.lt d = true
      · rw [if_pos hlt, if_pos hlt]
        unfold write_at
        rw [h2]
        by_cases hb1 : 0 ≤ idx ∧ idx < b2.1.length
        · by_cases hb2 : 0 ≤ idx ∧ idx < b2.2.length
          · simp [hb1, hb2, h2]
          · have hb3 : ¬ idx < (b2.2.length : Int) := fun hlt2 => hb2 ⟨hb1.1, hlt2⟩
            simp [hb1, hb3]
        · simp [hb1]
      · rw [if_neg hlt, if_neg hlt]
        simp [h1, h2]

/-- The depth array after the pixel loop depends only on the pixels visited, the
inside test and `z_val` at the inside pixels. -/
theorem cell_fold_depth_congr (state : driver_state) (tri1 tri2 : triangle)
    (L1 L2 : raster_locals) (hcov : same_coverage L1 L2) :
    ∀ (l : List (Int × Int)) (b1 b2 : List Flt × List pixel), b1.1 = b2.1 →
      b1.2.length = b2.2.length →
      (l.foldlM (cell_step state tri1 L1) b1).map (fun x => (x.1, x.2.length))
        = (l.foldlM (cell_step state tri2 L2) b2).map (fun x => (x.1, x.2.length)) := by
  intro l
  induction l with
  | nil => intro b1 b2 h1 h2; simp [h1, h2]
  | cons p l ih =>
    intro b1 b2 h1 h2
    have hstep : (cell_step state tri1 L1 b1 p).map (fun x => (x.1, x.2.length))
        = (cell_step state tri2 L2 b2 p).map (fun x => (x.1, x.2.length)) := by
      unfold cell_step
      rw [(hcov.2 p.1 p.2).1]
      cases hin : inside_test L1 p.1 p.2 with
      | false => simp [cell_update_inactive, h1, h2]
      | true =>
        rw [(hcov.2 p.1 p.2).2 hin]
        exact cell_update_depth_congr _ _ _ _ _ _ _ h1 h2
    simp only [List.foldlM_cons, Option.bind_eq_bind]
    cases ha : cell_step state tri1 L1 b1 p with
    | none =>
      cases hb : cell_step state tri2 L2 b2 p with
      | none => rfl
      | some y => rw [ha, hb] at hstep; cases hstep
    | some x =>
      cases hb : cell_step state tri2 L2 b2 p with
      | none => rw [ha, hb] at hstep; cases hstep
      | some y =>
        rw [ha, hb] at hstep
        simp only [Option.map_some', Option.some.injEq, Prod.mk.injEq] at hstep
        exact ih x y hstep.1 hstep.2

/-- The depth buffer left by `rasterize_triangle`, from the pixel loop on the buffers. -/
theorem rasterize_triangle_depth (state : driver_state) (tri : triangle) :
    (rasterize_triangle state tri).map (fun s => s.image_depth)
      = match raster_setup state tri with
        | none => none
        | some L => ((raster_pixels L).foldlM (cell_step state tri L)
            (state.image_depth, state.image_color)).map (fun x => x.1) := by
  have h := rasterize_triangle_eq state tri (state.image_depth, state.image_color)
  rw [with_buffers_self] at h
  rw [h]
  cases raster_setup state tri with
  | none => rfl
  | some L =>
    dsimp only
    cases (raster_pixels L).foldlM (cell_step state tri L)
      (state.image_depth, state.image_color) <;> rfl

/-- Triangles with the same coverage leave the same depth buffer. -/
theorem same_raster_of_coverage (state : driver_state) (tri tri' : triangle)
    (h1 : ∀ L, raster_setup state tri = some L →
      ∃ L', raster_setup state tri' = some L' ∧ same_coverage L L')
    (h2 : raster_setup state tri = none → raster_setup state tri' = none) :
    same_raster state tri tri' := by
  refine ⟨h1, h2, ?_⟩
  rw [rasterize_triangle_depth, rasterize_triangle_depth]
  cases hL : raster_setup state tri with
  | none => rw [h2 hL]
  | some L =>
    obtain ⟨L', hL', hcov⟩ := h1 L hL
    rw [hL']
    dsimp only
    have h := cell_fold_depth_congr state tri tri' L L' hcov (raster_pixels L)
      (state.image_depth, state.image_color) (state.image_depth, state.image_color) rfl rfl
    rw [hcov.1]
    have h' := congrArg (Option.map Prod.fst) h
    simp only [Option.map_map] at h'
    exact h'.symm

theorem same_raster_refl (state : driver_state) (tri : triangle) : same_raster state tri tri :=
  ⟨fun L hL => ⟨L, hL, same_coverage_refl L⟩, fun h => h, rfl⟩

theorem same_raster_trans {state : driver_state} {t1 t2 t3 : triangle}
    (h12 : same_raster state t1 t2) (h23 : same_raster state t2 t3) :
    same_raster state t1 t3 := by
  refine ⟨fun L hL => ?_, fun h => h23.2.1 (h12.2.1 h), h23.2.2.trans h12.2.2⟩
  obtain ⟨L2, hL2, c12⟩ := h12.1 L hL
  obtain ⟨L3, hL3, c23⟩ := h23.1 L2 hL2
  exact ⟨L3, hL3, same_coverage_trans c12 c23⟩

theorem same_raster_swap01 (state : driver_state) (tri : triangle) :
    same_raster state tri tri.swap01 := by
  refine same_raster_of_coverage state tri tri.swap01 (raster_setup_swap01 state tri) ?_
  intro hnone
  cases h : raster_setup state tri.swap01 with
  | none => rfl
  | some L' =>
    obtain ⟨L, hL, -⟩ := raster_setup_swap01 state tri.swap01 L' h
    have e : tri.swap01.swap01 = tri := rfl
    rw [e, hnone] at hL
    cases hL

theorem same_raster_swap12 (state : driver_state) (tri : triangle) :
    same_raster state tri tri.swap12 := by
  refine same_raster_of_coverage state tri tri.swap12 (raster_setup_swap12 state tri) ?_
  intro hnone
  cases h : raster_setup state tri.swap12 with
  | none => rfl
  | some L' =>
    obtain ⟨L, hL, -⟩ := raster_setup_swap12 state tri.swap12 L' h
    have e : tri.swap12.swap12 = tri := rfl
    rw [e, hnone] at hL
    cases hL
/-! ## Rounding to single precision -/

/-- The halving count brackets `n` between two consecutive powers of two. -/
theorem log2_fuel_spec : ∀ (fuel n : Nat), n ≤ fuel → n ≠ 0 →
    2 ^ log2_fuel fuel n ≤ n ∧ n < 2 ^ (log2_fuel fuel n + 1)
  | 0, n, h, h0 => absurd (Nat.le_zero.mp h) h0
  | fuel + 1, n, h, h0 => by
    unfold log2_fuel
    by_cases h2 : n < 2
    · rw [if_pos h2]
      have : n = 1 := by omega
      subst this
      exact ⟨by norm_num, by norm_num⟩
    · rw [if_neg h2]
      have hle : n / 2 ≤ fuel := by omega
      have hne : n / 2 ≠ 0 := by omega
      obtain ⟨ih1, ih2⟩ := log2_fuel_spec fuel (n / 2) hle hne
      constructor
      · rw [pow_succ]
        omega
      · rw [pow_succ]
        omega

theorem nat_log2_spec (n : Nat) (h : n ≠ 0) :
    2 ^ nat_log2 n ≤ n ∧ n < 2 ^ (nat_log2 n + 1) :=
  log2_fuel_spec n n (le_refl n) h

/-- The binary exponent brackets a positive rational between two consecutive
powers of two. -/
theorem ilog2_spec (q : ℚ) (hq : 0 < q) :
    (2 : ℚ) ^ ilog2 q ≤ q ∧ q < (2 : ℚ) ^ (ilog2 q + 1) := by
  have hnum : 0 < q.num := Rat.num_pos.mpr hq
  have hn0 : q.num.natAbs ≠ 0 := by
    intro h; rw [Int.natAbs_eq_zero] at h; omega
  have hd0 : q.den ≠ 0 := q.den_nz
  have hncast : ((q.num.natAbs : ℕ) : ℚ) = (q.num : ℚ) := by
    have h : ((q.num.natAbs : ℕ) : Int) = q.num := Int.natAbs_of_nonneg hnum.le
    rw [← Int.cast_natCast, h]
  have hq' : q = (q.num.natAbs : ℚ) / (q.den : ℚ) := by
    rw [hncast]; exact (Rat.num_div_den q).symm
  have hdpos : (0 : ℚ) < q.den := by exact_mod_cast q.den_pos
  have n1 : ((2 : ℚ) ^ (nat_log2 q.num.natAbs)) ≤ (q.num.natAbs : ℚ) := by
    exact_mod_cast (nat_log2_spec _ hn0).1
  have n2 : (q.num.natAbs : ℚ) < (2 : ℚ) ^ (nat_log2 q.num.natAbs + 1) := by
    exact_mod_cast (nat_log2_spec _ hn0).2
  have d1 : ((2 : ℚ) ^ (nat_log2 q.den)) ≤ (q.den : ℚ) := by
    exact_mod_cast (nat_log2_spec _ hd0).1
  have d2 : (q.den : ℚ) < (2 : ℚ) ^ (nat_log2 q.den + 1) := by
    exact_mod_cast (nat_log2_spec _ hd0).2
  have two : (2 : ℚ) ≠ 0 := by norm_num
  have e1 : (2 : ℚ) ^ ((nat_log2 q.num.natAbs : Int) - (nat_log2 q.den : Int))
      = (2 : ℚ) ^ (nat_log2 q.num.natAbs) / (2 : ℚ) ^ (nat_log2 q.den) := by
    rw [zpow_sub₀ two, zpow_natCast, zpow_natCast]
  have pa : (0 : ℚ) < (2 : ℚ) ^ (nat_log2 q.num.natAbs) := by positivity
  have pb : (0 : ℚ) < (2 : ℚ) ^ (nat_log2 q.den) := by positivity
  have lo : (2 : ℚ) ^ ((nat_log2 q.num.natAbs : Int) - (nat_log2 q.den : Int) - 1) ≤ q := by
    rw [zpow_sub₀ two, e1, zpow_one]
    refine le_of_le_of_eq ?_ hq'.symm
    rw [div_div, div_le_div_iff₀ (by positivity) hdpos]
    have : (q.den : ℚ) ≤ (2 : ℚ) ^ (nat_log2 q.den) * 2 := by
      rw [← pow_succ]; exact d2.le
    calc (2 : ℚ) ^ (nat_log2 q.num.natAbs) * (q.den : ℚ)
        ≤ (q.num.natAbs : ℚ) * (q.den : ℚ) := by
          exact mul_le_mul_of_nonneg_right n1 hdpos.le
      _ ≤ (q.num.natAbs : ℚ) * ((2 : ℚ) ^ (nat_log2 q.den) * 2) := by
          exact mul_le_mul_of_nonneg_left this (by positivity)
  have hi : q < (2 : ℚ) ^ ((nat_log2 q.num.natAbs : Int) - (nat_log2 q.den : Int) + 1) := by
    rw [zpow_add₀ two, e1, zpow_one]
    refine lt_of_eq_of_lt hq' ?_
    rw [div_mul_eq_mul_div, div_lt_div_iff₀ hdpos pb]
    have : (2 : ℚ) ^ (nat_log2 q.num.natAbs) * 2 = (2 : ℚ) ^ (nat_log2 q.num.natAbs + 1) := by
      rw [pow_succ]
    rw [this]
    calc (q.num.natAbs : ℚ) * (2 : ℚ) ^ (nat_log2 q.den)
        < (2 : ℚ) ^ (nat_log2 q.num.natAbs + 1) * (2 : ℚ) ^ (nat_log2 q.den) := by
          exact mul_lt_mul_of_pos_right n2 pb
      _ ≤ (2 : ℚ) ^ (nat_log2 q.num.natAbs + 1) * (q.den : ℚ) := by
          exact mul_le_mul_of_nonneg_left d1 (by positivity)
  unfold ilog2
  split
  · rename_i h
    refine ⟨lo, ?_⟩
    have : (nat_log2 q.num.natAbs : Int) - (nat_log2 q.den : Int) - 1 + 1
        = (nat_log2 q.num.natAbs : Int) - (nat_log2 q.den : Int) := by ring
    rw [this]; exact h
  · rename_i h
    exact ⟨not_lt.mp h, hi⟩

/-- The value `rne s` is `⌊s⌋` or `⌊s⌋ + 1`, within one half of `s`. -/
theorem rne_cases (s : ℚ) :
    (rne s = ⌊s⌋ ∧ s - ⌊s⌋ ≤ 1 / 2) ∨ (rne s = ⌊s⌋ + 1 ∧ 1 / 2 ≤ s - ⌊s⌋) := by
  unfold rne
  by_cases h1 : s - ⌊s⌋ < 1 / 2
  · rw [if_pos h1]; exact Or.inl ⟨rfl, h1.le⟩
  · rw [if_neg h1]
    by_cases h2 : 1 / 2 < s - ⌊s⌋
    · rw [if_pos h2]; exact Or.inr ⟨rfl, h2.le⟩
    · rw [if_neg h2]
      by_cases h3 : ⌊s⌋ % 2 = 0
      · rw [if_pos h3]; exact Or.inl ⟨rfl, not_lt.mp h2⟩
      · rw [if_neg h3]; exact Or.inr ⟨rfl, not_lt.mp h1⟩

/-- No integer is nearer to `s` than `rne s`. -/
theorem rne_nearest (s : ℚ) (j : Int) : |s - rne s| ≤ |s - j| := by
  have f1 : (⌊s⌋ : ℚ) ≤ s := Int.floor_le s
  have f2 : s < ⌊s⌋ + 1 := Int.lt_floor_add_one s
  have hj : j ≤ ⌊s⌋ ∨ ⌊s⌋ + 1 ≤ j := by omega
  have hjq : (j : ℚ) ≤ ⌊s⌋ ∨ ((⌊s⌋ : ℚ) + 1 ≤ j) := by
    rcases hj with h | h
    · exact Or.inl (by exact_mod_cast h)
    · exact Or.inr (by exact_mod_cast h)
  rcases rne_cases s with ⟨e, h⟩ | ⟨e, h⟩
  · rw [e, abs_of_nonneg (by linarith)]
    rcases hjq with hj | hj
    · rw [abs_of_nonneg (by linarith)]; linarith
    · rw [abs_of_nonpos (by linarith)]; linarith
  · rw [e]
    push_cast
    rw [abs_of_nonpos (by linarith)]
    rcases hjq with hj | hj
    · rw [abs_of_nonneg (by linarith)]; linarith
    · rw [abs_of_nonpos (by linarith)]; linarith

/-- Rounding to the nearest integer commutes with negation. -/
theorem rne_neg (s : ℚ) : rne (-s) = -rne s := by
  have f1 : (⌊s⌋ : ℚ) ≤ s := Int.floor_le s
  have f2 : s < ⌊s⌋ + 1 := Int.lt_floor_add_one s
  by_cases hint : s = ⌊s⌋
  · have hf : ⌊-s⌋ = -⌊s⌋ := by
      rw [hint, ← Int.cast_neg, Int.floor_intCast, Int.floor_intCast]
    have z1 : s - ⌊s⌋ = 0 := by linarith
    have z2 : -s - ⌊-s⌋ = 0 := by rw [hf]; push_cast; linarith
    unfold rne
    rw [if_pos (by rw [z2]; norm_num), if_pos (by rw [z1]; norm_num), hf]
  · have hlt : (⌊s⌋ : ℚ) < s := lt_of_le_of_ne f1 (fun h => hint h.symm)
    have hf : ⌊-s⌋ = -⌊s⌋ - 1 := by
      rw [Int.floor_eq_iff]
      push_cast
      constructor <;> linarith
    have hfrac : -s - ⌊-s⌋ = 1 - (s - ⌊s⌋) := by rw [hf]; push_cast; ring
    unfold rne
    rw [hfrac]
    by_cases h1 : s - ⌊s⌋ < 1 / 2
    · rw [if_pos h1, if_neg (by linarith), if_pos (by linarith), hf]
      ring
    · rw [if_neg h1]
      by_cases h2 : 1 / 2 < s - ⌊s⌋
      · rw [if_pos h2, if_pos (by linarith), hf]
        ring
      · rw [if_neg h2, if_neg (by linarith), if_neg (by linarith), hf]
        by_cases h3 : ⌊s⌋ % 2 = 0
        · rw [if_pos h3, if_neg (by omega)]
          ring
        · rw [if_neg h3, if_pos (by omega)]
          ring

theorem ulp_exp_ge (q : ℚ) : -149 ≤ ulp_exp q := le_max_right _ _

/-- Every multiple of the unit in the last place at `q` is at least as far from
`q` as `round32q q`. -/
theorem round32q_grid (q : ℚ) (hq : q ≠ 0) (j : Int) :
    |q - round32q q| ≤ |q - (j : ℚ) * (2 : ℚ) ^ ulp_exp q| := by
  have hP : (0 : ℚ) < (2 : ℚ) ^ ulp_exp q := by positivity
  have e1 : q - round32q q
      = (q / (2 : ℚ) ^ ulp_exp q - rne (q / (2 : ℚ) ^ ulp_exp q)) * (2 : ℚ) ^ ulp_exp q := by
    unfold round32q
    rw [if_neg hq, sub_mul, div_mul_cancel₀ _ hP.ne.symm]
  have e2 : q - (j : ℚ) * (2 : ℚ) ^ ulp_exp q
      = (q / (2 : ℚ) ^ ulp_exp q - j) * (2 : ℚ) ^ ulp_exp q := by
    rw [sub_mul, div_mul_cancel₀ _ hP.ne.symm]
  rw [e1, e2, abs_mul, abs_mul]
  exact mul_le_mul_of_nonneg_right (rne_nearest _ j) (abs_nonneg _)

/-- A multiple `m * 2^k` with `ulp_exp q ≤ k` is a multiple of the unit in the
last place at `q`. -/
theorem zpow_grid (m k e : Int) (h : e ≤ k) :
    ∃ j : Int, (m : ℚ) * (2 : ℚ) ^ k = (j : ℚ) * (2 : ℚ) ^ e := by
  refine ⟨m * 2 ^ (k - e).toNat, ?_⟩
  have hk : k = e + ((k - e).toNat : Int) := by
    rw [Int.toNat_of_nonneg (by omega)]; ring
  have two : (2 : ℚ) ≠ 0 := by norm_num
  conv_lhs => rw [hk]
  rw [zpow_add₀ two, zpow_natCast]
  push_cast
  ring

/-- No `float` (a multiple `m * 2^k` with `|m| ≤ 2^24` and `k ≥ -149`) is
nearer to `q` than `round32q q`. -/
theorem round32q_nearest (q : ℚ) (m k : Int) (hm : |m| ≤ 2 ^ 24) (hk : -149 ≤ k) :
    |q - round32q q| ≤ |q - (m : ℚ) * (2 : ℚ) ^ k| := by
  by_cases hq : q = 0
  · subst hq
    have : round32q 0 = 0 := by unfold round32q; rw [if_pos rfl]
    rw [this, sub_zero, abs_zero]
    exact abs_nonneg _
  by_cases hke : ulp_exp q ≤ k
  · obtain ⟨j, hj⟩ := zpow_grid m k (ulp_exp q) hke
    rw [hj]
    exact round32q_grid q hq j
  · have hke' : k < ulp_exp q := not_le.mp hke
    have he : ulp_exp q = ilog2 |q| - 23 := by
      unfold ulp_exp at hke' ⊢
      rcases max_cases (ilog2 |q| - 23) (-149) with ⟨h, _⟩ | ⟨h, _⟩
      · exact h
      · rw [h] at hke'; omega
    have habs : 0 < |q| := abs_pos.mpr hq
    have hlow : (2 : ℚ) ^ (ulp_exp q + 23) ≤ |q| := by
      have := (ilog2_spec |q| habs).1
      rw [he]
      have e : ilog2 |q| - 23 + 23 = ilog2 |q| := by ring
      rw [e]; exact this
    have two : (2 : ℚ) ≠ 0 := by norm_num
    have hP : (0 : ℚ) < (2 : ℚ) ^ ulp_exp q := by positivity
    have hg : (2 : ℚ) ^ (ulp_exp q + 23) = ((2 ^ 23 : Int) : ℚ) * (2 : ℚ) ^ ulp_exp q := by
      rw [zpow_add₀ two]
      push_cast
      rw [mul_comm]
      norm_cast
    have hmq : |(m : ℚ)| ≤ 2 ^ 24 := by
      have : ((|m| : Int) : ℚ) ≤ ((2 ^ 24 : Int) : ℚ) := by exact_mod_cast hm
      rw [Int.cast_abs] at this
      simpa using this
    have hpk : (2 : ℚ) ^ k * 2 ≤ (2 : ℚ) ^ ulp_exp q := by
      have h1 : (2 : ℚ) ^ (k + 1) ≤ (2 : ℚ) ^ ulp_exp q :=
        zpow_le_zpow_right₀ (by norm_num) (by omega)
      rwa [zpow_add₀ two, zpow_one] at h1
    have ha : |(m : ℚ) * (2 : ℚ) ^ k| ≤ (2 : ℚ) ^ (ulp_exp q + 23) := by
      rw [abs_mul, abs_of_pos (by positivity : (0 : ℚ) < (2 : ℚ) ^ k), hg]
      have hk0 : (0 : ℚ) < (2 : ℚ) ^ k := by positivity
      calc |(m : ℚ)| * (2 : ℚ) ^ k ≤ 2 ^ 24 * (2 : ℚ) ^ k :=
            mul_le_mul_of_nonneg_right hmq hk0.le
        _ = 2 ^ 23 * ((2 : ℚ) ^ k * 2) := by ring
        _ ≤ 2 ^ 23 * (2 : ℚ) ^ ulp_exp q :=
            mul_le_mul_of_nonneg_left hpk (by positivity)
        _ = ((2 ^ 23 : Int) : ℚ) * (2 : ℚ) ^ ulp_exp q := by norm_cast
    rcases lt_or_gt_of_ne hq with hneg | hpos
    · have hqa : |q| = -q := abs_of_neg hneg
      rw [hqa] at hlow
      have h1 := round32q_grid q hq (-(2 ^ 23 : Int))
      have h2 : -(2 : ℚ) ^ (ulp_exp q + 23) ≤ (m : ℚ) * (2 : ℚ) ^ k :=
        (abs_le.mp ha).1
      have e3 : ((-(2 ^ 23 : Int) : Int) : ℚ) * (2 : ℚ) ^ ulp_exp q
          = -(2 : ℚ) ^ (ulp_exp q + 23) := by
        rw [hg]; push_cast; ring
      rw [e3, abs_of_nonpos (a := q - -(2 : ℚ) ^ (ulp_exp q + 23)) (by linarith)] at h1
      rw [abs_of_nonpos (a := q - (m : ℚ) * (2 : ℚ) ^ k) (by linarith)]
      linarith
    · have hqa : |q| = q := abs_of_pos hpos
      rw [hqa] at hlow
      have h1 := round32q_grid q hq (2 ^ 23 : Int)
      have h2 : (m : ℚ) * (2 : ℚ) ^ k ≤ (2 : ℚ) ^ (ulp_exp q + 23) :=
        (abs_le.mp ha).2
      rw [← hg, abs_of_nonneg (a := q - (2 : ℚ) ^ (ulp_exp q + 23)) (by linarith)] at h1
      rw [abs_of_nonneg (a := q - (m : ℚ) * (2 : ℚ) ^ k) (by linarith)]
      linarith

/-- Rounding does not cross a `float`: an upper bound that is a `float` stays one. -/
theorem round32q_le (q : ℚ) (m k : Int) (hm : |m| ≤ 2 ^ 24) (hk : -149 ≤ k)
    (h : q ≤ (m : ℚ) * (2 : ℚ) ^ k) : round32q q ≤ (m : ℚ) * (2 : ℚ) ^ k := by
  by_contra hc
  have hc' := not_le.mp hc
  have h1 := round32q_nearest q m k hm hk
  rw [abs_of_nonpos (by linarith), abs_of_nonpos (by linarith)] at h1
  linarith

/-- Rounding does not cross a `float`: a lower bound that is a `float` stays one. -/
theorem le_round32q (q : ℚ) (m k : Int) (hm : |m| ≤ 2 ^ 24) (hk : -149 ≤ k)
    (h : (m : ℚ) * (2 : ℚ) ^ k ≤ q) : (m : ℚ) * (2 : ℚ) ^ k ≤ round32q q := by
  by_contra hc
  have hc' := not_le.mp hc
  have h1 := round32q_nearest q m k hm hk
  rw [abs_of_nonneg (by linarith), abs_of_nonneg (by linarith)] at h1
  linarith

/-- A `float` is its own rounding. -/
theorem round32q_exact (m k : Int) (hm : |m| ≤ 2 ^ 24) (hk : -149 ≤ k) :
    round32q ((m : ℚ) * (2 : ℚ) ^ k) = (m : ℚ) * (2 : ℚ) ^ k :=
  le_antisymm (round32q_le _ m k hm hk (le_refl _)) (le_round32q _ m k hm hk (le_refl _))

/-- Rounding to single precision commutes with negation. -/
theorem round32q_neg (q : ℚ) : round32q (-q) = -round32q q := by
  unfold round32q
  by_cases hq : q = 0
  · subst hq; simp
  · have hq' : -q ≠ 0 := neg_ne_zero.mpr hq
    have he : ulp_exp (-q) = ulp_exp q := by unfold ulp_exp; rw [abs_neg]
    rw [if_neg hq, if_neg hq', he, neg_div, rne_neg]
    push_cast
    ring

/-! ## The viewport transform in single precision -/

/-- A rounded value below the overflow threshold stays finite. -/
theorem Flt.round32_fin (q : ℚ) (h : |round32q q| < (2 : ℚ) ^ 128) :
    Flt.round32 (Flt.fin q) = Flt.fin (round32q q) := by
  show (if (2 : ℚ) ^ 128 ≤ |round32q q| then Flt.signed (decide (0 < q))
    else Flt.fin (round32q q)) = Flt.fin (round32q q)
  rw [if_neg (not_le.mpr h)]

/-- Rounding keeps a value between two `float`s of magnitude at most `B`. -/
theorem round32q_between (q : ℚ) (m1 k1 m2 k2 : Int)
    (hm1 : |m1| ≤ 2 ^ 24) (hk1 : -149 ≤ k1) (hm2 : |m2| ≤ 2 ^ 24) (hk2 : -149 ≤ k2)
    (h1 : (m1 : ℚ) * (2 : ℚ) ^ k1 ≤ q) (h2 : q ≤ (m2 : ℚ) * (2 : ℚ) ^ k2) :
    (m1 : ℚ) * (2 : ℚ) ^ k1 ≤ round32q q ∧ round32q q ≤ (m2 : ℚ) * (2 : ℚ) ^ k2 :=
  ⟨le_round32q q m1 k1 hm1 hk1 h1, round32q_le q m2 k2 hm2 hk2 h2⟩

/-- Rounding keeps a value between the halves `lo / 2` and `hi / 2` of two
integers of magnitude at most `2^24`. -/
theorem round32q_halves (q : ℚ) (lo hi : Int) (hlo : |lo| ≤ 2 ^ 24) (hhi : |hi| ≤ 2 ^ 24)
    (h1 : (lo : ℚ) / 2 ≤ q) (h2 : q ≤ (hi : ℚ) / 2) :
    (lo : ℚ) / 2 ≤ round32q q ∧ round32q q ≤ (hi : ℚ) / 2 := by
  have e : ∀ z : Int, (z : ℚ) / 2 = (z : ℚ) * (2 : ℚ) ^ (-1 : Int) := by
    intro z
    rw [zpow_neg, zpow_one, div_eq_mul_inv]
  rw [e lo] at h1 ⊢
  rw [e hi] at h2 ⊢
  exact round32q_between q lo (-1) hi (-1) hlo (by norm_num) hhi (by norm_num) h1 h2

/-- Half an integer of magnitude at most `2^24` is a `float`. -/
theorem round32q_half_int (z : Int) (hz : |z| ≤ 2 ^ 24) :
    round32q ((z : ℚ) / 2) = (z : ℚ) / 2 := by
  have h := round32q_halves ((z : ℚ) / 2) z z hz hz (le_refl _) (le_refl _)
  exact le_antisymm h.2 h.1

/-- An integer of magnitude at most `2^24` is a `float`. -/
theorem round32q_int (z : Int) (hz : |z| ≤ 2 ^ 24) : round32q (z : ℚ) = (z : ℚ) := by
  have h := round32q_exact z 0 hz (by norm_num)
  rwa [zpow_zero, mul_one] at h

/-- A bound by `2^24` on a rational is below the overflow threshold. -/
theorem lt_overflow_of_le (r B : ℚ) (h : |r| ≤ B) (hB : B ≤ 2 ^ 24) :
    |r| < (2 : ℚ) ^ 128 := by
  have : (2 : ℚ) ^ 24 < 2 ^ 128 := by norm_num
  linarith

/-- Lines 92-93 in single precision: half of a size up to `2^24` is exact. -/
theorem half32_eq (size : Int) (hs : 0 < size) (hs' : size ≤ 2 ^ 24) :
    half32 size = Flt.fin ((size : ℚ) / 2) := by
  have hz : |size| ≤ 2 ^ 24 := by rw [abs_of_pos hs]; exact hs'
  have hq : |(size : ℚ)| ≤ 2 ^ 24 := by
    rw [abs_of_pos (by exact_mod_cast hs)]
    exact_mod_cast hs'
  have hq2 : |(size : ℚ) / 2| ≤ 2 ^ 24 := by
    rw [abs_div, abs_of_pos (by norm_num : (0 : ℚ) < 2)]
    linarith [abs_nonneg (size : ℚ)]
  have o1 : |round32q (size : ℚ)| < (2 : ℚ) ^ 128 := by
    rw [round32q_int _ hz]
    exact lt_overflow_of_le _ _ hq (le_refl _)
  have o2 : |round32q ((size : ℚ) / 2)| < (2 : ℚ) ^ 128 := by
    rw [round32q_half_int _ hz]
    exact lt_overflow_of_le _ _ hq2 (le_refl _)
  unfold half32 Flt.ofInt32 Flt.div32
  rw [Flt.ofInt_eq, Flt.round32_fin _ o1, round32q_int _ hz,
    Flt.fin_div_fin _ _ (by norm_num), Flt.round32_fin _ o2, round32q_half_int _ hz]

/-- For a size up to `2^23`, `w > 0` and `-w ≤ c ≤ w`, the single-precision
viewport transform yields a coordinate on the grid. -/
theorem to_screen32_bounds (size : Int) (c w : ℚ) (hs : 0 < size) (hs' : size ≤ 2 ^ 23)
    (hw : 0 < w) (h1 : -w ≤ c) (h2 : c ≤ w) :
    ∃ x : Int, to_screen32 (half32 size) c w = some x ∧ 0 ≤ x ∧ x ≤ size - 1 := by
  have hsq : (0 : ℚ) < size := by exact_mod_cast hs
  have hsq' : (size : ℚ) ≤ 2 ^ 23 := by exact_mod_cast hs'
  have hz : |size| ≤ 2 ^ 24 := by rw [abs_of_pos hs]; omega
  have hzn : |(-size : Int)| ≤ 2 ^ 24 := by rw [abs_neg]; exact hz
  -- the quotient
  have hn1 : -1 ≤ c / w := by rw [le_div_iff₀ hw]; linarith
  have hn2 : c / w ≤ 1 := by rw [div_le_iff₀ hw]; linarith
  obtain ⟨r1, r2⟩ := round32q_between (c / w) (-1) 0 1 0 (by norm_num) (by norm_num)
    (by norm_num) (by norm_num) (by simpa using hn1) (by simpa using hn2)
  simp only [Int.reduceNeg, Int.cast_neg, Int.cast_one, zpow_zero, mul_one] at r1 r2
  have hr : |round32q (c / w)| ≤ 1 := abs_le.mpr ⟨r1, r2⟩
  -- the product
  have hp1 : ((-size : Int) : ℚ) / 2 ≤ (size : ℚ) / 2 * round32q (c / w) := by
    push_cast; nlinarith
  have hp2 : (size : ℚ) / 2 * round32q (c / w) ≤ (size : ℚ) / 2 := by nlinarith
  obtain ⟨p1, p2⟩ := round32q_halves _ (-size) size hzn hz hp1 hp2
  push_cast at p1
  have hp : |round32q ((size : ℚ) / 2 * round32q (c / w))| ≤ (size : ℚ) / 2 :=
    abs_le.mpr ⟨by linarith, p2⟩
  -- the offset
  have hz1 : |size - 1| ≤ 2 ^ 24 := by rw [abs_of_nonneg (by omega)]; omega
  have ho : round32q ((size : ℚ) / 2 - 1 / 2) = (size : ℚ) / 2 - 1 / 2 := by
    have h := round32q_half_int (size - 1) hz1
    push_cast at h
    have e : ((size : ℚ) - 1) / 2 = (size : ℚ) / 2 - 1 / 2 := by ring
    rwa [e] at h
  have hoabs : |(size : ℚ) / 2 - 1 / 2| ≤ 2 ^ 24 := by
    rw [abs_le]; constructor <;> linarith
  -- the sum
  have hz2 : |2 * size - 1| ≤ 2 ^ 24 := by rw [abs_of_nonneg (by omega)]; omega
  have hs1 : ((-1 : Int) : ℚ) / 2
      ≤ round32q ((size : ℚ) / 2 * round32q (c / w)) + ((size : ℚ) / 2 - 1 / 2) := by
    push_cast; linarith
  have hs2 : round32q ((size : ℚ) / 2 * round32q (c / w)) + ((size : ℚ) / 2 - 1 / 2)
      ≤ ((2 * size - 1 : Int) : ℚ) / 2 := by
    push_cast; linarith
  obtain ⟨s1, s2⟩ := round32q_halves _ (-1) (2 * size - 1) (by norm_num) hz2 hs1 hs2
  push_cast at s1 s2
  have hsabs : |round32q (round32q ((size : ℚ) / 2 * round32q (c / w))
      + ((size : ℚ) / 2 - 1 / 2))| ≤ 2 ^ 24 := by
    rw [abs_le]; constructor <;> linarith
  have o3 : |round32q ((size : ℚ) / 2 - 1 / 2)| < (2 : ℚ) ^ 128 := by
    rw [ho]
    exact lt_overflow_of_le _ _ hoabs (le_refl _)
  refine ⟨Flt.trunc (round32q (round32q ((size : ℚ) / 2 * round32q (c / w))
      + ((size : ℚ) / 2 - 1 / 2))), ?_, ?_⟩
  · unfold to_screen32 Flt.add32 Flt.mul32 Flt.div32 Flt.sub32
    rw [half32_eq size hs (by omega), Flt.fin_div_fin _ _ (ne_of_gt hw),
      Flt.round32_fin _ (lt_overflow_of_le _ _ hr (by norm_num)), Flt.fin_mul_fin,
      Flt.round32_fin _ (lt_overflow_of_le _ _ hp (by linarith)), Flt.fin_sub_fin,
      Flt.round32_fin _ o3, ho,
      Flt.fin_add_fin, Flt.round32_fin _ (lt_overflow_of_le _ _ hsabs (le_refl _))]
    rfl
  · exact Flt.trunc_bounds _ size hs (by linarith) (by linarith)

/-- The three conversions behind the screen coordinates of one vertex. -/
theorem screen_vertex32_some (state : driver_state) (g : data_geometry) (p : Int × Int × Int)
    (h : screen_vertex32 state g = some p) :
    to_screen32 (half32 state.image_width) g.gl_Position.c0 g.gl_Position.c3 = some p.1
      ∧ to_screen32 (half32 state.image_height) g.gl_Position.c1 g.gl_Position.c3 = some p.2.1
      ∧ to_screen32 (half32 state.image_width) g.gl_Position.c2 g.gl_Position.c3
          = some p.2.2 := by
  unfold screen_vertex32 at h
  cases h1 : to_screen32 (half32 state.image_width) g.gl_Position.c0 g.gl_Position.c3 with
  | none => rw [h1] at h; cases h
  | some i =>
    cases h2 : to_screen32 (half32 state.image_height) g.gl_Position.c1 g.gl_Position.c3 with
    | none => rw [h1, h2] at h; cases h
    | some j =>
      cases h3 : to_screen32 (half32 state.image_width) g.gl_Position.c2 g.gl_Position.c3 with
      | none => rw [h1, h2, h3] at h; cases h
      | some k =>
        rw [h1, h2, h3] at h
        simp only [Option.some.injEq] at h
        subst h
        exact ⟨rfl, rfl, rfl⟩

/-- The screen coordinates of a vertex whose three conversions are defined. -/
theorem screen_vertex32_of_some (state : driver_state) (g : data_geometry) (i j k : Int)
    (h1 : to_screen32 (half32 state.image_width) g.gl_Position.c0 g.gl_Position.c3 = some i)
    (h2 : to_screen32 (half32 state.image_height) g.gl_Position.c1 g.gl_Position.c3 = some j)
    (h3 : to_screen32 (half32 state.image_width) g.gl_Position.c2 g.gl_Position.c3 = some k) :
    screen_vertex32 state g = some (i, j, k) := by
  unfold screen_vertex32
  rw [h1, h2, h3]

/-- The locals of a successful single-precision setup are the box of the three
screen vertices. -/
theorem raster_setup32_some (state : driver_state) (tri : triangle) (L : raster_locals)
    (h : raster_setup32 state tri = some L) :
    ∃ p0 p1 p2 : Int × Int × Int, screen_vertex32 state tri.v0 = some p0
      ∧ screen_vertex32 state tri.v1 = some p1 ∧ screen_vertex32 state tri.v2 = some p2
      ∧ L = raster_box32 state p0 p1 p2 := by
  unfold raster_setup32 at h
  cases h0 : screen_vertex32 state tri.v0 with
  | none => rw [h0] at h; cases h
  | some p0 =>
    cases h1 : screen_vertex32 state tri.v1 with
    | none => rw [h0, h1] at h; cases h
    | some p1 =>
      cases h2 : screen_vertex32 state tri.v2 with
      | none => rw [h0, h1, h2] at h; cases h
      | some p2 =>
        rw [h0, h1, h2] at h
        simp only [Option.some.injEq] at h
        exact ⟨p0, p1, p2, rfl, rfl, rfl, h.symm⟩

/-- The single-precision setup of a triangle whose three vertices have screen coordinates. -/
theorem raster_setup32_of_some (state : driver_state) (tri : triangle)
    (p0 p1 p2 : Int × Int × Int) (h0 : screen_vertex32 state tri.v0 = some p0)
    (h1 : screen_vertex32 state tri.v1 = some p1) (h2 : screen_vertex32 state tri.v2 = some p2) :
    raster_setup32 state tri = some (raster_box32 state p0 p1 p2) := by
  unfold raster_setup32
  rw [h0, h1, h2]

/-- C16, amended: in single precision, for a positive width and height of at
most `2^23`, every vertex with `w > 0`, `-w ≤ x ≤ w` and `-w ≤ y ≤ w` has
screen coordinates with `0 ≤ screen_x ≤ width - 1` and `0 ≤ screen_y ≤ height - 1`;
for a triangle of such vertices the bounding box is the plain minimum and maximum
of the screen coordinates (the off-grid checks change nothing) and lies on the
grid, and when the vertices also satisfy `-w ≤ z ≤ w` the setup is defined. -/
theorem view_volume_on_grid32 (state : driver_state)
    (hW : 0 < state.image_width) (hW' : state.image_width ≤ 2 ^ 23)
    (hH : 0 < state.image_height) (hH' : state.image_height ≤ 2 ^ 23) :
    (∀ g : data_geometry, in_view_xy g →
      ∃ x y : Int,
        to_screen32 (half32 state.image_width) g.gl_Position.c0 g.gl_Position.c3 = some x
        ∧ to_screen32 (half32 state.image_height) g.gl_Position.c1 g.gl_Position.c3 = some y
        ∧ 0 ≤ x ∧ x ≤ state.image_width - 1 ∧ 0 ≤ y ∧ y ≤ state.image_height - 1)
    ∧ ∀ tri : triangle, in_view_xy tri.v0 → in_view_xy tri.v1 → in_view_xy tri.v2 →
      (∀ L : raster_locals, raster_setup32 state tri = some L →
        (0 ≤ L.x0 ∧ L.x0 ≤ state.image_width - 1)
        ∧ (0 ≤ L.x1 ∧ L.x1 ≤ state.image_width - 1)
        ∧ (0 ≤ L.x2 ∧ L.x2 ≤ state.image_width - 1)
        ∧ (0 ≤ L.y0 ∧ L.y0 ≤ state.image_height - 1)
        ∧ (0 ≤ L.y1 ∧ L.y1 ≤ state.image_height - 1)
        ∧ (0 ≤ L.y2 ∧ L.y2 ≤ state.image_height - 1)
        ∧ L.min_x = min (min L.x0 L.x1) L.x2 ∧ L.max_x = max (max L.x0 L.x1) L.x2
        ∧ L.min_y = min (min L.y0 L.y1) L.y2 ∧ L.max_y = max (max L.y0 L.y1) L.y2)
      ∧ (inside_all_planes tri.v0 → inside_all_planes tri.v1 → inside_all_planes tri.v2 →
          ∃ L : raster_locals, raster_setup32 state tri = some L) := by
  have vert : ∀ g : data_geometry, in_view_xy g →
      ∃ x y : Int,
        to_screen32 (half32 state.image_width) g.gl_Position.c0 g.gl_Position.c3 = some x
        ∧ to_screen32 (half32 state.image_height) g.gl_Position.c1 g.gl_Position.c3 = some y
        ∧ 0 ≤ x ∧ x ≤ state.image_width - 1 ∧ 0 ≤ y ∧ y ≤ state.image_height - 1 := by
    intro g hg
    obtain ⟨hw, a, b, c, d⟩ := hg
    obtain ⟨x, hx, x1, x2⟩ := to_screen32_bounds _ _ _ hW hW' hw a b
    obtain ⟨y, hy, y1, y2⟩ := to_screen32_bounds _ _ _ hH hH' hw c d
    exact ⟨x, y, hx, hy, x1, x2, y1, y2⟩
  have vert' : ∀ (g : data_geometry) (p : Int × Int × Int), in_view_xy g →
      screen_vertex32 state g = some p →
      (0 ≤ p.1 ∧ p.1 ≤ state.image_width - 1) ∧ (0 ≤ p.2.1 ∧ p.2.1 ≤ state.image_height - 1) := by
    intro g p hg hp
    obtain ⟨x, y, hx, hy, x1, x2, y1, y2⟩ := vert g hg
    obtain ⟨e1, e2, -⟩ := screen_vertex32_some state g p hp
    rw [hx] at e1
    rw [hy] at e2
    simp only [Option.some.injEq] at e1 e2
    rw [← e1, ← e2]
    exact ⟨⟨x1, x2⟩, ⟨y1, y2⟩⟩
  have full : ∀ g : data_geometry, in_view_xy g → inside_all_planes g →
      ∃ p, screen_vertex32 state g = some p := by
    intro g hg hz
    obtain ⟨hw, a, b, c, d⟩ := hg
    obtain ⟨x, hx, -, -⟩ := to_screen32_bounds _ _ _ hW hW' hw a b
    obtain ⟨y, hy, -, -⟩ := to_screen32_bounds _ _ _ hH hH' hw c d
    obtain ⟨z, hz', -, -⟩ := to_screen32_bounds _ _ _ hW hW' hw hz.2.2.2.2.1 hz.2.2.2.2.2
    exact ⟨_, screen_vertex32_of_some state g x y z hx hy hz'⟩
  refine ⟨vert, fun tri hv0 hv1 hv2 => ⟨fun L hL => ?_, fun hz0 hz1 hz2 => ?_⟩⟩
  · obtain ⟨p0, p1, p2, h0, h1, h2, rfl⟩ := raster_setup32_some state tri L hL
    obtain ⟨bx0, by0⟩ := vert' _ _ hv0 h0
    obtain ⟨bx1, by1⟩ := vert' _ _ hv1 h1
    obtain ⟨bx2, by2⟩ := vert' _ _ hv2 h2
    refine ⟨bx0, bx1, bx2, by0, by1, by2, ?_, ?_, ?_, ?_⟩
    · show (if min (min p0.1 p1.1) p2.1 < 0 then 0 else min (min p0.1 p1.1) p2.1) = _
      rw [if_neg]
      · rfl
      · have := le_min (le_min bx0.1 bx1.1) bx2.1
        omega
    · show (if max (max p0.1 p1.1) p2.1 > state.image_width then state.image_width - 1
        else max (max p0.1 p1.1) p2.1) = _
      rw [if_neg]
      · rfl
      · have := max_le (max_le bx0.2 bx1.2) bx2.2
        omega
    · show (if min (min p0.2.1 p1.2.1) p2.2.1 < 0 then 0 else min (min p0.2.1 p1.2.1) p2.2.1) = _
      rw [if_neg]
      · rfl
      · have := le_min (le_min by0.1 by1.1) by2.1
        omega
    · show (if max (max p0.2.1 p1.2.1) p2.2.1 > state.image_height then state.image_height - 1
        else max (max p0.2.1 p1.2.1) p2.2.1) = _
      rw [if_neg]
      · rfl
      · have := max_le (max_le by0.2 by1.2) by2.2
        omega
  · obtain ⟨p0, h0⟩ := full _ hv0 hz0
    obtain ⟨p1, h1⟩ := full _ hv1 hz1
    obtain ⟨p2, h2⟩ := full _ hv2 hz2
    exact ⟨_, raster_setup32_of_some state tri p0 p1 p2 h0 h1 h2⟩

/-- Witness of `view_volume_on_grid32`: `near_triangle` on a fresh 2×2 buffer. -/
theorem view_volume_on_grid32_witness :
    (∃ x y : Int,
      to_screen32 (half32 2) near_triangle.v1.gl_Position.c0 near_triangle.v1.gl_Position.c3
          = some x
        ∧ to_screen32 (half32 2) near_triangle.v1.gl_Position.c1
            near_triangle.v1.gl_Position.c3 = some y
        ∧ 0 ≤ x ∧ x ≤ 2 - 1 ∧ 0 ≤ y ∧ y ≤ 2 - 1)
    ∧ ∃ L : raster_locals,
        raster_setup32 (sample_state [interp_type.flat] 0 2 2) near_triangle = some L
        ∧ L.min_x = min (min L.x0 L.x1) L.x2 ∧ L.max_x = max (max L.x0 L.x1) L.x2
        ∧ L.min_y = min (min L.y0 L.y1) L.y2 ∧ L.max_y = max (max L.y0 L.y1) L.y2 := by
  have hv : in_view_xy near_triangle.v0 ∧ in_view_xy near_triangle.v1
      ∧ in_view_xy near_triangle.v2 := by
    simp only [in_view_xy, near_triangle, vertex]
    norm_num
  have hz : inside_all_planes near_triangle.v0 ∧ inside_all_planes near_triangle.v1
      ∧ inside_all_planes near_triangle.v2 := by
    simp only [inside_all_planes, near_triangle, vertex]
    norm_num
  have h := view_volume_on_grid32 (sample_state [interp_type.flat] 0 2 2)
    (by decide) (by decide) (by decide) (by decide)
  obtain ⟨hbox, hex⟩ := h.2 near_triangle hv.1 hv.2.1 hv.2.2
  obtain ⟨L, hL⟩ := hex hz.1 hz.2.1 hz.2.2
  obtain ⟨-, -, -, -, -, -, m1, m2, m3, m4⟩ := hbox L hL
  exact ⟨h.1 near_triangle.v1 hv.2.1, L, hL, m1, m2, m3, m4⟩

/-! ## Reordering the vertices in single precision -/

theorem Flt.round32_neg (x : Flt) : Flt.round32 (Flt.neg x) = Flt.neg (Flt.round32 x) := by
  cases x with
  | fin q =>
    show (if (2 : ℚ) ^ 128 ≤ |round32q (-q)| then Flt.signed (decide (0 < -q))
        else Flt.fin (round32q (-q)))
      = Flt.neg (if (2 : ℚ) ^ 128 ≤ |round32q q| then Flt.signed (decide (0 < q))
        else Flt.fin (round32q q))
    rw [round32q_neg, abs_neg]
    by_cases h : (2 : ℚ) ^ 128 ≤ |round32q q|
    · rw [if_pos h, if_pos h]
      have hq : q ≠ 0 := by
        intro h0
        subst h0
        have : round32q 0 = 0 := by unfold round32q; rw [if_pos rfl]
        rw [this, abs_zero] at h
        norm_num at h
      rcases lt_or_gt_of_ne hq with hneg | hpos
      · have h1 : ¬ (0 < q) := not_lt.mpr hneg.le
        have h2 : 0 < -q := by linarith
        simp [Flt.signed, h1, h2, Flt.neg]
      · have h1 : 0 < q := hpos
        have h2 : ¬ (0 < -q) := by linarith
        simp [Flt.signed, h1, h2, Flt.neg]
    · rw [if_neg h, if_neg h]
      rfl
  | pinf => rfl
  | ninf => rfl
  | nan => rfl

theorem Flt.ofInt_neg (n : Int) : Flt.ofInt (-n) = Flt.neg (Flt.ofInt n) := by
  unfold Flt.ofInt
  show Flt.fin ((-n : Int) : ℚ) = Flt.fin (-(n : ℚ))
  rw [Int.cast_neg]

theorem Flt.half_mul_neg (x : Flt) :
    Flt.fin (1 / 2) * Flt.neg x = Flt.neg (Flt.fin (1 / 2) * x) := by
  cases x with
  | fin q =>
    show Flt.fin (1 / 2 * -q) = Flt.fin (-(1 / 2 * q))
    rw [mul_neg]
  | pinf =>
    show (if (1 / 2 : ℚ) = 0 then Flt.nan else Flt.signed (decide ((1 / 2 : ℚ) < 0)))
      = Flt.neg (if (1 / 2 : ℚ) = 0 then Flt.nan else Flt.signed (decide ((0 : ℚ) < 1 / 2)))
    rw [if_neg (by norm_num), if_neg (by norm_num),
      decide_eq_false (by norm_num : ¬ ((1 / 2 : ℚ) < 0)),
      decide_eq_true (by norm_num : (0 : ℚ) < 1 / 2)]
    rfl
  | ninf =>
    show (if (1 / 2 : ℚ) = 0 then Flt.nan else Flt.signed (decide ((0 : ℚ) < 1 / 2)))
      = Flt.neg (if (1 / 2 : ℚ) = 0 then Flt.nan else Flt.signed (decide ((1 / 2 : ℚ) < 0)))
    rw [if_neg (by norm_num), if_neg (by norm_num),
      decide_eq_false (by norm_num : ¬ ((1 / 2 : ℚ) < 0)),
      decide_eq_true (by norm_num : (0 : ℚ) < 1 / 2)]
    rfl
  | nan => rfl

/-- Negating dividend and divisor leaves the quotient, for a divisor other than zero. -/
theorem Flt.neg_div_neg (x y : Flt) (hy : y ≠ Flt.fin 0) :
    Flt.neg x / Flt.neg y = x / y := by
  cases x with
  | fin a =>
    cases y with
    | fin b =>
      have hb : b ≠ 0 := fun h => hy (by rw [h])
      show Flt.fin (-a) / Flt.fin (-b) = Flt.fin a / Flt.fin b
      rw [Flt.fin_div_fin _ _ (neg_ne_zero.mpr hb), Flt.fin_div_fin _ _ hb, neg_div_neg_eq]
    | pinf => rfl
    | ninf => rfl
    | nan => rfl
  | pinf =>
    cases y with
    | fin b =>
      have hb : b ≠ 0 := fun h => hy (by rw [h])
      show Flt.signed (decide (-b < 0)) = Flt.signed (decide (0 ≤ b))
      congr 1
      rw [decide_eq_decide]
      constructor
      · intro h; linarith
      · intro h
        have : 0 < b := lt_of_le_of_ne h (fun e => hb e.symm)
        linarith
    | pinf => rfl
    | ninf => rfl
    | nan => rfl
  | ninf =>
    cases y with
    | fin b =>
      have hb : b ≠ 0 := fun h => hy (by rw [h])
      show Flt.signed (decide (0 ≤ -b)) = Flt.signed (decide (b < 0))
      congr 1
      rw [decide_eq_decide]
      constructor
      · intro h
        have : b ≤ 0 := by linarith
        exact lt_of_le_of_ne this hb
      · intro h; linarith
    | pinf => rfl
    | ninf => rfl
    | nan => rfl
  | nan =>
    cases y <;> rfl

/-- The single-precision half of the negated integer is the negated half. -/
theorem half_ofInt32_neg (n : Int) :
    Flt.mul32 (Flt.fin (1 / 2)) (Flt.ofInt32 (-n))
      = Flt.neg (Flt.mul32 (Flt.fin (1 / 2)) (Flt.ofInt32 n)) := by
  unfold Flt.mul32 Flt.ofInt32
  rw [Flt.ofInt_neg, Flt.round32_neg, Flt.half_mul_neg, Flt.round32_neg]

/-- The single-precision half of a positive integer is positive. -/
theorem half_ofInt32_pos (n : Int) (h : 0 < n) :
    Flt.mul32 (Flt.fin (1 / 2)) (Flt.ofInt32 n) = Flt.pinf
      ∨ ∃ x : ℚ, 0 < x ∧ Flt.mul32 (Flt.fin (1 / 2)) (Flt.ofInt32 n) = Flt.fin x := by
  have hn : (1 : ℚ) ≤ (n : ℚ) := by exact_mod_cast h
  have hnpos : (0 : ℚ) < (n : ℚ) := by linarith
  have hr : (1 : ℚ) ≤ round32q (n : ℚ) := by
    have := le_round32q (n : ℚ) 1 0 (by norm_num) (by norm_num) (by simpa using hn)
    simpa using this
  have hpinf : Flt.round32 (Flt.fin (1 / 2) * Flt.pinf) = Flt.pinf := by
    show Flt.round32 (if (1 / 2 : ℚ) = 0 then Flt.nan
      else Flt.signed (decide ((0 : ℚ) < 1 / 2))) = Flt.pinf
    rw [if_neg (by norm_num), decide_eq_true (by norm_num : (0 : ℚ) < 1 / 2)]
    rfl
  unfold Flt.mul32 Flt.ofInt32
  rw [Flt.ofInt_eq]
  by_cases h1 : (2 : ℚ) ^ 128 ≤ |round32q (n : ℚ)|
  · have e : Flt.round32 (Flt.fin (n : ℚ)) = Flt.pinf := by
      show (if (2 : ℚ) ^ 128 ≤ |round32q (n : ℚ)| then Flt.signed (decide (0 < (n : ℚ)))
        else Flt.fin (round32q (n : ℚ))) = Flt.pinf
      rw [if_pos h1, decide_eq_true hnpos]
      rfl
    rw [e]
    exact Or.inl hpinf
  · rw [Flt.round32_fin _ (not_le.mp h1), Flt.fin_mul_fin]
    have hhalf : (1 : ℚ) / 2 ≤ 1 / 2 * round32q (n : ℚ) := by linarith
    have hr2 : (1 : ℚ) / 2 ≤ round32q (1 / 2 * round32q (n : ℚ)) := by
      have := le_round32q (1 / 2 * round32q (n : ℚ)) 1 (-1) (by norm_num) (by norm_num)
        (by rw [zpow_neg, zpow_one]; simpa using hhalf)
      rw [zpow_neg, zpow_one] at this
      simpa using this
    by_cases h2 : (2 : ℚ) ^ 128 ≤ |round32q (1 / 2 * round32q (n : ℚ))|
    · left
      show (if (2 : ℚ) ^ 128 ≤ |round32q (1 / 2 * round32q (n : ℚ))|
        then Flt.signed (decide (0 < 1 / 2 * round32q (n : ℚ)))
        else Flt.fin (round32q (1 / 2 * round32q (n : ℚ)))) = Flt.pinf
      rw [if_pos h2, decide_eq_true (by linarith)]
      rfl
    · right
      exact ⟨_, by linarith, Flt.round32_fin _ (not_le.mp h2)⟩

/-- The single-precision half of zero is zero. -/
theorem half_ofInt32_zero : Flt.mul32 (Flt.fin (1 / 2)) (Flt.ofInt32 0) = Flt.fin 0 := by
  decide!

/-- The single-precision half of a non-zero integer is not zero. -/
theorem half_ofInt32_ne_zero (n : Int) (h : n ≠ 0) :
    Flt.mul32 (Flt.fin (1 / 2)) (Flt.ofInt32 n) ≠ Flt.fin 0 := by
  rcases lt_or_gt_of_ne h with hneg | hpos
  · have e : n = -(-n) := by ring
    rw [e, half_ofInt32_neg]
    rcases half_ofInt32_pos (-n) (by omega) with hp | ⟨x, hx, hp⟩
    · rw [hp]
      intro hc
      cases hc
    · rw [hp]
      intro hc
      have : -x = 0 := by
        have h' : Flt.fin (-x) = Flt.fin 0 := hc
        injection h'
      linarith
  · rcases half_ofInt32_pos n hpos with hp | ⟨x, hx, hp⟩
    · rw [hp]
      intro hc
      cases hc
    · rw [hp]
      intro hc
      injection hc with hc
      linarith

/-- With a zero divisor, a weight passes `>= 0` only for a positive edge function. -/
theorem edge32_zero_area (n : Int)
    (h : (Flt.div32 (Flt.mul32 (Flt.fin (1 / 2)) (Flt.ofInt32 n)) (Flt.fin 0)).ge (Flt.fin 0)
      = true) : 0 < n := by
  by_contra hc
  have hn : n ≤ 0 := not_lt.mp hc
  rcases eq_or_lt_of_le hn with h0 | hneg
  · rw [h0, half_ofInt32_zero] at h
    have e : Flt.div32 (Flt.fin 0) (Flt.fin 0) = Flt.nan := by decide!
    rw [e] at h
    cases h
  · have e : n = -(-n) := by ring
    rw [e, half_ofInt32_neg] at h
    rcases half_ofInt32_pos (-n) (by omega) with hp | ⟨x, hx, hp⟩
    · rw [hp] at h
      have e2 : Flt.div32 (Flt.neg Flt.pinf) (Flt.fin 0) = Flt.ninf := by decide!
      rw [e2] at h
      cases h
    · rw [hp] at h
      have e2 : Flt.div32 (Flt.neg (Flt.fin x)) (Flt.fin 0) = Flt.ninf := by
        show Flt.round32 (if (0 : ℚ) = 0
          then (if -x = 0 then Flt.nan else Flt.signed (decide (0 < -x)))
          else Flt.fin (-x / 0)) = Flt.ninf
        rw [if_pos rfl, if_neg (by linarith), decide_eq_false (by linarith)]
        rfl
      rw [e2] at h
      cases h

/-- Negating edge function and shoelace value leaves the single-precision weight. -/
theorem edge32_flip (n n' S S' : Int) (hn : n' = -n) (hS : S' = -S) (hS0 : S ≠ 0) :
    Flt.div32 (Flt.mul32 (Flt.fin (1 / 2)) (Flt.ofInt32 n'))
        (Flt.mul32 (Flt.fin (1 / 2)) (Flt.ofInt32 S'))
      = Flt.div32 (Flt.mul32 (Flt.fin (1 / 2)) (Flt.ofInt32 n))
        (Flt.mul32 (Flt.fin (1 / 2)) (Flt.ofInt32 S)) := by
  subst hn hS
  rw [half_ofInt32_neg, half_ofInt32_neg]
  unfold Flt.div32
  rw [Flt.neg_div_neg _ _ (half_ofInt32_ne_zero S hS0)]

/-- In single precision a triangle whose shoelace value is zero covers no pixel. -/
theorem inside_test32_zero_area (L : raster_locals)
    (hA : L.area_ABC = Flt.mul32 (Flt.fin (1 / 2))
      (Flt.ofInt32 ((L.x1 * L.y2 - L.x2 * L.y1) - (L.x0 * L.y2 - L.x2 * L.y0)
        + (L.x0 * L.y1 - L.x1 * L.y0))))
    (hS : (L.x1 * L.y2 - L.x2 * L.y1) - (L.x0 * L.y2 - L.x2 * L.y0)
      + (L.x0 * L.y1 - L.x1 * L.y0) = 0) (i j : Int) :
    inside_test32 L i j = false := by
  rw [hS, half_ofInt32_zero] at hA
  cases hin : inside_test32 L i j with
  | false => rfl
  | true =>
    unfold inside_test32 bary_alpha32 bary_beta32 bary_gamma32 at hin
    rw [hA] at hin
    simp only [Bool.and_eq_true] at hin
    have ha := edge32_zero_area _ hin.1.1
    have hb := edge32_zero_area _ hin.1.2
    have hc := edge32_zero_area _ hin.2
    exfalso
    have hsum : ((L.x1 * L.y2 - L.x2 * L.y1) + (L.y1 - L.y2) * i + (L.x2 - L.x1) * j)
        + ((L.x2 * L.y0 - L.x0 * L.y2) + (L.y2 - L.y0) * i + (L.x0 - L.x2) * j)
        + ((L.x0 * L.y1 - L.x1 * L.y0) + (L.y0 - L.y1) * i + (L.x1 - L.x0) * j)
        = (L.x1 * L.y2 - L.x2 * L.y1) - (L.x0 * L.y2 - L.x2 * L.y0)
          + (L.x0 * L.y1 - L.x1 * L.y0) := by ring
    rw [hS] at hsum
    omega

/-- Exchanging the first two screen vertices exchanges `alpha` and `beta`: the
same pixels are visited and the same pixels are inside. -/
theorem raster_box32_swap01 (state : driver_state) (p0 p1 p2 : Int × Int × Int) :
    raster_pixels (raster_box32 state p1 p0 p2) = raster_pixels (raster_box32 state p0 p1 p2)
      ∧ ∀ i j : Int, inside_test32 (raster_box32 state p1 p0 p2) i j
          = inside_test32 (raster_box32 state p0 p1 p2) i j := by
  constructor
  · unfold raster_pixels raster_box32
    dsimp only
    rw [min_comm p1.1 p0.1, max_comm p1.1 p0.1, min_comm p1.2.1 p0.2.1, max_comm p1.2.1 p0.2.1]
  · intro i j
    by_cases hS : (p1.1 * p2.2.1 - p2.1 * p1.2.1) - (p0.1 * p2.2.1 - p2.1 * p0.2.1)
        + (p0.1 * p1.2.1 - p1.1 * p0.2.1) = 0
    · rw [inside_test32_zero_area (raster_box32 state p0 p1 p2) rfl hS,
        inside_test32_zero_area (raster_box32 state p1 p0 p2) rfl
          (by show (p0.1 * p2.2.1 - p2.1 * p0.2.1) - (p1.1 * p2.2.1 - p2.1 * p1.2.1)
                + (p1.1 * p0.2.1 - p0.1 * p1.2.1) = 0
              linear_combination -hS)]
    · have e1 : bary_alpha32 (raster_box32 state p1 p0 p2) i j
          = bary_beta32 (raster_box32 state p0 p1 p2) i j :=
        edge32_flip _ _ _ _ (by dsimp only [raster_box32]; ring1) (by ring1) hS
      have e2 : bary_beta32 (raster_box32 state p1 p0 p2) i j
          = bary_alpha32 (raster_box32 state p0 p1 p2) i j :=
        edge32_flip _ _ _ _ (by dsimp only [raster_box32]; ring1) (by ring1) hS
      have e3 : bary_gamma32 (raster_box32 state p1 p0 p2) i j
          = bary_gamma32 (raster_box32 state p0 p1 p2) i j :=
        edge32_flip _ _ _ _ (by dsimp only [raster_box32]; ring1) (by ring1) hS
      unfold inside_test32
      rw [e1, e2, e3, Bool.and_comm ((bary_beta32 _ i j).ge (Flt.fin 0))]

/-- Exchanging the last two screen vertices exchanges `beta` and `gamma`: the
same pixels are visited and the same pixels are inside. -/
theorem raster_box32_swap12 (state : driver_state) (p0 p1 p2 : Int × Int × Int) :
    raster_pixels (raster_box32 state p0 p2 p1) = raster_pixels (raster_box32 state p0 p1 p2)
      ∧ ∀ i j : Int, inside_test32 (raster_box32 state p0 p2 p1) i j
          = inside_test32 (raster_box32 state p0 p1 p2) i j := by
  constructor
  · unfold raster_pixels raster_box32
    dsimp only
    rw [min_right_comm p0.1 p2.1 p1.1, min_right_comm p0.2.1 p2.2.1 p1.2.1,
      max_assoc p0.1 p2.1 p1.1, max_comm p2.1 p1.1, ← max_assoc,
      max_assoc p0.2.1 p2.2.1 p1.2.1, max_comm p2.2.1 p1.2.1, ← max_assoc]
  · intro i j
    by_cases hS : (p1.1 * p2.2.1 - p2.1 * p1.2.1) - (p0.1 * p2.2.1 - p2.1 * p0.2.1)
        + (p0.1 * p1.2.1 - p1.1 * p0.2.1) = 0
    · rw [inside_test32_zero_area (raster_box32 state p0 p1 p2) rfl hS,
        inside_test32_zero_area (raster_box32 state p0 p2 p1) rfl
          (by show (p2.1 * p1.2.1 - p1.1 * p2.2.1) - (p0.1 * p1.2.1 - p1.1 * p0.2.1)
                + (p0.1 * p2.2.1 - p2.1 * p0.2.1) = 0
              linear_combination -hS)]
    · have e1 : bary_alpha32 (raster_box32 state p0 p2 p1) i j
          = bary_alpha32 (raster_box32 state p0 p1 p2) i j :=
        edge32_flip _ _ _ _ (by dsimp only [raster_box32]; ring1) (by ring1) hS
      have e2 : bary_beta32 (raster_box32 state p0 p2 p1) i j
          = bary_gamma32 (raster_box32 state p0 p1 p2) i j :=
        edge32_flip _ _ _ _ (by dsimp only [raster_box32]; ring1) (by ring1) hS
      have e3 : bary_gamma32 (raster_box32 state p0 p2 p1) i j
          = bary_beta32 (raster_box32 state p0 p1 p2) i j :=
        edge32_flip _ _ _ _ (by dsimp only [raster_box32]; ring1) (by ring1) hS
      unfold inside_test32
      rw [e1, e2, e3, Bool.and_assoc, Bool.and_assoc,
        Bool.and_comm ((bary_gamma32 _ i j).ge (Flt.fin 0))]

theorem same_cover32_refl (state : driver_state) (tri : triangle) :
    same_cover32 state tri tri :=
  ⟨fun L hL => ⟨L, hL, rfl, fun _ _ => rfl⟩, fun h => h⟩

theorem same_cover32_trans {state : driver_state} {t1 t2 t3 : triangle}
    (h12 : same_cover32 state t1 t2) (h23 : same_cover32 state t2 t3) :
    same_cover32 state t1 t3 := by
  refine ⟨fun L hL => ?_, fun h => h23.2 (h12.2 h)⟩
  obtain ⟨L2, hL2, p12, c12⟩ := h12.1 L hL
  obtain ⟨L3, hL3, p23, c23⟩ := h23.1 L2 hL2
  exact ⟨L3, hL3, p23.trans p12, fun i j => (c23 i j).trans (c12 i j)⟩

theorem same_cover32_swap01 (state : driver_state) (tri : triangle) :
    same_cover32 state tri tri.swap01 := by
  constructor
  · intro L hL
    obtain ⟨p0, p1, p2, h0, h1, h2, rfl⟩ := raster_setup32_some state tri L hL
    refine ⟨raster_box32 state p1 p0 p2,
      raster_setup32_of_some state tri.swap01 p1 p0 p2 h1 h0 h2, ?_⟩
    exact raster_box32_swap01 state p0 p1 p2
  · intro hnone
    cases h : raster_setup32 state tri.swap01 with
    | none => rfl
    | some L' =>
      obtain ⟨p0, p1, p2, h0, h1, h2, -⟩ := raster_setup32_some state tri.swap01 L' h
      have := raster_setup32_of_some state tri p1 p0 p2 h1 h0 h2
      rw [hnone] at this
      cases this

theorem same_cover32_swap12 (state : driver_state) (tri : triangle) :
    same_cover32 state tri tri.swap12 := by
  constructor
  · intro L hL
    obtain ⟨p0, p1, p2, h0, h1, h2, rfl⟩ := raster_setup32_some state tri L hL
    refine ⟨raster_box32 state p0 p2 p1,
      raster_setup32_of_some state tri.swap12 p0 p2 p1 h0 h2 h1, ?_⟩
    exact raster_box32_swap12 state p0 p1 p2
  · intro hnone
    cases h : raster_setup32 state tri.swap12 with
    | none => rfl
    | some L' =>
      obtain ⟨p0, p1, p2, h0, h1, h2, -⟩ := raster_setup32_some state tri.swap12 L' h
      have := raster_setup32_of_some state tri p0 p2 p1 h0 h2 h1
      rw [hnone] at this
      cases this

/-- In single precision every reordering of the vertices has the same coverage. -/
theorem same_cover32_reordering (state : driver_state) (tri tri' : triangle)
    (h : tri.reordering tri') : same_cover32 state tri tri' := by
  rcases h with rfl | rfl | rfl | rfl | rfl | rfl
  · exact same_cover32_refl state tri
  · exact same_cover32_swap12 state tri
  · exact same_cover32_swap01 state tri
  · exact same_cover32_trans (same_cover32_swap01 state tri)
      (same_cover32_swap12 state tri.swap01)
  · exact same_cover32_trans (same_cover32_swap12 state tri)
      (same_cover32_swap01 state tri.swap12)
  · exact same_cover32_trans (same_cover32_swap01 state tri)
      (same_cover32_trans (same_cover32_swap12 state tri.swap01)
        (same_cover32_swap01 state tri.swap01.swap12))

/-- C19, amended: for every reordering `tri'` of the three vertices of `tri`, in
single precision `rasterize_triangle` visits the same pixels and classifies the
same pixels as inside (or both setups are undefined): coverage does not depend
on the winding order.  In exact arithmetic, moreover, it computes the same
`z_val` at each inside pixel and leaves the same depth buffer (or fails alike). -/
theorem coverage_ignores_vertex_order (state : driver_state) (tri tri' : triangle)
    (h : tri.reordering tri') :
    ((∀ L, raster_setup32 state tri = some L →
        ∃ L', raster_setup32 state tri' = some L'
          ∧ raster_pixels L' = raster_pixels L
          ∧ ∀ i j : Int, inside_test32 L' i j = inside_test32 L i j)
      ∧ (raster_setup32 state tri = none → raster_setup32 state tri' = none))
    ∧ ((∀ L, raster_setup state tri = some L →
        ∃ L', raster_setup state tri' = some L'
          ∧ raster_pixels L' = raster_pixels L
          ∧ ∀ i j : Int, inside_test L' i j = inside_test L i j
              ∧ (inside_test L i j = true → z_val L' i j = z_val L i j))
      ∧ (raster_setup state tri = none → raster_setup state tri' = none)
      ∧ (rasterize_triangle state tri').map (fun s => s.image_depth)
          = (rasterize_triangle state tri).map (fun s => s.image_depth)) := by
  have key : same_raster state tri tri' := by
    rcases h with rfl | rfl | rfl | rfl | rfl | rfl
    · exact same_raster_refl state tri
    · exact same_raster_swap12 state tri
    · exact same_raster_swap01 state tri
    · exact same_raster_trans (same_raster_swap01 state tri)
        (same_raster_swap12 state tri.swap01)
    · exact same_raster_trans (same_raster_swap12 state tri)
        (same_raster_swap01 state tri.swap12)
    · exact same_raster_trans (same_raster_swap01 state tri)
        (same_raster_trans (same_raster_swap12 state tri.swap01)
          (same_raster_swap01 state tri.swap01.swap12))
  exact ⟨same_cover32_reordering state tri tri' h, key⟩

/-- Witness of `coverage_ignores_vertex_order`: `skew_triangle` and the same
triangle with its vertices in the order 1, 2, 0 on a fresh 4×4 buffer: in single
precision the second order has the locals `skew_rotated_locals`, visits the
pixels of the first and has the same inside test. -/
theorem coverage_ignores_vertex_order_witness :
    raster_pixels skew_rotated_locals = raster_pixels skew_locals
      ∧ (∀ i j : Int, inside_test32 skew_rotated_locals i j = inside_test32 skew_locals i j)
      ∧ (rasterize_triangle (sample_state [interp_type.flat] 0 4 4) skew_rotated).map
            (fun s => s.image_depth)
          = (rasterize_triangle (sample_state [interp_type.flat] 0 4 4) skew_triangle).map
            (fun s => s.image_depth) := by
  have h := coverage_ignores_vertex_order (sample_state [interp_type.flat] 0 4 4)
    skew_triangle skew_rotated (Or.inr (Or.inr (Or.inr (Or.inl rfl))))
  obtain ⟨L', hL', hp, hin⟩ := h.1.1 skew_locals (by decide!)
  have e : raster_setup32 (sample_state [interp_type.flat] 0 4 4) skew_rotated
      = some skew_rotated_locals := by decide!
  rw [e] at hL'
  simp only [Option.some.injEq] at hL'
  subst hL'
  exact ⟨hp, hin, h.2.2.2⟩

/-! ## The perspective factor in single precision -/

/-- In the normal range rounding changes a value by at most `2^-24` of it. -/
theorem round32q_rel (q : ℚ) (hq : (2 : ℚ) ^ (-126 : Int) ≤ |q|) :
    |q - round32q q| ≤ |q| / 2 ^ 24 := by
  have hpos : 0 < |q| := lt_of_lt_of_le (by positivity) hq
  have hq0 : q ≠ 0 := abs_pos.mp hpos
  obtain ⟨b1, b2⟩ := ilog2_spec |q| hpos
  have hil : -126 ≤ ilog2 |q| := by
    by_contra hc
    have hc' : ilog2 |q| + 1 ≤ -126 := by omega
    have : (2 : ℚ) ^ (ilog2 |q| + 1) ≤ (2 : ℚ) ^ (-126 : Int) :=
      zpow_le_zpow_right₀ (by norm_num) hc'
    linarith
  have he : ulp_exp q = ilog2 |q| - 23 := by
    unfold ulp_exp
    exact max_eq_left (by omega)
  have two : (2 : ℚ) ≠ 0 := by norm_num
  have hP : (0 : ℚ) < (2 : ℚ) ^ ulp_exp q := by positivity
  have e1 : q - round32q q
      = (q / (2 : ℚ) ^ ulp_exp q - rne (q / (2 : ℚ) ^ ulp_exp q)) * (2 : ℚ) ^ ulp_exp q := by
    unfold round32q
    rw [if_neg hq0, sub_mul, div_mul_cancel₀ _ hP.ne.symm]
  have hhalf : |q / (2 : ℚ) ^ ulp_exp q - rne (q / (2 : ℚ) ^ ulp_exp q)| ≤ 1 / 2 := by
    have f1 := Int.floor_le (q / (2 : ℚ) ^ ulp_exp q)
    have f2 := Int.lt_floor_add_one (q / (2 : ℚ) ^ ulp_exp q)
    rcases rne_cases (q / (2 : ℚ) ^ ulp_exp q) with ⟨e, h⟩ | ⟨e, h⟩
    · rw [e, abs_of_nonneg (by linarith)]; exact h
    · rw [e]
      push_cast
      rw [abs_of_nonpos (by linarith)]
      linarith
  have hpow : (2 : ℚ) ^ ulp_exp q * 2 ^ 23 = (2 : ℚ) ^ ilog2 |q| := by
    rw [he]
    have : ilog2 |q| = (ilog2 |q| - 23) + 23 := by ring
    conv_rhs => rw [this]
    rw [zpow_add₀ two]
    norm_cast
  rw [e1, abs_mul, abs_of_pos hP, le_div_iff₀ (by positivity)]
  calc |q / (2 : ℚ) ^ ulp_exp q - rne (q / (2 : ℚ) ^ ulp_exp q)| * (2 : ℚ) ^ ulp_exp q * 2 ^ 24
      ≤ 1 / 2 * (2 : ℚ) ^ ulp_exp q * 2 ^ 24 := by
        apply mul_le_mul_of_nonneg_right _ (by positivity)
        exact mul_le_mul_of_nonneg_right hhalf hP.le
    _ = (2 : ℚ) ^ ulp_exp q * 2 ^ 23 := by ring
    _ = (2 : ℚ) ^ ilog2 |q| := hpow
    _ ≤ |q| := b1

/-- Rounding a value of at least `2^-126` keeps it within a factor `1 ± 2^-24`. -/
theorem round32q_rel_pos (q : ℚ) (hq : (2 : ℚ) ^ (-126 : Int) ≤ q) :
    q * (1 - 1 / 2 ^ 24) ≤ round32q q ∧ round32q q ≤ q * (1 + 1 / 2 ^ 24) := by
  have hpos : 0 < q := lt_of_lt_of_le (by positivity) hq
  have h := round32q_rel q (by rwa [abs_of_pos hpos])
  rw [abs_of_pos hpos, abs_le] at h
  constructor
  · linarith [h.2]
  · linarith [h.1]

theorem two_zpow_neg_126_le : (2 : ℚ) ^ (-126 : Int) ≤ 1 / 2 ^ 34 := by
  rw [zpow_neg]
  norm_num

/-- A rounded value within known bounds below `2^128` is finite. -/
theorem Flt.round32_fin_of_bounds (q lo hi : ℚ) (h1 : lo ≤ round32q q) (h2 : round32q q ≤ hi)
    (hlo : -(2 : ℚ) ^ 127 ≤ lo) (hhi : hi ≤ 2 ^ 127) :
    Flt.round32 (Flt.fin q) = Flt.fin (round32q q) := by
  apply Flt.round32_fin
  rw [abs_lt]
  have : (2 : ℚ) ^ 127 < 2 ^ 128 := by norm_num
  constructor <;> linarith

/-- The single-precision half of an `int` between 1 and `2^31`. -/
theorem half_ofInt32_bounds (n : Int) (h1 : 1 ≤ n) (h2 : n ≤ 2 ^ 31) :
    ∃ x : ℚ, Flt.mul32 (Flt.fin (1 / 2)) (Flt.ofInt32 n) = Flt.fin x
      ∧ (1 - 1 / 2 ^ 22) * ((n : ℚ) / 2) ≤ x ∧ x ≤ (1 + 1 / 2 ^ 22) * ((n : ℚ) / 2) := by
  have hn1 : (1 : ℚ) ≤ (n : ℚ) := by exact_mod_cast h1
  have hn2 : (n : ℚ) ≤ 2 ^ 31 := by exact_mod_cast h2
  have hs := two_zpow_neg_126_le
  have s0 : (1 : ℚ) / 2 ^ 34 ≤ 1 / 4 := by norm_num
  obtain ⟨a1, a2⟩ := round32q_rel_pos (n : ℚ) (le_trans hs (by linarith))
  have a1' : (n : ℚ) * (1 - 1 / 2 ^ 24) ≤ round32q (n : ℚ) := a1
  have hN1 : (1 : ℚ) / 2 ≤ round32q (n : ℚ) := by
    have : (1 : ℚ) * (1 - 1 / 2 ^ 24) ≤ (n : ℚ) * (1 - 1 / 2 ^ 24) :=
      mul_le_mul_of_nonneg_right hn1 (by norm_num)
    have c : (1 : ℚ) / 2 ≤ 1 * (1 - 1 / 2 ^ 24) := by norm_num
    linarith
  have hN2 : round32q (n : ℚ) ≤ 2 ^ 32 := by
    have : (n : ℚ) * (1 + 1 / 2 ^ 24) ≤ 2 ^ 31 * (1 + 1 / 2 ^ 24) :=
      mul_le_mul_of_nonneg_right hn2 (by norm_num)
    have c : (2 : ℚ) ^ 31 * (1 + 1 / 2 ^ 24) ≤ 2 ^ 32 := by norm_num
    linarith
  have e1 : Flt.ofInt32 n = Flt.fin (round32q (n : ℚ)) := by
    unfold Flt.ofInt32
    rw [Flt.ofInt_eq]
    exact Flt.round32_fin_of_bounds _ _ _ hN1 hN2 (by norm_num) (by norm_num)
  obtain ⟨b1, b2⟩ := round32q_rel_pos (1 / 2 * round32q (n : ℚ))
    (le_trans hs (by linarith))
  have hX1 : (1 : ℚ) / 8 ≤ round32q (1 / 2 * round32q (n : ℚ)) := by
    have : (1 : ℚ) / 4 * (1 - 1 / 2 ^ 24) ≤ 1 / 2 * round32q (n : ℚ) * (1 - 1 / 2 ^ 24) :=
      mul_le_mul_of_nonneg_right (by linarith) (by norm_num)
    have c : (1 : ℚ) / 8 ≤ 1 / 4 * (1 - 1 / 2 ^ 24) := by norm_num
    linarith
  have hX2 : round32q (1 / 2 * round32q (n : ℚ)) ≤ 2 ^ 32 := by
    have : 1 / 2 * round32q (n : ℚ) * (1 + 1 / 2 ^ 24) ≤ 2 ^ 31 * (1 + 1 / 2 ^ 24) :=
      mul_le_mul_of_nonneg_right (by linarith) (by norm_num)
    have c : (2 : ℚ) ^ 31 * (1 + 1 / 2 ^ 24) ≤ 2 ^ 32 := by norm_num
    linarith
  refine ⟨round32q (1 / 2 * round32q (n : ℚ)), ?_, ?_, ?_⟩
  · unfold Flt.mul32
    rw [e1, Flt.fin_mul_fin]
    exact Flt.round32_fin_of_bounds _ _ _ hX1 hX2 (by norm_num) (by norm_num)
  · have c : (1 - 1 / 2 ^ 22 : ℚ) ≤ (1 - 1 / 2 ^ 24) * (1 - 1 / 2 ^ 24) := by norm_num
    have hn0 : (0 : ℚ) ≤ (n : ℚ) / 2 := by linarith
    have s1 : (1 - 1 / 2 ^ 22) * ((n : ℚ) / 2)
        ≤ (1 - 1 / 2 ^ 24) * (1 - 1 / 2 ^ 24) * ((n : ℚ) / 2) :=
      mul_le_mul_of_nonneg_right c hn0
    have s2 : 1 / 2 * ((n : ℚ) * (1 - 1 / 2 ^ 24)) * (1 - 1 / 2 ^ 24)
        ≤ 1 / 2 * round32q (n : ℚ) * (1 - 1 / 2 ^ 24) :=
      mul_le_mul_of_nonneg_right (by linarith) (by norm_num)
    have s3 : (1 - 1 / 2 ^ 24) * (1 - 1 / 2 ^ 24) * ((n : ℚ) / 2)
        = 1 / 2 * ((n : ℚ) * (1 - 1 / 2 ^ 24)) * (1 - 1 / 2 ^ 24) := by ring
    linarith
  · have c : (1 + 1 / 2 ^ 24) * (1 + 1 / 2 ^ 24) ≤ (1 + 1 / 2 ^ 22 : ℚ) := by norm_num
    have hn0 : (0 : ℚ) ≤ (n : ℚ) / 2 := by linarith
    have s1 : (1 + 1 / 2 ^ 24) * (1 + 1 / 2 ^ 24) * ((n : ℚ) / 2)
        ≤ (1 + 1 / 2 ^ 22) * ((n : ℚ) / 2) :=
      mul_le_mul_of_nonneg_right c hn0
    have s2 : 1 / 2 * round32q (n : ℚ) * (1 + 1 / 2 ^ 24)
        ≤ 1 / 2 * ((n : ℚ) * (1 + 1 / 2 ^ 24)) * (1 + 1 / 2 ^ 24) :=
      mul_le_mul_of_nonneg_right (by linarith) (by norm_num)
    have s3 : (1 + 1 / 2 ^ 24) * (1 + 1 / 2 ^ 24) * ((n : ℚ) / 2)
        = 1 / 2 * ((n : ℚ) * (1 + 1 / 2 ^ 24)) * (1 + 1 / 2 ^ 24) := by ring
    linarith

/-- For a positive shoelace value, the weight of a positive edge function is
finite and non-negative, and at least `1/4` when the edge function is at least
a third of the shoelace value. -/
theorem weight32_pos (n S : Int) (hn1 : 1 ≤ n) (hn2 : n ≤ 2 ^ 31) (hS1 : 1 ≤ S)
    (hS2 : S ≤ 2 ^ 31) :
    ∃ ω : ℚ, Flt.div32 (Flt.mul32 (Flt.fin (1 / 2)) (Flt.ofInt32 n))
        (Flt.mul32 (Flt.fin (1 / 2)) (Flt.ofInt32 S)) = Flt.fin ω
      ∧ 0 ≤ ω ∧ (S ≤ 3 * n → 1 / 4 ≤ ω) := by
  obtain ⟨x, hx, x1, x2⟩ := half_ofInt32_bounds n hn1 hn2
  obtain ⟨a, ha, a1, a2⟩ := half_ofInt32_bounds S hS1 hS2
  have qn1 : (1 : ℚ) ≤ (n : ℚ) := by exact_mod_cast hn1
  have qn2 : (n : ℚ) ≤ 2 ^ 31 := by exact_mod_cast hn2
  have qS1 : (1 : ℚ) ≤ (S : ℚ) := by exact_mod_cast hS1
  have qS2 : (S : ℚ) ≤ 2 ^ 31 := by exact_mod_cast hS2
  have apos : 0 < a := by linarith
  have xpos : 0 < x := by linarith
  have q0 : ((0 : Int) : ℚ) * (2 : ℚ) ^ (0 : Int) ≤ x / a := by
    simp only [Int.cast_zero, zero_mul]
    exact (div_pos xpos apos).le
  have q1 : x / a ≤ ((1 : Int) : ℚ) * (2 : ℚ) ^ (32 : Int) := by
    rw [div_le_iff₀ apos]
    norm_num
    linarith
  have r0 := le_round32q _ 0 0 (by norm_num) (by norm_num) q0
  have r1 := round32q_le _ 1 32 (by norm_num) (by norm_num) q1
  simp only [Int.cast_zero, zero_mul] at r0
  have r1' : round32q (x / a) ≤ 2 ^ 32 := by
    have e : ((1 : Int) : ℚ) * (2 : ℚ) ^ (32 : Int) = 2 ^ 32 := by norm_num
    rw [e] at r1
    exact r1
  refine ⟨round32q (x / a), ?_, r0, ?_⟩
  · unfold Flt.div32
    rw [hx, ha, Flt.fin_div_fin _ _ apos.ne.symm]
    exact Flt.round32_fin_of_bounds _ _ _ r0 r1' (by norm_num) (by norm_num)
  · intro h3
    have q3 : (S : ℚ) ≤ 3 * (n : ℚ) := by exact_mod_cast h3
    have q2 : ((1 : Int) : ℚ) * (2 : ℚ) ^ (-2 : Int) ≤ x / a := by
      rw [le_div_iff₀ apos]
      norm_num
      linarith
    have r2 := le_round32q _ 1 (-2) (by norm_num) (by norm_num) q2
    have e : ((1 : Int) : ℚ) * (2 : ℚ) ^ (-2 : Int) = 1 / 4 := by norm_num
    rw [e] at r2
    exact r2

/-- For a positive shoelace value, the weight of a negative edge function fails `>= 0`. -/
theorem weight32_neg (n S : Int) (hn1 : n ≤ -1) (hn2 : -2 ^ 31 ≤ n) (hS1 : 1 ≤ S)
    (hS2 : S ≤ 2 ^ 31) :
    (Flt.div32 (Flt.mul32 (Flt.fin (1 / 2)) (Flt.ofInt32 n))
        (Flt.mul32 (Flt.fin (1 / 2)) (Flt.ofInt32 S))).ge (Flt.fin 0) = false := by
  obtain ⟨x, hx, x1, x2⟩ := half_ofInt32_bounds (-n) (by omega) (by omega)
  obtain ⟨a, ha, a1, a2⟩ := half_ofInt32_bounds S hS1 hS2
  have qn1 : (1 : ℚ) ≤ ((-n : Int) : ℚ) := by exact_mod_cast (by omega : (1 : Int) ≤ -n)
  have qn2 : ((-n : Int) : ℚ) ≤ 2 ^ 31 := by exact_mod_cast (by omega : -n ≤ (2 : Int) ^ 31)
  have qS1 : (1 : ℚ) ≤ (S : ℚ) := by exact_mod_cast hS1
  have qS2 : (S : ℚ) ≤ 2 ^ 31 := by exact_mod_cast hS2
  have apos : 0 < a := by linarith
  have xpos : 0 < x := by linarith
  have e : n = -(-n) := by ring
  have hx' : Flt.mul32 (Flt.fin (1 / 2)) (Flt.ofInt32 n) = Flt.fin (-x) := by
    rw [e, half_ofInt32_neg, hx]
    rfl
  have q1 : -x / a ≤ ((-1 : Int) : ℚ) * (2 : ℚ) ^ (-33 : Int) := by
    rw [div_le_iff₀ apos]
    norm_num
    linarith
  have q0 : ((-1 : Int) : ℚ) * (2 : ℚ) ^ (33 : Int) ≤ -x / a := by
    rw [le_div_iff₀ apos]
    norm_num
    linarith
  have r1 := round32q_le _ (-1) (-33) (by norm_num) (by norm_num) q1
  have r0 := le_round32q _ (-1) 33 (by norm_num) (by norm_num) q0
  have e1 : ((-1 : Int) : ℚ) * (2 : ℚ) ^ (-33 : Int) = -(1 / 2 ^ 33) := by norm_num
  have e0 : ((-1 : Int) : ℚ) * (2 : ℚ) ^ (33 : Int) = -(2 ^ 33) := by norm_num
  rw [e1] at r1
  rw [e0] at r0
  have hfin : Flt.div32 (Flt.fin (-x)) (Flt.fin a) = Flt.fin (round32q (-x / a)) := by
    unfold Flt.div32
    rw [Flt.fin_div_fin _ _ apos.ne.symm]
    exact Flt.round32_fin_of_bounds _ _ _ r0 r1 (by norm_num) (by norm_num)
  rw [hx', ha, hfin]
  show decide ((0 : ℚ) ≤ round32q (-x / a)) = false
  rw [decide_eq_false_iff_not]
  have : (0 : ℚ) < 1 / 2 ^ 33 := by positivity
  linarith

/-- For a positive shoelace value, a weight that passes `>= 0` comes from a
non-negative edge function and is finite and non-negative, and at least `1/4`
when the edge function is at least a third of the shoelace value. -/
theorem weight32_of_ge_pos (n S : Int) (hn1 : -2 ^ 31 ≤ n) (hn2 : n ≤ 2 ^ 31) (hS1 : 1 ≤ S)
    (hS2 : S ≤ 2 ^ 31)
    (h : (Flt.div32 (Flt.mul32 (Flt.fin (1 / 2)) (Flt.ofInt32 n))
        (Flt.mul32 (Flt.fin (1 / 2)) (Flt.ofInt32 S))).ge (Flt.fin 0) = true) :
    0 ≤ n ∧ ∃ ω : ℚ, Flt.div32 (Flt.mul32 (Flt.fin (1 / 2)) (Flt.ofInt32 n))
        (Flt.mul32 (Flt.fin (1 / 2)) (Flt.ofInt32 S)) = Flt.fin ω
      ∧ 0 ≤ ω ∧ (S ≤ 3 * n → 1 / 4 ≤ ω) := by
  rcases lt_trichotomy n 0 with hneg | hzero | hpos
  · rw [weight32_neg n S (by omega) hn1 hS1 hS2] at h
    cases h
  · subst hzero
    refine ⟨le_refl _, 0, ?_, le_refl _, fun h3 => by omega⟩
    obtain ⟨a, ha, a1, a2⟩ := half_ofInt32_bounds S hS1 hS2
    have qS1 : (1 : ℚ) ≤ (S : ℚ) := by exact_mod_cast hS1
    have apos : 0 < a := by linarith
    rw [half_ofInt32_zero, ha]
    unfold Flt.div32
    rw [Flt.fin_div_fin _ _ apos.ne.symm, zero_div]
    decide!
  · exact ⟨hpos.le, weight32_pos n S (by omega) (by omega) hS1 hS2⟩

/-- At a pixel that passes the single-precision inside test of a triangle of
non-zero area, with the `int` expressions in range, the three weights are
finite and non-negative and one of them is at least `1/4`. -/
theorem weights32_inside (na nb nc S : Int) (hsum : na + nb + nc = S) (hS0 : S ≠ 0)
    (ra : in_int_range na) (rb : in_int_range nb) (rc : in_int_range nc) (rS : in_int_range S)
    (ha : (Flt.div32 (Flt.mul32 (Flt.fin (1 / 2)) (Flt.ofInt32 na))
        (Flt.mul32 (Flt.fin (1 / 2)) (Flt.ofInt32 S))).ge (Flt.fin 0) = true)
    (hb : (Flt.div32 (Flt.mul32 (Flt.fin (1 / 2)) (Flt.ofInt32 nb))
        (Flt.mul32 (Flt.fin (1 / 2)) (Flt.ofInt32 S))).ge (Flt.fin 0) = true)
    (hc : (Flt.div32 (Flt.mul32 (Flt.fin (1 / 2)) (Flt.ofInt32 nc))
        (Flt.mul32 (Flt.fin (1 / 2)) (Flt.ofInt32 S))).ge (Flt.fin 0) = true) :
    ∃ a b c : ℚ, Flt.div32 (Flt.mul32 (Flt.fin (1 / 2)) (Flt.ofInt32 na))
          (Flt.mul32 (Flt.fin (1 / 2)) (Flt.ofInt32 S)) = Flt.fin a
      ∧ Flt.div32 (Flt.mul32 (Flt.fin (1 / 2)) (Flt.ofInt32 nb))
          (Flt.mul32 (Flt.fin (1 / 2)) (Flt.ofInt32 S)) = Flt.fin b
      ∧ Flt.div32 (Flt.mul32 (Flt.fin (1 / 2)) (Flt.ofInt32 nc))
          (Flt.mul32 (Flt.fin (1 / 2)) (Flt.ofInt32 S)) = Flt.fin c
      ∧ 0 ≤ a ∧ 0 ≤ b ∧ 0 ≤ c ∧ (1 / 4 ≤ a ∨ 1 / 4 ≤ b ∨ 1 / 4 ≤ c) := by
  have key : ∀ ma mb mc T : Int, ma + mb + mc = T → 1 ≤ T → T ≤ 2 ^ 31 →
      (-2 ^ 31 ≤ ma ∧ ma ≤ 2 ^ 31) → (-2 ^ 31 ≤ mb ∧ mb ≤ 2 ^ 31) →
      (-2 ^ 31 ≤ mc ∧ mc ≤ 2 ^ 31) →
      (Flt.div32 (Flt.mul32 (Flt.fin (1 / 2)) (Flt.ofInt32 ma))
        (Flt.mul32 (Flt.fin (1 / 2)) (Flt.ofInt32 T))).ge (Flt.fin 0) = true →
      (Flt.div32 (Flt.mul32 (Flt.fin (1 / 2)) (Flt.ofInt32 mb))
        (Flt.mul32 (Flt.fin (1 / 2)) (Flt.ofInt32 T))).ge (Flt.fin 0) = true →
      (Flt.div32 (Flt.mul32 (Flt.fin (1 / 2)) (Flt.ofInt32 mc))
        (Flt.mul32 (Flt.fin (1 / 2)) (Flt.ofInt32 T))).ge (Flt.fin 0) = true →
      ∃ a b c : ℚ, Flt.div32 (Flt.mul32 (Flt.fin (1 / 2)) (Flt.ofInt32 ma))
            (Flt.mul32 (Flt.fin (1 / 2)) (Flt.ofInt32 T)) = Flt.fin a
        ∧ Flt.div32 (Flt.mul32 (Flt.fin (1 / 2)) (Flt.ofInt32 mb))
            (Flt.mul32 (Flt.fin (1 / 2)) (Flt.ofInt32 T)) = Flt.fin b
        ∧ Flt.div32 (Flt.mul32 (Flt.fin (1 / 2)) (Flt.ofInt32 mc))
            (Flt.mul32 (Flt.fin (1 / 2)) (Flt.ofInt32 T)) = Flt.fin c
        ∧ 0 ≤ a ∧ 0 ≤ b ∧ 0 ≤ c ∧ (1 / 4 ≤ a ∨ 1 / 4 ≤ b ∨ 1 / 4 ≤ c) := by
    intro ma mb mc T hs hT1 hT2 r1 r2 r3 g1 g2 g3
    obtain ⟨p1, a, ea, a0, a4⟩ := weight32_of_ge_pos ma T r1.1 r1.2 hT1 hT2 g1
    obtain ⟨p2, b, eb, b0, b4⟩ := weight32_of_ge_pos mb T r2.1 r2.2 hT1 hT2 g2
    obtain ⟨p3, c, ec, c0, c4⟩ := weight32_of_ge_pos mc T r3.1 r3.2 hT1 hT2 g3
    refine ⟨a, b, c, ea, eb, ec, a0, b0, c0, ?_⟩
    by_cases h1 : T ≤ 3 * ma
    · exact Or.inl (a4 h1)
    · by_cases h2 : T ≤ 3 * mb
      · exact Or.inr (Or.inl (b4 h2))
      · exact Or.inr (Or.inr (c4 (by omega)))
  rcases lt_or_gt_of_ne hS0 with hneg | hpos
  · have fa := edge32_flip (-na) na (-S) S (by ring) (by ring) (by omega)
    have fb := edge32_flip (-nb) nb (-S) S (by ring) (by ring) (by omega)
    have fc := edge32_flip (-nc) nc (-S) S (by ring) (by ring) (by omega)
    rw [fa] at ha ⊢
    rw [fb] at hb ⊢
    rw [fc] at hc ⊢
    obtain ⟨a1, a2⟩ := ra
    obtain ⟨b1, b2⟩ := rb
    obtain ⟨c1, c2⟩ := rc
    obtain ⟨s1, s2⟩ := rS
    exact key (-na) (-nb) (-nc) (-S) (by omega) (by omega) (by omega)
      ⟨by omega, by omega⟩ ⟨by omega, by omega⟩ ⟨by omega, by omega⟩ ha hb hc
  · obtain ⟨a1, a2⟩ := ra
    obtain ⟨b1, b2⟩ := rb
    obtain ⟨c1, c2⟩ := rc
    obtain ⟨s1, s2⟩ := rS
    exact key na nb nc S hsum (by omega) (by omega)
      ⟨by omega, by omega⟩ ⟨by omega, by omega⟩ ⟨by omega, by omega⟩ ha hb hc

/-- Rounding a finite value that is at least a non-negative `float` gives
`+inf` or a finite value that is at least that `float`. -/
theorem round32_at_least (q : ℚ) (m k : Int) (hm : |m| ≤ 2 ^ 24) (hk : -149 ≤ k)
    (hm0 : 0 ≤ m) (h : (m : ℚ) * (2 : ℚ) ^ k ≤ q) :
    Flt.at_least ((m : ℚ) * (2 : ℚ) ^ k) (Flt.round32 (Flt.fin q)) := by
  have hr := le_round32q q m k hm hk h
  have hf : (0 : ℚ) ≤ (m : ℚ) * (2 : ℚ) ^ k :=
    mul_nonneg (by exact_mod_cast hm0) (by positivity)
  by_cases ho : (2 : ℚ) ^ 128 ≤ |round32q q|
  · left
    have hq : 0 < q := by
      by_contra hc
      have hq0 : q ≤ ((0 : Int) : ℚ) * (2 : ℚ) ^ (0 : Int) := by
        simp only [Int.cast_zero, zero_mul]
        exact not_lt.mp hc
      have := round32q_le q 0 0 (by norm_num) (by norm_num) hq0
      simp only [Int.cast_zero, zero_mul] at this
      have hz : round32q q = 0 := le_antisymm this (le_trans hf hr)
      rw [hz, abs_zero] at ho
      norm_num at ho
    show (if (2 : ℚ) ^ 128 ≤ |round32q q| then Flt.signed (decide (0 < q))
      else Flt.fin (round32q q)) = Flt.pinf
    rw [if_pos ho, decide_eq_true hq]
    rfl
  · right
    exact ⟨round32q q, Flt.round32_fin q (not_le.mp ho), hr⟩

/-- The single-precision sum of two floats with non-negative lower bounds has
every `float` below the sum of the bounds as a lower bound. -/
theorem add32_at_least (x y : Flt) (a b : ℚ) (m k : Int) (hm : |m| ≤ 2 ^ 24) (hk : -149 ≤ k)
    (hm0 : 0 ≤ m) (hx : Flt.at_least a x) (hy : Flt.at_least b y)
    (h : (m : ℚ) * (2 : ℚ) ^ k ≤ a + b) :
    Flt.at_least ((m : ℚ) * (2 : ℚ) ^ k) (Flt.add32 x y) := by
  rcases hx with rfl | ⟨p, rfl, hp⟩
  · rcases hy with rfl | ⟨q, rfl, hq⟩
    · exact Or.inl rfl
    · exact Or.inl rfl
  · rcases hy with rfl | ⟨q, rfl, hq⟩
    · exact Or.inl rfl
    · unfold Flt.add32
      rw [Flt.fin_add_fin]
      exact round32_at_least (p + q) m k hm hk hm0 (by linarith)

/-- The single-precision quotient of a non-negative finite value by a positive one. -/
theorem div32_at_least (ω w : ℚ) (m k : Int) (hm : |m| ≤ 2 ^ 24) (hk : -149 ≤ k)
    (hm0 : 0 ≤ m) (hw : 0 < w) (h : (m : ℚ) * (2 : ℚ) ^ k ≤ ω / w) :
    Flt.at_least ((m : ℚ) * (2 : ℚ) ^ k) (Flt.div32 (Flt.fin ω) (Flt.fin w)) := by
  unfold Flt.div32
  rw [Flt.fin_div_fin _ _ hw.ne.symm]
  exact round32_at_least _ m k hm hk hm0 h

/-- A float with a positive lower bound is above zero. -/
theorem Flt.at_least_pos (x : Flt) (b : ℚ) (hb : 0 < b) (h : Flt.at_least b x) :
    (Flt.fin 0).lt x = true := by
  rcases h with rfl | ⟨q, rfl, hq⟩
  · rfl
  · show decide ((0 : ℚ) < q) = true
    exact decide_eq_true (by linarith)

/-- With non-negative finite weights of which one is at least `1/4`, and
positive `w` below `2^128`, the single-precision factor `k_gour` is positive. -/
theorem k_gour32_pos (tri : triangle) (a b c : ℚ) (ha : 0 ≤ a) (hb : 0 ≤ b) (hc : 0 ≤ c)
    (h4 : 1 / 4 ≤ a ∨ 1 / 4 ≤ b ∨ 1 / 4 ≤ c)
    (hw0 : 0 < tri.v0.gl_Position.c3) (hw1 : 0 < tri.v1.gl_Position.c3)
    (hw2 : 0 < tri.v2.gl_Position.c3)
    (fw0 : tri.v0.gl_Position.c3 < 2 ^ 128) (fw1 : tri.v1.gl_Position.c3 < 2 ^ 128)
    (fw2 : tri.v2.gl_Position.c3 < 2 ^ 128) :
    (Flt.fin 0).lt (k_gour32 tri (Flt.fin a) (Flt.fin b) (Flt.fin c)) = true := by
  have e0 : ((0 : Int) : ℚ) * (2 : ℚ) ^ (0 : Int) = 0 := by norm_num
  have e1 : ((1 : Int) : ℚ) * (2 : ℚ) ^ (-130 : Int) = 1 / 2 ^ 130 := by
    rw [zpow_neg]
    norm_num
  have small : ∀ ω w : ℚ, 1 / 4 ≤ ω → 0 < w → w < 2 ^ 128 → (1 : ℚ) / 2 ^ 130 ≤ ω / w := by
    intro ω w h1 h2 h3
    rw [le_div_iff₀ h2]
    have : (1 : ℚ) / 2 ^ 130 * w ≤ 1 / 2 ^ 130 * 2 ^ 128 :=
      mul_le_mul_of_nonneg_left h3.le (by positivity)
    have c : (1 : ℚ) / 2 ^ 130 * 2 ^ 128 = 1 / 4 := by norm_num
    linarith
  have z0 : ∀ ω w : ℚ, 0 ≤ ω → 0 < w →
      Flt.at_least 0 (Flt.div32 (Flt.fin ω) (Flt.fin w)) := by
    intro ω w h1 h2
    have := div32_at_least ω w 0 0 (by norm_num) (by norm_num) (le_refl _) h2
      (by rw [e0]; exact div_nonneg h1 h2.le)
    rwa [e0] at this
  have z1 : ∀ ω w : ℚ, 1 / 4 ≤ ω → 0 < w → w < 2 ^ 128 →
      Flt.at_least (1 / 2 ^ 130) (Flt.div32 (Flt.fin ω) (Flt.fin w)) := by
    intro ω w h1 h2 h3
    have := div32_at_least ω w 1 (-130) (by norm_num) (by norm_num) (by norm_num) h2
      (by rw [e1]; exact small ω w h1 h2 h3)
    rwa [e1] at this
  have s0 : ∀ (x y : Flt) (p q : ℚ), Flt.at_least p x → Flt.at_least q y → 0 ≤ p + q →
      Flt.at_least 0 (Flt.add32 x y) := by
    intro x y p q hx hy h
    have := add32_at_least x y p q 0 0 (by norm_num) (by norm_num) (le_refl _) hx hy
      (by rw [e0]; exact h)
    rwa [e0] at this
  have s1 : ∀ (x y : Flt) (p q : ℚ), Flt.at_least p x → Flt.at_least q y →
      1 / 2 ^ 130 ≤ p + q → Flt.at_least (1 / 2 ^ 130) (Flt.add32 x y) := by
    intro x y p q hx hy h
    have := add32_at_least x y p q 1 (-130) (by norm_num) (by norm_num) (by norm_num) hx hy
      (by rw [e1]; exact h)
    rwa [e1] at this
  have hpos : (0 : ℚ) < 1 / 2 ^ 130 := by positivity
  apply Flt.at_least_pos _ (1 / 2 ^ 130) hpos
  unfold k_gour32
  rcases h4 with h | h | h
  · exact s1 _ _ _ _ (s1 _ _ _ _ (z1 a _ h hw0 fw0) (z0 b _ hb hw1) (by linarith))
      (z0 c _ hc hw2) (by linarith)
  · exact s1 _ _ _ _ (s1 _ _ _ _ (z0 a _ ha hw0) (z1 b _ h hw1 fw1) (by linarith))
      (z0 c _ hc hw2) (by linarith)
  · exact s1 _ _ _ _ (s0 _ _ _ _ (z0 a _ ha hw0) (z0 b _ hb hw1) (by linarith))
      (z1 c _ h hw2 fw2) (by linarith)

/-- The area computed by the single-precision setup is the rounded half of the
shoelace value. -/
theorem raster_setup32_area (state : driver_state) (tri : triangle) (L : raster_locals)
    (hL : raster_setup32 state tri = some L) :
    L.area_ABC = Flt.mul32 (Flt.fin (1 / 2))
      (Flt.ofInt32 ((L.x1 * L.y2 - L.x2 * L.y1) - (L.x0 * L.y2 - L.x2 * L.y0)
        + (L.x0 * L.y1 - L.x1 * L.y0))) := by
  obtain ⟨p0, p1, p2, -, -, -, rfl⟩ := raster_setup32_some state tri L hL
  rfl

/-- In single precision, for a triangle of non-zero area whose three `w` are
positive floats, with the `int` expressions in range, the factor `k_gour` is
above zero at every pixel that passes the inside test. -/
theorem k_gour32_positive (state : driver_state) (tri : triangle) (L : raster_locals)
    (i j : Int) (hL : raster_setup32 state tri = some L) (harea : L.area_ABC ≠ Flt.fin 0)
    (hr : int_exprs_in_range L i j)
    (hw0 : 0 < tri.v0.gl_Position.c3) (hw1 : 0 < tri.v1.gl_Position.c3)
    (hw2 : 0 < tri.v2.gl_Position.c3)
    (fw0 : is_float32 tri.v0.gl_Position.c3) (fw1 : is_float32 tri.v1.gl_Position.c3)
    (fw2 : is_float32 tri.v2.gl_Position.c3) (hin : inside_test32 L i j = true) :
    (Flt.fin 0).lt (k_gour32 tri (bary_alpha32 L i j) (bary_beta32 L i j)
      (bary_gamma32 L i j)) = true := by
  have hA := raster_setup32_area state tri L hL
  have hS0 : (L.x1 * L.y2 - L.x2 * L.y1) - (L.x0 * L.y2 - L.x2 * L.y0)
      + (L.x0 * L.y1 - L.x1 * L.y0) ≠ 0 := by
    intro h
    rw [h, half_ofInt32_zero] at hA
    exact harea hA
  obtain ⟨rS, ra, rb, rc⟩ := hr
  unfold inside_test32 at hin
  simp only [Bool.and_eq_true] at hin
  obtain ⟨⟨ga, gb⟩, gc⟩ := hin
  unfold bary_alpha32 at ga
  unfold bary_beta32 at gb
  unfold bary_gamma32 at gc
  rw [hA] at ga gb gc
  obtain ⟨a, b, c, ea, eb, ec, a0, b0, c0, h4⟩ :=
    weights32_inside _ _ _ _ (by ring) hS0 ra rb rc rS ga gb gc
  have e1 : bary_alpha32 L i j = Flt.fin a := by
    unfold bary_alpha32
    rw [hA]
    exact ea
  have e2 : bary_beta32 L i j = Flt.fin b := by
    unfold bary_beta32
    rw [hA]
    exact eb
  have e3 : bary_gamma32 L i j = Flt.fin c := by
    unfold bary_gamma32
    rw [hA]
    exact ec
  rw [e1, e2, e3]
  exact k_gour32_pos tri a b c a0 b0 c0 h4 hw0 hw1 hw2
    (lt_of_le_of_lt (le_abs_self _) fw0.2) (lt_of_le_of_lt (le_abs_self _) fw1.2)
    (lt_of_le_of_lt (le_abs_self _) fw2.2)

/-- C17, amended: for a triangle whose three `w` are positive, at every pixel
that passes the inside test of a triangle of non-zero area: in single
precision, with `w0`, `w1`, `w2` floats and the `int` expressions in range,
the factor `k_gour = alpha/w0 + beta/w1 + gamma/w2` is above zero and the
divisors `w_l` and `area_ABC` are non-zero; in exact arithmetic standing in
for floating point, moreover, `k_gour` is a finite positive number `k`, the
divisors `k_gour * w_l` are non-zero, and the corrected weights
`alpha/(k_gour*w0)`, `beta/(k_gour*w1)`, `gamma/(k_gour*w2)` are finite,
non-negative and sum to 1. -/
theorem perspective_factor_positive (state : driver_state) (tri : triangle) (i j : Int)
    (hw0 : 0 < tri.v0.gl_Position.c3) (hw1 : 0 < tri.v1.gl_Position.c3)
    (hw2 : 0 < tri.v2.gl_Position.c3) :
    (∀ L : raster_locals, raster_setup32 state tri = some L → L.area_ABC ≠ Flt.fin 0 →
        int_exprs_in_range L i j → is_float32 tri.v0.gl_Position.c3 →
        is_float32 tri.v1.gl_Position.c3 → is_float32 tri.v2.gl_Position.c3 →
        inside_test32 L i j = true →
        (Flt.fin 0).lt (k_gour32 tri (bary_alpha32 L i j) (bary_beta32 L i j)
          (bary_gamma32 L i j)) = true
        ∧ Flt.fin tri.v0.gl_Position.c3 ≠ Flt.fin 0 ∧ Flt.fin tri.v1.gl_Position.c3 ≠ Flt.fin 0
        ∧ Flt.fin tri.v2.gl_Position.c3 ≠ Flt.fin 0 ∧ L.area_ABC ≠ Flt.fin 0)
    ∧ (∀ L : raster_locals, raster_setup state tri = some L → L.area_ABC ≠ Flt.fin 0 →
        inside_test L i j = true →
        ∃ k a' b' c' : ℚ,
          bary_alpha L i j / Flt.fin tri.v0.gl_Position.c3
              + bary_beta L i j / Flt.fin tri.v1.gl_Position.c3
              + bary_gamma L i j / Flt.fin tri.v2.gl_Position.c3 = Flt.fin k
          ∧ 0 < k
          ∧ tri.v0.gl_Position.c3 ≠ 0 ∧ tri.v1.gl_Position.c3 ≠ 0
          ∧ tri.v2.gl_Position.c3 ≠ 0
          ∧ k * tri.v0.gl_Position.c3 ≠ 0 ∧ k * tri.v1.gl_Position.c3 ≠ 0
          ∧ k * tri.v2.gl_Position.c3 ≠ 0
          ∧ bary_alpha L i j / (Flt.fin k * Flt.fin tri.v0.gl_Position.c3) = Flt.fin a'
          ∧ bary_beta L i j / (Flt.fin k * Flt.fin tri.v1.gl_Position.c3) = Flt.fin b'
          ∧ bary_gamma L i j / (Flt.fin k * Flt.fin tri.v2.gl_Position.c3) = Flt.fin c'
          ∧ 0 ≤ a' ∧ 0 ≤ b' ∧ 0 ≤ c' ∧ a' + b' + c' = 1) := by
  have ne : ∀ w : ℚ, 0 < w → Flt.fin w ≠ Flt.fin 0 := by
    intro w hw h
    injection h with h
    linarith
  refine ⟨fun L hL harea hr fw0 fw1 fw2 hin =>
    ⟨k_gour32_positive state tri L i j hL harea hr hw0 hw1 hw2 fw0 fw1 fw2 hin,
      ne _ hw0, ne _ hw1, ne _ hw2, harea⟩, fun L hL harea hin => ?_⟩
  exact perspective_factor_exact state tri L i j hL harea hw0 hw1 hw2 hin

/-- Witness of `perspective_factor_positive`: pixel `(1, 0)` of `persp_triangle` on
a 4×4 buffer, where `k_gour = 3/4` in single precision and in exact arithmetic. -/
theorem perspective_factor_positive_witness :
    (Flt.fin 0).lt (k_gour32 persp_triangle (bary_alpha32 persp_locals 1 0)
        (bary_beta32 persp_locals 1 0) (bary_gamma32 persp_locals 1 0)) = true
    ∧ ∃ k a' b' c' : ℚ,
      bary_alpha persp_locals 1 0 / Flt.fin persp_triangle.v0.gl_Position.c3
          + bary_beta persp_locals 1 0 / Flt.fin persp_triangle.v1.gl_Position.c3
          + bary_gamma persp_locals 1 0 / Flt.fin persp_triangle.v2.gl_Position.c3 = Flt.fin k
      ∧ 0 < k
      ∧ bary_alpha persp_locals 1 0
          / (Flt.fin k * Flt.fin persp_triangle.v0.gl_Position.c3) = Flt.fin a'
      ∧ bary_beta persp_locals 1 0
          / (Flt.fin k * Flt.fin persp_triangle.v1.gl_Position.c3) = Flt.fin b'
      ∧ bary_gamma persp_locals 1 0
          / (Flt.fin k * Flt.fin persp_triangle.v2.gl_Position.c3) = Flt.fin c'
      ∧ 0 ≤ a' ∧ 0 ≤ b' ∧ 0 ≤ c' ∧ a' + b' + c' = 1 := by
  have h := perspective_factor_positive
    (sample_state [interp_type.smooth, interp_type.noperspective] 1 4 4) persp_triangle 1 0
    (by simp [persp_triangle, vertex]) (by simp [persp_triangle, vertex])
    (by simp [persp_triangle, vertex])
  obtain ⟨h32, -⟩ := h.1 persp_locals (by decide!) (by decide!)
    (by unfold int_exprs_in_range in_int_range; decide!) (by decide!)
    (by decide!) (by decide!) (by decide!)
  obtain ⟨k, a', b', c', h1, h2, -, -, -, -, -, -, h3, h4, h5, h6, h7, h8, h9⟩ :=
    h.2 persp_locals (by decide!) (by decide!) (by decide!)
  exact ⟨h32, k, a', b', c', h1, h2, h3, h4, h5, h6, h7, h8, h9⟩

/-! ## Counterexamples in single precision -/

/-- C16, counterexample: in single precision, on an image of width
`2^24` the vertex with `x = w = 1`, which satisfies `w > 0` and `-w ≤ x ≤ w`,
gets `screen_x = 2^24`, the width itself and not at most `width - 1`; the
same happens at width `2^23 + 2`. -/
theorem view_volume_off_grid32 :
    in_view_xy (vertex 1 0 0 1 [])
      ∧ to_screen32 (half32 (2 ^ 24)) (vertex 1 0 0 1 []).gl_Position.c0
          (vertex 1 0 0 1 []).gl_Position.c3 = some (2 ^ 24)
      ∧ ¬ ((2 : Int) ^ 24 ≤ 2 ^ 24 - 1)
      ∧ to_screen32 (half32 (2 ^ 23 + 2)) (vertex 1 0 0 1 []).gl_Position.c0
          (vertex 1 0 0 1 []).gl_Position.c3 = some (2 ^ 23 + 2)
      ∧ ¬ ((2 : Int) ^ 23 + 2 ≤ 2 ^ 23 + 2 - 1) := by
  refine ⟨?_, by decide!, by decide, by decide!, by decide⟩
  simp only [in_view_xy, vertex]
  norm_num

/-- C17, counterexample: in single precision, at the inside pixel
`(1, 0)` of `persp_triangle` (non-zero area, all `w > 0`) on a 4×4 image the
corrected weights are `11184811/2^24`, `11184811/2^25` and `0`, whose sum is
not 1; and at the inside pixel `(2, 0)` of `underflow_triangle` (non-zero area,
all `w > 0`) the product `k_gour * w0` is zero, so that `alpha / (k_gour * w0)`
divides by zero and is `NaN`. -/
theorem perspective_weights_inexact32 :
    (raster_setup32 (sample_state [interp_type.smooth] 0 4 4) persp_triangle = some persp_locals
      ∧ persp_locals.area_ABC ≠ Flt.fin 0
      ∧ 0 < persp_triangle.v0.gl_Position.c3 ∧ 0 < persp_triangle.v1.gl_Position.c3
      ∧ 0 < persp_triangle.v2.gl_Position.c3
      ∧ inside_test32 persp_locals 1 0 = true
      ∧ k_gour32 persp_triangle (bary_alpha32 persp_locals 1 0) (bary_beta32 persp_locals 1 0)
          (bary_gamma32 persp_locals 1 0) = Flt.fin (3 / 4)
      ∧ Flt.div32 (bary_alpha32 persp_locals 1 0)
          (Flt.mul32 (Flt.fin (3 / 4)) (Flt.fin persp_triangle.v0.gl_Position.c3))
          = Flt.fin (11184811 / 2 ^ 24)
      ∧ Flt.div32 (bary_beta32 persp_locals 1 0)
          (Flt.mul32 (Flt.fin (3 / 4)) (Flt.fin persp_triangle.v1.gl_Position.c3))
          = Flt.fin (11184811 / 2 ^ 25)
      ∧ Flt.div32 (bary_gamma32 persp_locals 1 0)
          (Flt.mul32 (Flt.fin (3 / 4)) (Flt.fin persp_triangle.v2.gl_Position.c3))
          = Flt.fin 0
      ∧ (11184811 / 2 ^ 24 + 11184811 / 2 ^ 25 + 0 : ℚ) ≠ 1)
    ∧ (raster_setup32 (sample_state [interp_type.smooth] 0 4 4) underflow_triangle
          = some persp_locals
      ∧ 0 < underflow_triangle.v0.gl_Position.c3 ∧ 0 < underflow_triangle.v1.gl_Position.c3
      ∧ 0 < underflow_triangle.v2.gl_Position.c3
      ∧ is_float32 underflow_triangle.v0.gl_Position.c3
      ∧ is_float32 underflow_triangle.v1.gl_Position.c3
      ∧ inside_test32 persp_locals 2 0 = true
      ∧ k_gour32 underflow_triangle (bary_alpha32 persp_locals 2 0)
          (bary_beta32 persp_locals 2 0) (bary_gamma32 persp_locals 2 0)
          = Flt.fin (1 / 2 ^ 100)
      ∧ Flt.mul32 (Flt.fin (1 / 2 ^ 100)) (Flt.fin underflow_triangle.v0.gl_Position.c3)
          = Flt.fin 0
      ∧ Flt.div32 (bary_alpha32 persp_locals 2 0)
          (Flt.mul32 (Flt.fin (1 / 2 ^ 100)) (Flt.fin underflow_triangle.v0.gl_Position.c3))
          = Flt.nan) := by
  refine ⟨⟨by decide!, by decide!, by decide!, by decide!, by decide!, by decide!, by decide!,
    by decide!, by decide!, by decide!, by decide!⟩,
    ⟨by decide!, by decide!, by decide!, by decide!, by decide!, by decide!, by decide!,
    by decide!, by decide!, by decide!⟩⟩

/-- C19, counterexample: in single precision, on a fresh 4×4 buffer
the triangle `skew_triangle` and the same triangle with its vertices in the
order 1, 2, 0 both cover pixel `(1, 1)`, but the interpolated depth `z_val`
there is `2936013/2^21` for the first order and `11744051/2^23` for the second,
and these two different depths are what the two runs leave in cell 5 of the
depth buffer. -/
theorem z_val_depends_on_vertex_order32 :
    skew_triangle.reordering skew_rotated
      ∧ raster_setup32 (sample_state [interp_type.flat] 0 4 4) skew_triangle = some skew_locals
      ∧ raster_setup32 (sample_state [interp_type.flat] 0 4 4) skew_rotated
          = some skew_rotated_locals
      ∧ inside_test32 skew_locals 1 1 = true
      ∧ inside_test32 skew_rotated_locals 1 1 = true
      ∧ z_val32 skew_locals 1 1 = Flt.fin (2936013 / 2 ^ 21)
      ∧ z_val32 skew_rotated_locals 1 1 = Flt.fin (11744051 / 2 ^ 23)
      ∧ z_val32 skew_rotated_locals 1 1 ≠ z_val32 skew_locals 1 1
      ∧ (rasterize_triangle32 (sample_state [interp_type.flat] 0 4 4) skew_triangle).map
          (fun s => s.image_depth[5]?) = some (some (Flt.fin (2936013 / 2 ^ 21)))
      ∧ (rasterize_triangle32 (sample_state [interp_type.flat] 0 4 4) skew_rotated).map
          (fun s => s.image_depth[5]?) = some (some (Flt.fin (11744051 / 2 ^ 23)))
      ∧ (rasterize_triangle32 (sample_state [interp_type.flat] 0 4 4) skew_rotated).map
          (fun s => s.image_depth)
        ≠ (rasterize_triangle32 (sample_state [interp_type.flat] 0 4 4) skew_triangle).map
          (fun s => s.image_depth) := by
  refine ⟨Or.inr (Or.inr (Or.inr (Or.inl rfl))), by decide!, by decide!, by decide!, by decide!,
    by decide!, by decide!, by decide!, by decide!, by decide!, by decide!⟩
